import Mathlib

/-!
# Symbol table and AST code generation

A shallow embedding of `symbol_table.h`, `ast.h` and `ast.cc`.

Conventions of the embedding.

* `std::vector<T>` is a `List T` in index order: `push_back x` is `xs ++ [x]`, `pop_back` is
  `List.dropLast`, `v[v.size() - 1]` is `List.getLast?`.  Indexing an empty vector that way
  is undefined behaviour in C++ and is reported as `Error.undefined`.
* `std::map<std::string, TableEntry *>` is an association list kept in key order, so that
  iterating it visits the entries the way the C++ iterator does.
* A `TableEntry *` is the entry itself (entries are never mutated after `new`); a possibly
  null pointer is an `Option`.
* The two counters have the type `int`.  `getNextLocation`, `getNextLabel` and the methods and
  node classes built on them take `++counter` as `counter + 1`, which is what the increment
  does while the counter is below `INT_MAX`.  At `INT_MAX` the increment is a signed
  overflow, undefined behaviour in C++, and the compiled increment wraps to `INT_MIN`: the
  definitions with the suffix `_int` do that (`pre_increment`), the calls of `TableOp` run
  them, and the theorems on locations and labels that are fresh carry the bound under which
  the two agree.
* `fout` is the list of the records completed so far, one per `fout << ... << endl`
  statement.  When `exit(1)` ends the run inside such a statement, the text the statement has
  already written is not a completed record and is not in the list.
* `exit(1)` and `yyerror` end the run: they are the `Error` results.  Diagnostics written to
  `std::cout` are carried in the error value; the two trace messages of the loop stack are
  not part of the instruction stream and are left out.
-/

/-- The enumeration `Type::Typenames`. -/
inductive Typenames where
  | VOID
  | VAL
  | CHAR
  | STRING
  | VAL_ARRAY
  deriving DecidableEq

/-- The ways a run ends early. -/
inductive Error where
  /-- A call of the external `yyerror` with its message. -/
  | yyerror (msg : String)
  /-- An internal compiler error: the message written to `std::cout`, then `exit(1)`. -/
  | exit (msg : String)
  /-- Undefined behaviour: indexing an empty vector, dereferencing a null pointer. -/
  | undefined
  deriving DecidableEq

/-- The class `TableEntry`; `name` is the empty string for a temporary. -/
structure TableEntry where
  type_id : Typenames
  name : String
  location : Int
  deriving DecidableEq

namespace TableEntry

/-- The accessor `TableEntry::getType`. -/
def getType (entry : TableEntry) : Typenames := entry.type_id

/-- The accessor `TableEntry::getName`. -/
def getName (entry : TableEntry) : String := entry.name

/-- The method `TableEntry::getLocation`: the letter `s` and the location for `VAL` and
`CHAR`, an internal error for every other kind.  `operator<<` on an entry writes this. -/
def getLocation (entry : TableEntry) : Except Error String :=
  if entry.type_id = Typenames.VAL ∨ entry.type_id = Typenames.CHAR then
    .ok ("s" ++ toString entry.location)
  else
    .error (.exit ("ERROR: Internal compiler error: don't know how to handle that type in memory yet: "
      ++ entry.name))

end TableEntry

/-- One scope: a `std::map<std::string, TableEntry *>`, as an association list. -/
abbrev ScopeMap := List (String × TableEntry)

/-- The lookup `map::find`: the entry stored under `name`, if there is one. -/
def map_find (name : String) : ScopeMap → Option TableEntry
  | [] => none
  | (k, v) :: rest => if k = name then some v else map_find name rest

/-- The assignment `m[name] = entry`: replaces the entry of an existing key, inserts a new
key at its place in key order. -/
def map_assign (name : String) (entry : TableEntry) : ScopeMap → ScopeMap
  | [] => [(name, entry)]
  | (k, v) :: rest =>
    if name.data < k.data then (name, entry) :: (k, v) :: rest
    else if k = name then (name, entry) :: rest
    else (k, v) :: map_assign name entry rest

/-- The values of a map in iteration order (`it -> second`). -/
def map_values (m : ScopeMap) : List TableEntry := m.map Prod.snd

/-- The largest value of the type `int` of the two counters (32 bits). -/
def INT_MAX : Int := 2147483647

/-- The smallest value of the type `int`. -/
def INT_MIN : Int := -2147483648

/-- The value of type `int` that two's complement arithmetic gives for a mathematical
integer. -/
def int_wrap (x : Int) : Int := (x + 2147483648) % 4294967296 - 2147483648

/-- The expression `++counter` on a counter of type `int`.  At `INT_MAX` the increment is a
signed overflow, which is undefined behaviour in C++; the compiled increment wraps to
`INT_MIN`, and that is the value given here. -/
def pre_increment (counter : Int) : Int := int_wrap (counter + 1)

/-- The class `SymbolTable`. -/
structure SymbolTable where
  table_stack : List ScopeMap
  archive : List TableEntry
  location_allotment : Int
  label_allotment : Int
  while_stack : List String
  deriving DecidableEq

namespace SymbolTable

/-- The loop of `SymbolTable::find`, over the scopes from the top of the stack down. -/
def find_loop (name : String) : List ScopeMap → Option TableEntry
  | [] => none
  | table :: below =>
    match map_find name table with
    | some entry => some entry
    | none => find_loop name below

/-- The private method `SymbolTable::find`: `i` runs from `size() - 1` down to `0`; a null
result is `none`. -/
def find (t : SymbolTable) (name : String) : Option TableEntry :=
  find_loop name t.table_stack.reverse

/-- The method `getNextLocation` on a counter below `INT_MAX`: pre-increment, the new value
is returned. -/
def getNextLocation (t : SymbolTable) : Int × SymbolTable :=
  (t.location_allotment + 1, { t with location_allotment := t.location_allotment + 1 })

/-- The method `getNextLocation` on every counter of type `int`: `++location_allotment` wraps
at `INT_MAX`. -/
def getNextLocation_int (t : SymbolTable) : Int × SymbolTable :=
  (pre_increment t.location_allotment,
   { t with location_allotment := pre_increment t.location_allotment })

/-- The method `incrementScope`: pushes an empty map. -/
def incrementScope (t : SymbolTable) : SymbolTable :=
  { t with table_stack := t.table_stack ++ [[]] }

/-- The method `decrementScope`: copies the entries of the top map to the archive and pops
the map. -/
def decrementScope (t : SymbolTable) : Except Error SymbolTable :=
  match t.table_stack.getLast? with
  | none => .error .undefined
  | some finished =>
    .ok { t with archive := t.archive ++ map_values finished,
                 table_stack := t.table_stack.dropLast }

/-- The method `getNextLabel` on a counter below `INT_MAX`: the argument, an underscore, and
the pre-incremented label counter. -/
def getNextLabel (label : String) (t : SymbolTable) : String × SymbolTable :=
  (label ++ "_" ++ toString (t.label_allotment + 1),
   { t with label_allotment := t.label_allotment + 1 })

/-- The method `getNextLabel` on every counter of type `int`: `++label_allotment` wraps at
`INT_MAX`. -/
def getNextLabel_int (label : String) (t : SymbolTable) : String × SymbolTable :=
  (label ++ "_" ++ toString (pre_increment t.label_allotment),
   { t with label_allotment := pre_increment t.label_allotment })

/-- The method `while_stack_top`: `while_stack[while_stack.size() - 1]`, with no check for an
empty stack. -/
def while_stack_top (t : SymbolTable) : Except Error String :=
  match t.while_stack.getLast? with
  | none => .error .undefined
  | some top => .ok top

/-- The method `while_stack_size`. -/
def while_stack_size (t : SymbolTable) : Int := t.while_stack.length

/-- The method `push_to_while_stack`. -/
def push_to_while_stack (t : SymbolTable) : SymbolTable :=
  let (label, t1) := getNextLabel "while" t
  { t1 with while_stack := t1.while_stack ++ [label] }

/-- The method `push_to_while_stack` with `getNextLabel_int`. -/
def push_to_while_stack_int (t : SymbolTable) : SymbolTable :=
  let (label, t1) := getNextLabel_int "while" t
  { t1 with while_stack := t1.while_stack ++ [label] }

/-- The method `pop_from_while_stack`: reads the top, then pops. -/
def pop_from_while_stack (t : SymbolTable) : Except Error SymbolTable :=
  match while_stack_top t with
  | .error e => .error e
  | .ok _ => .ok { t with while_stack := t.while_stack.dropLast }

/-- The body of `addEntry` with the entry made by `new TableEntry` kept in the result. -/
def addEntry_new (in_type : Typenames) (in_name : String) (t : SymbolTable) :
    Except Error (TableEntry × SymbolTable) :=
  match t.table_stack.getLast? with
  | none => .error .undefined
  | some top =>
    let (location, t1) := getNextLocation t
    let entry : TableEntry := ⟨in_type, in_name, location⟩
    .ok (entry, { t1 with table_stack := t1.table_stack.dropLast ++ [map_assign in_name entry top] })

/-- The body of `addEntry` with `getNextLocation_int`. -/
def addEntry_new_int (in_type : Typenames) (in_name : String) (t : SymbolTable) :
    Except Error (TableEntry × SymbolTable) :=
  match t.table_stack.getLast? with
  | none => .error .undefined
  | some top =>
    let (location, t1) := getNextLocation_int t
    let entry : TableEntry := ⟨in_type, in_name, location⟩
    .ok (entry, { t1 with table_stack := t1.table_stack.dropLast ++ [map_assign in_name entry top] })

/-- The method `addEntry`: binds the name in the top scope to a new entry; there is no test
for an existing binding. -/
def addEntry (in_type : Typenames) (in_name : String) (t : SymbolTable) :
    Except Error SymbolTable :=
  match addEntry_new in_type in_name t with
  | .error e => .error e
  | .ok (_, t1) => .ok t1

/-- The method `createEntry`: a nameless entry, pushed to the archive and returned. -/
def createEntry (in_type : Typenames) (t : SymbolTable) : TableEntry × SymbolTable :=
  let (location, t1) := getNextLocation t
  let entry : TableEntry := ⟨in_type, "", location⟩
  (entry, { t1 with archive := t1.archive ++ [entry] })

/-- The method `createEntry` with `getNextLocation_int`. -/
def createEntry_int (in_type : Typenames) (t : SymbolTable) : TableEntry × SymbolTable :=
  let (location, t1) := getNextLocation_int t
  let entry : TableEntry := ⟨in_type, "", location⟩
  (entry, { t1 with archive := t1.archive ++ [entry] })

/-- The method `getEntry`: `find`, and an internal error when it finds nothing. -/
def getEntry (t : SymbolTable) (name : String) : Except Error TableEntry :=
  match find t name with
  | none => .error (.exit ("ERROR: Internal compiler error: getEntry on unknown name: " ++ name))
  | some entry => .ok entry

/-- The method `declared`. -/
def declared (t : SymbolTable) (in_name : String) : Bool :=
  (find t in_name).isSome

/-- The method `declaredInCurrentScope`: a lookup in the top map only. -/
def declaredInCurrentScope (t : SymbolTable) (in_name : String) : Except Error Bool :=
  match t.table_stack.getLast? with
  | none => .error .undefined
  | some scope => .ok (map_find in_name scope).isSome

/-- The constructor `SymbolTable()` of the global `table`: zero-initialised counters, empty
vectors, and one call of `incrementScope` for the global scope. -/
def init : SymbolTable :=
  incrementScope ⟨[], [], 0, 0, []⟩

end SymbolTable

/-- A call of a public method of the symbol table. -/
inductive TableOp where
  | push_to_while_stack
  | while_stack_top
  | while_stack_size
  | pop_from_while_stack
  | getNextLocation
  | incrementScope
  | decrementScope
  | getNextLabel (label : String)
  | addEntry (in_type : Typenames) (in_name : String)
  | createEntry (in_type : Typenames)
  | getEntry (name : String)
  | declared (in_name : String)
  | declaredInCurrentScope (in_name : String)
  deriving DecidableEq

/-- What one call brings about: the entries it created with `new` and the labels it issued. -/
structure Issued where
  slots : List TableEntry
  labels : List String
  deriving DecidableEq

/-- Performs one call on the table, with the counters of type `int`. -/
def TableOp.apply (op : TableOp) (t : SymbolTable) : Except Error (Issued × SymbolTable) :=
  match op with
  | .push_to_while_stack =>
    .ok (⟨[], [(SymbolTable.getNextLabel_int "while" t).1]⟩,
      SymbolTable.push_to_while_stack_int t)
  | .while_stack_top =>
    match SymbolTable.while_stack_top t with
    | .error e => .error e
    | .ok _ => .ok (⟨[], []⟩, t)
  | .while_stack_size => .ok (⟨[], []⟩, t)
  | .pop_from_while_stack =>
    match SymbolTable.pop_from_while_stack t with
    | .error e => .error e
    | .ok t1 => .ok (⟨[], []⟩, t1)
  | .getNextLocation => .ok (⟨[], []⟩, (SymbolTable.getNextLocation_int t).2)
  | .incrementScope => .ok (⟨[], []⟩, SymbolTable.incrementScope t)
  | .decrementScope =>
    match SymbolTable.decrementScope t with
    | .error e => .error e
    | .ok t1 => .ok (⟨[], []⟩, t1)
  | .getNextLabel label =>
    .ok (⟨[], [(SymbolTable.getNextLabel_int label t).1]⟩,
      (SymbolTable.getNextLabel_int label t).2)
  | .addEntry in_type in_name =>
    match SymbolTable.addEntry_new_int in_type in_name t with
    | .error e => .error e
    | .ok (entry, t1) => .ok (⟨[entry], []⟩, t1)
  | .createEntry in_type =>
    .ok (⟨[(SymbolTable.createEntry_int in_type t).1], []⟩,
      (SymbolTable.createEntry_int in_type t).2)
  | .getEntry name =>
    match SymbolTable.getEntry t name with
    | .error e => .error e
    | .ok _ => .ok (⟨[], []⟩, t)
  | .declared _ => .ok (⟨[], []⟩, t)
  | .declaredInCurrentScope in_name =>
    match SymbolTable.declaredInCurrentScope t in_name with
    | .error e => .error e
    | .ok _ => .ok (⟨[], []⟩, t)

/-- The number of calls in a list that take a location from the counter (`getNextLocation`
itself, `addEntry` and `createEntry`). -/
def location_calls : List TableOp → Nat
  | [] => 0
  | .getNextLocation :: rest => location_calls rest + 1
  | .addEntry _ _ :: rest => location_calls rest + 1
  | .createEntry _ :: rest => location_calls rest + 1
  | _ :: rest => location_calls rest

/-- The number of calls in a list that take a label from the counter (`getNextLabel` and
`push_to_while_stack`). -/
def label_calls : List TableOp → Nat
  | [] => 0
  | .getNextLabel _ :: rest => label_calls rest + 1
  | .push_to_while_stack :: rest => label_calls rest + 1
  | _ :: rest => label_calls rest

/-- Performs the calls in order; the run ends at the first call that fails.  The result is
everything issued up to there and the table reached. -/
def runOps : List TableOp → SymbolTable → Issued × SymbolTable
  | [], t => (⟨[], []⟩, t)
  | op :: rest, t =>
    match op.apply t with
    | .error _ => (⟨[], []⟩, t)
    | .ok (now, t1) =>
      ((⟨now.slots ++ (runOps rest t1).1.slots, now.labels ++ (runOps rest t1).1.labels⟩ : Issued),
       (runOps rest t1).2)

/-- The two globals the nodes work on: the symbol table `table` and the stream `fout`. -/
structure World where
  table : SymbolTable
  fout : List String
  deriving DecidableEq

/-- A computation on the globals that may end the run; the globals reached are kept in
either case. -/
def Compile (α : Type) : Type := World → Except Error α × World

namespace Compile

/-- Returns a value, leaving the globals alone. -/
def ret {α : Type} (a : α) : Compile α := fun w => (.ok a, w)

/-- Ends the run. -/
def fail {α : Type} (e : Error) : Compile α := fun w => (.error e, w)

/-- Sequencing: a failure of the first part skips the second. -/
def andThen {α β : Type} (m : Compile α) (f : α → Compile β) : Compile β := fun w =>
  match m w with
  | (.ok a, w1) => f a w1
  | (.error e, w1) => (.error e, w1)

instance : Monad Compile where
  pure := ret
  bind := andThen

/-- One statement `fout << ... << endl`. -/
def emit (line : String) : Compile Unit := fun w =>
  (.ok (), { w with fout := w.fout ++ [line] })

/-- The text `operator<<` writes for `*p`; a null `p` cannot be dereferenced. -/
def render (p : Option TableEntry) : Compile String :=
  match p with
  | none => fail .undefined
  | some entry =>
    match entry.getLocation with
    | .ok s => ret s
    | .error e => fail e

/-- The call `table.createEntry(in_type)`. -/
def createEntry (in_type : Typenames) : Compile TableEntry := fun w =>
  (.ok (w.table.createEntry in_type).1, { w with table := (w.table.createEntry in_type).2 })

/-- The call `table.createEntry(in_type)` with the location counter of type `int`. -/
def createEntry_int (in_type : Typenames) : Compile TableEntry := fun w =>
  (.ok (w.table.createEntry_int in_type).1,
   { w with table := (w.table.createEntry_int in_type).2 })

/-- The call `table.getNextLabel(label)`. -/
def getNextLabel (label : String) : Compile String := fun w =>
  (.ok (w.table.getNextLabel label).1, { w with table := (w.table.getNextLabel label).2 })

/-- The call `table.while_stack_top()`. -/
def while_stack_top : Compile String := fun w =>
  match w.table.while_stack_top with
  | .ok top => (.ok top, w)
  | .error e => (.error e, w)

/-- The call `table.while_stack_size()`. -/
def while_stack_size : Compile Int := fun w => (.ok w.table.while_stack_size, w)

end Compile

/-- Modelled from the spec: the function `yyerror` is only declared in `ast.h`
(`extern void yyerror(std::string)`); by the error-handling section of the specification the
first detected error aborts the compilation with its message. -/
def yyerror {α : Type} (msg : String) : Compile α := Compile.fail (.yyerror msg)

/-- The table `op_to_instruction` of `ast.cc`. -/
def op_to_instruction : List (String × String) :=
  [("==", "test_equ"), ("!=", "test_nequ"), ("<", "test_less"), ("<=", "test_lte"),
   (">", "test_gtr"), (">=", "test_gte"), ("+", "add"), ("-", "sub"), ("*", "mult"),
   ("/", "div")]

/-- The lookup `op_to_instruction[op]`: `std::map::operator[]` yields the empty string for a
key that is not in the map. -/
def op_to_instruction_at (op : String) : String :=
  match op_to_instruction.lookup op with
  | some instruction => instruction
  | none => ""

/-- The set `relational_ops` of `ast.cc`. -/
def relational_ops : List String := ["==", "!=", "<", "<=", ">", ">="]

/-- The set `math_ops` of `ast.cc`. -/
def math_ops : List String := ["+", "-", "*", "/", "&&", "||", "!", "+=", "-=", "*=", "/="]

/-- The node classes of `ast.h`, each with the members its constructor sets.  The member
`type` of the base class is stored where the constructor computes it from its arguments and
is the constant the constructor passes to `ASTNode_Base` otherwise (see `ASTNode.getType`).
`Root`, `Print` and `Temp` get their children through `addChild`; the pointer
`else_statement` of `If` may be null. -/
inductive ASTNode where
  | Temp (type : Typenames) (children : List ASTNode)
  | Root (children : List ASTNode)
  | Variable (type : Typenames) (var_entry : TableEntry)
  | Literal (type : Typenames) (lexeme : String)
  | Assign (type : Typenames) (lhs rhs : ASTNode)
  | Math1_Minus (child : ASTNode)
  | Math2 (math_instruction : String) (in1 in2 : ASTNode)
  | BoolAnd (in1 in2 : ASTNode)
  | BoolOr (in1 in2 : ASTNode)
  | Print (children : List ASTNode)
  | Random (inp : ASTNode)
  | Not (inp : ASTNode)
  | If (cond if_statement : ASTNode) (else_statement : Option ASTNode)
  | While (while_label : String) (cond statement : ASTNode)
  | Break (while_label : String)
  | Continue (while_label : String)

namespace ASTNode

/-- The accessor `ASTNode_Base::getType`. -/
def getType : ASTNode → Typenames
  | Temp type _ => type
  | Root _ => .VOID
  | Variable type _ => type
  | Literal type _ => type
  | Assign type _ _ => type
  | Math1_Minus _ => .VAL
  | Math2 _ _ _ => .VAL
  | BoolAnd _ _ => .VAL
  | BoolOr _ _ => .VAL
  | Print _ => .VOID
  | Random _ => .VAL
  | Not _ => .VAL
  | If _ _ _ => .VOID
  | While _ _ _ => .VOID
  | Break _ => .VOID
  | Continue _ => .VOID

/-- The method `addChild` for the classes that are filled after construction. -/
def addChild (node in_child : ASTNode) : ASTNode :=
  match node with
  | Temp type children => Temp type (children ++ [in_child])
  | Root children => Root (children ++ [in_child])
  | Print children => Print (children ++ [in_child])
  | other => other

end ASTNode

/-- The helper `math_val_check` of `ast.cc`. -/
def math_val_check (node : ASTNode) : Compile Unit :=
  if node.getType ≠ Typenames.VAL then
    yyerror "cannot use type in mathematical expression"
  else pure ()

/-- The constructor `ASTNode_Temp`. -/
def ASTNode_Temp (in_type : Typenames) : Compile ASTNode :=
  pure (.Temp in_type [])

/-- The constructor `ASTNode_Root`. -/
def ASTNode_Root : Compile ASTNode :=
  pure (.Root [])

/-- The constructor `ASTNode_Variable`. -/
def ASTNode_Variable (in_entry : TableEntry) : Compile ASTNode :=
  pure (.Variable in_entry.getType in_entry)

/-- The constructor `ASTNode_Literal`. -/
def ASTNode_Literal (in_type : Typenames) (in_lex : String) : Compile ASTNode :=
  pure (.Literal in_type in_lex)

/-- The constructor `ASTNode_Assign`. -/
def ASTNode_Assign (lhs rhs : ASTNode) : Compile ASTNode := do
  if lhs.getType ≠ rhs.getType then
    yyerror "types do not match for assignment"
  else
    pure (.Assign lhs.getType lhs rhs)

/-- The constructor `ASTNode_Math1_Minus`. -/
def ASTNode_Math1_Minus (child : ASTNode) : Compile ASTNode := do
  math_val_check child
  pure (.Math1_Minus child)

/-- The relational test in the constructor `ASTNode_Math2`. -/
def relational_check (type_1 type_2 : Typenames) (op : String) : Compile Unit :=
  if op ∈ relational_ops ∧ type_1 ≠ type_2 then
    yyerror "types do not match for relationship operator."
  else pure ()

/-- The constructor `ASTNode_Math2`. -/
def ASTNode_Math2 (in1 in2 : ASTNode) (op : String) : Compile ASTNode := do
  let type_1 := in1.getType
  let type_2 := in2.getType
  relational_check type_1 type_2 op
  if op ∈ math_ops then
    math_val_check in1
    math_val_check in2
  pure (.Math2 (op_to_instruction_at op) in1 in2)

/-- The constructor `ASTNode_BoolAnd`. -/
def ASTNode_BoolAnd (in1 in2 : ASTNode) : Compile ASTNode := do
  math_val_check in1
  math_val_check in2
  pure (.BoolAnd in1 in2)

/-- The constructor `ASTNode_BoolOr`. -/
def ASTNode_BoolOr (in1 in2 : ASTNode) : Compile ASTNode := do
  math_val_check in1
  math_val_check in2
  pure (.BoolOr in1 in2)

/-- The constructor `ASTNode_Print`. -/
def ASTNode_Print : Compile ASTNode :=
  pure (.Print [])

/-- The constructor `ASTNode_Random`, with its own test of the argument. -/
def ASTNode_Random (inp : ASTNode) : Compile ASTNode := do
  if inp.getType ≠ Typenames.VAL then
    yyerror "cannot use type as argument to random"
  else
    pure (.Random inp)

/-- The constructor `ASTNode_Not`. -/
def ASTNode_Not (inp : ASTNode) : Compile ASTNode := do
  math_val_check inp
  pure (.Not inp)

/-- The constructor `ASTNode_If`. -/
def ASTNode_If (cond if_statement : ASTNode) (else_statement : Option ASTNode) :
    Compile ASTNode := do
  let cond_type := cond.getType
  if cond_type ≠ Typenames.VAL then
    yyerror "condition for if statements must evaluate to type val"
  else
    pure (.If cond if_statement else_statement)

/-- The constructor `ASTNode_While`: the label is read from the loop stack before the
condition is checked. -/
def ASTNode_While (cond statement : ASTNode) : Compile ASTNode := do
  let while_label ← Compile.while_stack_top
  let cond_type := cond.getType
  if cond_type ≠ Typenames.VAL then
    yyerror "condition for while statements must evaluate to type val"
  else
    pure (.While while_label cond statement)

/-- The constructor `ASTNode_Break`. -/
def ASTNode_Break : Compile ASTNode := do
  let size ← Compile.while_stack_size
  if size ≤ 0 then
    yyerror "'break' command used outside of any loop"
  else
    let while_label ← Compile.while_stack_top
    pure (.Break while_label)

/-- The constructor `ASTNode_Continue`. -/
def ASTNode_Continue : Compile ASTNode := do
  let size ← Compile.while_stack_size
  if size ≤ 0 then
    yyerror "'continue' command used outside of any loop"
  else
    let while_label ← Compile.while_stack_top
    pure (.Continue while_label)

/-- The kind of an item a `Print` node is about to write; a null item cannot be asked. -/
def item_getType (item : Option TableEntry) : Compile Typenames :=
  match item with
  | none => Compile.fail .undefined
  | some entry => pure entry.getType

/-- The choice of the output instruction in `ASTNode_Print::process`. -/
def out_instruction_for (item_type : Typenames) : Compile String :=
  if item_type = Typenames.VAL then pure "out_val"
  else if item_type = Typenames.CHAR then pure "out_char"
  else yyerror "Internal Compiler Error: trying to print an type I can't handle yet"

/-- The choice of the copy instruction in `ASTNode_Assign::process`. -/
def copy_instruction_for (type : Typenames) : Compile String :=
  if type = Typenames.VAL ∨ type = Typenames.CHAR then pure "val_copy"
  else yyerror "Internal Compiler Error: Assign doesn't handle this type yet"

open Compile in
mutual
/-- The virtual method `process` of every node class. -/
def ASTNode.process : ASTNode → Compile (Option TableEntry)
  | .Temp _ _ => pure none
  | .Root children => do
    emit "# Processing Root"
    ASTNode.process_children children
    pure none
  | .Variable _ var_entry => do
    emit "# Process Variable"
    pure (some var_entry)
  | .Literal type lexeme => do
    if type = Typenames.VAL ∨ type = Typenames.CHAR then
      let var ← createEntry type
      let var_text ← render (some var)
      emit ("val_copy " ++ lexeme ++ " " ++ var_text)
      pure (some var)
    else
      yyerror "Internal Compiler Error: AST_Node Literal handling wrong type"
  | .Assign type lhs rhs => do
    emit "# Process Assign"
    let lhs_entry ← ASTNode.process lhs
    let rhs_entry ← ASTNode.process rhs
    let copy_instruction ← copy_instruction_for type
    let rhs_text ← render rhs_entry
    let lhs_text ← render lhs_entry
    emit (copy_instruction ++ " " ++ rhs_text ++ " " ++ lhs_text)
    pure lhs_entry
  | .Math1_Minus child => do
    let entry ← ASTNode.process child
    let result ← createEntry Typenames.VAL
    emit "# Unary Minus"
    let entry_text ← render entry
    let result_text ← render (some result)
    emit ("sub 0 " ++ entry_text ++ " " ++ result_text)
    pure (some result)
  | .Math2 math_instruction in1 in2 => do
    let lhs ← ASTNode.process in1
    let rhs ← ASTNode.process in2
    let result ← createEntry Typenames.VAL
    emit ("# Math2 " ++ math_instruction)
    let lhs_text ← render lhs
    let rhs_text ← render rhs
    let result_text ← render (some result)
    emit (math_instruction ++ " " ++ lhs_text ++ " " ++ rhs_text ++ " " ++ result_text)
    pure (some result)
  | .BoolAnd in1 in2 => do
    emit "# Process And"
    let lhs_entry ← ASTNode.process in1
    let result_is_true ← createEntry Typenames.VAL
    let lhs_text ← render lhs_entry
    let result_text ← render (some result_is_true)
    emit ("test_nequ " ++ lhs_text ++ " 0 " ++ result_text)
    let label ← getNextLabel "And_ShortCircut_"
    let result_text ← render (some result_is_true)
    emit ("jump_if_0 " ++ result_text ++ " " ++ label)
    let rhs_entry ← ASTNode.process in2
    let rhs_text ← render rhs_entry
    let result_text ← render (some result_is_true)
    emit ("test_nequ " ++ rhs_text ++ " 0 " ++ result_text)
    emit (label ++ ":")
    pure (some result_is_true)
  | .BoolOr in1 in2 => do
    emit "# Process Or"
    let lhs_entry ← ASTNode.process in1
    let result_is_true ← createEntry Typenames.VAL
    let lhs_text ← render lhs_entry
    let result_text ← render (some result_is_true)
    emit ("test_nequ " ++ lhs_text ++ " 0 " ++ result_text)
    let label ← getNextLabel "Or_ShortCircuit_"
    let result_text ← render (some result_is_true)
    emit ("jump_if_n0 " ++ result_text ++ " " ++ label)
    let rhs_entry ← ASTNode.process in2
    let rhs_text ← render rhs_entry
    let result_text ← render (some result_is_true)
    emit ("test_nequ " ++ rhs_text ++ " 0 " ++ result_text)
    emit (label ++ ":")
    pure (some result_is_true)
  | .Print children => do
    emit "# Process Print"
    ASTNode.process_print children
    emit "out_char '\\n'"
    pure none
  | .Random inp => do
    emit "# Process Random"
    let input ← ASTNode.process inp
    let result ← createEntry Typenames.VAL
    let input_text ← render input
    let result_text ← render (some result)
    emit ("random " ++ input_text ++ " " ++ result_text)
    pure (some result)
  | .Not inp => do
    emit "# Process Not"
    let input ← ASTNode.process inp
    let result ← createEntry Typenames.VAL
    let input_text ← render input
    let result_text ← render (some result)
    emit ("test_equ 0 " ++ input_text ++ " " ++ result_text)
    pure (some result)
  | .If cond if_statement else_statement => do
    emit "# Process If"
    let cond_entry ← ASTNode.process cond
    let else_start ← getNextLabel "else_start_"
    let cond_text ← render cond_entry
    emit ("jump_if_0 " ++ cond_text ++ " " ++ else_start)
    emit "#If True Statement"
    let _ ← ASTNode.process if_statement
    let else_end ← getNextLabel "else_end_"
    emit ("jump " ++ else_end)
    emit (else_start ++ ":")
    emit "#If False Statement"
    match else_statement with
    | some node => do
      let _ ← ASTNode.process node
      emit (else_end ++ ":")
      pure none
    | none => do
      emit (else_end ++ ":")
      pure none
  | .While while_label cond statement => do
    emit "# Process While"
    let while_start := while_label ++ "_start"
    let while_end := while_label ++ "_end"
    emit (while_start ++ ":")
    let cond_entry ← ASTNode.process cond
    let cond_text ← render cond_entry
    emit ("jump_if_0 " ++ cond_text ++ " " ++ while_end)
    let _ ← ASTNode.process statement
    emit ("jump " ++ while_start)
    emit (while_end ++ ":")
    pure none
  | .Break while_label => do
    emit "# Process Break"
    emit ("jump " ++ while_label ++ "_end")
    pure none
  | .Continue while_label => do
    emit "# Process Continue"
    emit ("jump " ++ while_label ++ "_start")
    pure none
/-- The loop of `ASTNode_Root::process` over the children. -/
def ASTNode.process_children : List ASTNode → Compile Unit
  | [] => pure ()
  | child :: rest => do
    let _ ← ASTNode.process child
    ASTNode.process_children rest
/-- The loop of `ASTNode_Print::process` over the children. -/
def ASTNode.process_print : List ASTNode → Compile Unit
  | [] => pure ()
  | child :: rest => do
    let item ← ASTNode.process child
    let item_type ← item_getType item
    let out_instruction ← out_instruction_for item_type
    let item_text ← render item
    emit (out_instruction ++ " " ++ item_text)
    ASTNode.process_print rest
end

/-- The method `ASTNode_Literal::process` with the location counter of type `int`; the case
`Literal` of `ASTNode.process` is the same method on a counter below `INT_MAX`. -/
def Literal_process_int (type : Typenames) (lexeme : String) : Compile (Option TableEntry) := do
  if type = Typenames.VAL ∨ type = Typenames.CHAR then
    let var ← Compile.createEntry_int type
    let var_text ← Compile.render (some var)
    Compile.emit ("val_copy " ++ lexeme ++ " " ++ var_text)
    pure (some var)
  else
    yyerror "Internal Compiler Error: AST_Node Literal handling wrong type"

/-- The method `ASTNode_Math2::process` with the location counter of type `int` for the slot
of the result; the operands are processed by `ASTNode.process`. -/
def Math2_process_int (math_instruction : String) (in1 in2 : ASTNode) :
    Compile (Option TableEntry) := do
  let lhs ← ASTNode.process in1
  let rhs ← ASTNode.process in2
  let result ← Compile.createEntry_int Typenames.VAL
  Compile.emit ("# Math2 " ++ math_instruction)
  let lhs_text ← Compile.render lhs
  let rhs_text ← Compile.render rhs
  let result_text ← Compile.render (some result)
  Compile.emit (math_instruction ++ " " ++ lhs_text ++ " " ++ rhs_text ++ " " ++ result_text)
  pure (some result)

/-- The trees the constructors can build: every node is the result of its class's
constructor, run on some state of the globals, on children built the same way, or of
`addChild` on such nodes. -/
inductive Constructed : ASTNode → Prop
  | Temp (in_type : Typenames) (w : World) (node : ASTNode) :
      (ASTNode_Temp in_type w).1 = .ok node → Constructed node
  | Root (w : World) (node : ASTNode) :
      (ASTNode_Root w).1 = .ok node → Constructed node
  | Variable (in_entry : TableEntry) (w : World) (node : ASTNode) :
      (ASTNode_Variable in_entry w).1 = .ok node → Constructed node
  | Literal (in_type : Typenames) (in_lex : String) (w : World) (node : ASTNode) :
      (ASTNode_Literal in_type in_lex w).1 = .ok node → Constructed node
  | Assign (lhs rhs : ASTNode) (w : World) (node : ASTNode) :
      Constructed lhs → Constructed rhs →
      (ASTNode_Assign lhs rhs w).1 = .ok node → Constructed node
  | Math1_Minus (child : ASTNode) (w : World) (node : ASTNode) :
      Constructed child → (ASTNode_Math1_Minus child w).1 = .ok node → Constructed node
  | Math2 (in1 in2 : ASTNode) (op : String) (w : World) (node : ASTNode) :
      Constructed in1 → Constructed in2 →
      (ASTNode_Math2 in1 in2 op w).1 = .ok node → Constructed node
  | BoolAnd (in1 in2 : ASTNode) (w : World) (node : ASTNode) :
      Constructed in1 → Constructed in2 →
      (ASTNode_BoolAnd in1 in2 w).1 = .ok node → Constructed node
  | BoolOr (in1 in2 : ASTNode) (w : World) (node : ASTNode) :
      Constructed in1 → Constructed in2 →
      (ASTNode_BoolOr in1 in2 w).1 = .ok node → Constructed node
  | Print (w : World) (node : ASTNode) :
      (ASTNode_Print w).1 = .ok node → Constructed node
  | Random (inp : ASTNode) (w : World) (node : ASTNode) :
      Constructed inp → (ASTNode_Random inp w).1 = .ok node → Constructed node
  | Not (inp : ASTNode) (w : World) (node : ASTNode) :
      Constructed inp → (ASTNode_Not inp w).1 = .ok node → Constructed node
  | If (cond if_statement : ASTNode) (else_statement : Option ASTNode) (w : World)
      (node : ASTNode) :
      Constructed cond → Constructed if_statement →
      (∀ other, else_statement = some other → Constructed other) →
      (ASTNode_If cond if_statement else_statement w).1 = .ok node → Constructed node
  | While (cond statement : ASTNode) (w : World) (node : ASTNode) :
      Constructed cond → Constructed statement →
      (ASTNode_While cond statement w).1 = .ok node → Constructed node
  | Break (w : World) (node : ASTNode) :
      (ASTNode_Break w).1 = .ok node → Constructed node
  | Continue (w : World) (node : ASTNode) :
      (ASTNode_Continue w).1 = .ok node → Constructed node
  | addChild (node in_child : ASTNode) :
      Constructed node → Constructed in_child → Constructed (node.addChild in_child)

/-- The globals `w1` are a later stage of the globals `w`: the two counters have not gone
down, the scope stack and the loop stack are the same, and the output has only been appended
to. -/
def World.Extends (w w1 : World) : Prop :=
  w.table.location_allotment ≤ w1.table.location_allotment ∧
  w.table.label_allotment ≤ w1.table.label_allotment ∧
  w1.table.table_stack = w.table.table_stack ∧
  w1.table.while_stack = w.table.while_stack ∧
  ∃ lines, w1.fout = w.fout ++ lines

/-- A computation that, failing or not, leaves a later stage of the globals it started on. -/
def Compile.Grows {α : Type} (m : Compile α) : Prop :=
  ∀ w, World.Extends w (m w).2

/-- Declares the names of a list in order with `addEntry`, stopping at the first failure. -/
def declare_all : List (Typenames × String) → SymbolTable → Except Error SymbolTable
  | [], t => .ok t
  | (in_type, in_name) :: rest, t =>
    match SymbolTable.addEntry in_type in_name t with
    | .error e => .error e
    | .ok t1 => declare_all rest t1

/-- The number written by a string of decimal digits. -/
def digits_value (cs : List Char) : Nat :=
  cs.foldl (fun acc c => 10 * acc + (c.toNat - 48)) 0

/-- A comment record of the instruction stream: it begins with `#`. -/
def is_comment (line : String) : Bool := decide (line.data.head? = some '#')

/-- A label definition record `<label>:` of the instruction stream: a record that is not a
comment and ends with a colon. -/
def is_label_definition (line : String) : Bool :=
  !(is_comment line) && decide (line.data.getLast? = some ':')

/-- The two label definition records of each loop label of a list. -/
def loop_lines : List String → List String
  | [] => []
  | W :: rest => ((W ++ "_start") ++ ":") :: ((W ++ "_end") ++ ":") :: loop_lines rest

mutual
/-- The loop labels of the `While` nodes of a tree, one entry per node. -/
def ASTNode.while_labels : ASTNode → List String
  | .Temp _ children => ASTNode.while_labels_list children
  | .Root children => ASTNode.while_labels_list children
  | .Variable _ _ => []
  | .Literal _ _ => []
  | .Assign _ lhs rhs => ASTNode.while_labels lhs ++ ASTNode.while_labels rhs
  | .Math1_Minus child => ASTNode.while_labels child
  | .Math2 _ in1 in2 => ASTNode.while_labels in1 ++ ASTNode.while_labels in2
  | .BoolAnd in1 in2 => ASTNode.while_labels in1 ++ ASTNode.while_labels in2
  | .BoolOr in1 in2 => ASTNode.while_labels in1 ++ ASTNode.while_labels in2
  | .Print children => ASTNode.while_labels_list children
  | .Random inp => ASTNode.while_labels inp
  | .Not inp => ASTNode.while_labels inp
  | .If cond if_statement else_statement =>
    ASTNode.while_labels cond ++ (ASTNode.while_labels if_statement ++
      (match else_statement with
       | some node => ASTNode.while_labels node
       | none => []))
  | .While while_label cond statement =>
    while_label :: (ASTNode.while_labels cond ++ ASTNode.while_labels statement)
  | .Break _ => []
  | .Continue _ => []
/-- The loop labels of the `While` nodes of a list of trees. -/
def ASTNode.while_labels_list : List ASTNode → List String
  | [] => []
  | child :: rest => ASTNode.while_labels child ++ ASTNode.while_labels_list rest
end

/-- The label definition records among `lines` split into records `p_k:` made from a counter
value `k` allowed by `K`, all different, and records taken from the list `T`, each as often
as it is in `T` at most. -/
def LabelLines (T : List String) (K : Int → Prop) (lines : List String) : Prop :=
  ∃ cs ls : List String,
    (lines.filter is_label_definition).Perm (cs ++ ls) ∧ ls.Subperm T ∧ cs.Nodup ∧
    ∀ l ∈ cs, ∃ (p : String) (k : Int), l = (p ++ "_" ++ toString k) ++ ":" ∧ K k

/-- A computation that, when it succeeds, appends records whose label definitions are
`LabelLines` for the counter values it has issued, and does not lower the label counter. -/
def Tracks {α : Type} (T : List String) (m : Compile α) : Prop :=
  ∀ (w w1 : World) (a : α), m w = (.ok a, w1) →
    w.table.label_allotment ≤ w1.table.label_allotment ∧
    ∃ lines, w1.fout = w.fout ++ lines ∧
      LabelLines T (fun k => w.table.label_allotment < k ∧ k ≤ w1.table.label_allotment) lines

/-- The run of the items of a `Print` node in the words of the claim on `Print`: the items
process one after the other, each to a slot of kind `VAL` or `CHAR`, and each is followed by
the record `out_val <slot>` for a `VAL` slot and `out_char <slot>` for a `CHAR` slot; `w` are
the globals before the first item and `w2` the globals after the record of the last one. -/
inductive PrintRun : List ASTNode → World → World → Prop
  | nil (w : World) : PrintRun [] w w
  | cons (child : ASTNode) (rest : List ASTNode) (w w1 w2 : World) (item : TableEntry)
      (out_instruction : String) :
      child.process w = (.ok (some item), w1) →
      (item.getType = Typenames.VAL ∧ out_instruction = "out_val" ∨
        item.getType = Typenames.CHAR ∧ out_instruction = "out_char") →
      PrintRun rest
        { w1 with fout := w1.fout ++
            [out_instruction ++ " " ++ ("s" ++ toString item.location)] } w2 →
      PrintRun (child :: rest) w w2

/-! ## Decimal rendering -/

theorem digitChar_mem (k : Nat) (h : k < 10) : Nat.digitChar k ∈ "0123456789".data := by
  interval_cases k <;> decide

theorem digitChar_value (k : Nat) (h : k < 10) : (Nat.digitChar k).toNat - 48 = k := by
  interval_cases k <;> decide

theorem toDigitsCore_acc (fuel : Nat) : ∀ (n : Nat) (ds : List Char),
    Nat.toDigitsCore 10 fuel n ds = Nat.toDigitsCore 10 fuel n [] ++ ds := by
  induction fuel with
  | zero => intro n ds; simp [Nat.toDigitsCore]
  | succ f ih =>
    intro n ds
    simp only [Nat.toDigitsCore]
    split
    · simp
    · rw [ih (n / 10) (Nat.digitChar (n % 10) :: ds), ih (n / 10) [Nat.digitChar (n % 10)]]
      simp

theorem toDigitsCore_mem (fuel : Nat) : ∀ (n : Nat) (c : Char),
    c ∈ Nat.toDigitsCore 10 fuel n [] → c ∈ "0123456789".data := by
  induction fuel with
  | zero => intro n c h; simp [Nat.toDigitsCore] at h
  | succ f ih =>
    intro n c h
    simp only [Nat.toDigitsCore] at h
    split at h
    · simp only [List.mem_singleton] at h
      subst h
      exact digitChar_mem _ (Nat.mod_lt _ (by decide))
    · rw [toDigitsCore_acc] at h
      simp only [List.mem_append, List.mem_singleton] at h
      rcases h with h | h
      · exact ih _ _ h
      · subst h
        exact digitChar_mem _ (Nat.mod_lt _ (by decide))

theorem toDigitsCore_value (fuel : Nat) : ∀ (n : Nat), n < fuel →
    digits_value (Nat.toDigitsCore 10 fuel n []) = n := by
  induction fuel with
  | zero => intro n h; omega
  | succ f ih =>
    intro n h
    simp only [Nat.toDigitsCore]
    split
    · rename_i h0
      simp only [digits_value, List.foldl]
      rw [digitChar_value _ (Nat.mod_lt _ (by decide))]
      omega
    · rename_i h0
      rw [toDigitsCore_acc]
      simp only [digits_value, List.foldl_append, List.foldl]
      have := ih (n / 10) (by omega)
      simp only [digits_value] at this
      rw [this, digitChar_value _ (Nat.mod_lt _ (by decide))]
      omega

theorem nat_repr_inj {m n : Nat} (h : Nat.repr m = Nat.repr n) : m = n := by
  have h1 : Nat.toDigits 10 m = Nat.toDigits 10 n := by
    have := congrArg String.data h
    simpa [Nat.repr, List.asString] using this
  have hm := toDigitsCore_value (m + 1) m (by omega)
  have hn := toDigitsCore_value (n + 1) n (by omega)
  simp only [Nat.toDigits] at h1
  rw [h1] at hm
  omega

theorem nat_repr_mem (n : Nat) (c : Char) (h : c ∈ (Nat.repr n).data) : c ∈ "0123456789".data := by
  simp only [Nat.repr, List.asString, Nat.toDigits] at h
  exact toDigitsCore_mem _ _ _ h

theorem int_toString_mem (k : Int) (c : Char) (h : c ∈ (toString k).data) :
    c ∈ "-0123456789".data := by
  cases k with
  | ofNat m =>
    have := nat_repr_mem m c h
    simp at this ⊢
    tauto
  | negSucc m =>
    change c ∈ ("-" ++ Nat.repr (m + 1)).data at h
    simp only [String.data_append, List.mem_append] at h
    rcases h with h | h
    · simp at h ⊢; tauto
    · have := nat_repr_mem _ c h
      simp at this ⊢
      tauto

theorem int_toString_inj {a b : Int} (h : toString a = toString b) : a = b := by
  cases a with
  | ofNat m =>
    cases b with
    | ofNat n =>
      have : Nat.repr m = Nat.repr n := h
      rw [nat_repr_inj this]
    | negSucc n =>
      exfalso
      have h2 : Nat.repr m = "-" ++ Nat.repr (n + 1) := h
      have : '-' ∈ (Nat.repr m).data := by rw [h2]; simp
      have := nat_repr_mem _ _ this
      revert this; decide
  | negSucc m =>
    cases b with
    | ofNat n =>
      exfalso
      have h2 : "-" ++ Nat.repr (m + 1) = Nat.repr n := h
      have : '-' ∈ (Nat.repr n).data := by rw [← h2]; simp
      have := nat_repr_mem _ _ this
      revert this; decide
    | negSucc n =>
      have h2 : "-" ++ Nat.repr (m + 1) = "-" ++ Nat.repr (n + 1) := h
      have h3 := congrArg String.data h2
      simp only [String.data_append, List.append_cancel_left_eq] at h3
      have h4 : Nat.repr (m + 1) = Nat.repr (n + 1) := String.ext h3
      have := nat_repr_inj h4
      have : m = n := by omega
      rw [this]

theorem append_cons_split {α : Type} (x : α) : ∀ (a c b d : List α), x ∉ a → x ∉ c →
    a ++ x :: b = c ++ x :: d → a = c ∧ b = d := by
  intro a
  induction a with
  | nil =>
    intro c b d _ hc h
    cases c with
    | nil => simpa using h
    | cons y ys =>
      simp only [List.nil_append, List.cons_append, List.cons.injEq] at h
      exact absurd (by simp [h.1]) hc
  | cons z zs ih =>
    intro c b d ha hc h
    cases c with
    | nil =>
      simp only [List.nil_append, List.cons_append, List.cons.injEq] at h
      exact absurd (by simp [h.1]) ha
    | cons y ys =>
      simp only [List.cons_append, List.cons.injEq] at h
      have := ih ys b d (fun hm => ha (by simp [hm])) (fun hm => hc (by simp [hm])) h.2
      exact ⟨by rw [h.1, this.1], this.2⟩

theorem label_inj {p q : String} {a b : Int}
    (h : p ++ "_" ++ toString a = q ++ "_" ++ toString b) : p = q ∧ a = b := by
  have h1 := congrArg String.data h
  simp only [String.data_append] at h1
  have ha : '_' ∉ (toString a).data := fun hm => by
    have := int_toString_mem _ _ hm
    revert this; decide
  have hb : '_' ∉ (toString b).data := fun hm => by
    have := int_toString_mem _ _ hm
    revert this; decide
  have h2 := congrArg List.reverse h1
  simp only [List.reverse_append] at h2
  simp only [List.reverse_cons, List.reverse_nil, List.nil_append, List.append_assoc,
    List.singleton_append] at h2
  have h3 := append_cons_split '_' _ _ _ _ (by simpa using ha) (by simpa using hb) h2
  obtain ⟨h4, h5⟩ := h3
  have h6 : (toString a).data = (toString b).data := by simpa using h4
  have h7 : p.data = q.data := by simpa using h5
  exact ⟨String.ext h7, int_toString_inj (String.ext h6)⟩
/-! ## The symbol table -/

theorem getLast?_concat_eq {α : Type} (xs : List α) (x : α) : (xs ++ [x]).getLast? = some x := by
  simp

theorem map_find_assign_same (name : String) (entry : TableEntry) (m : ScopeMap) :
    map_find name (map_assign name entry m) = some entry := by
  induction m with
  | nil => simp [map_assign, map_find]
  | cons kv rest ih =>
    obtain ⟨k, v⟩ := kv
    simp only [map_assign]
    split
    · simp [map_find]
    · split
      · simp [map_find]
      · rename_i h1 h2
        simp [map_find, h2, ih]

theorem map_find_assign_other (name other : String) (entry : TableEntry) (m : ScopeMap)
    (h : name ≠ other) : map_find other (map_assign name entry m) = map_find other m := by
  induction m with
  | nil => simp [map_assign, map_find, h]
  | cons kv rest ih =>
    obtain ⟨k, v⟩ := kv
    simp only [map_assign]
    split
    · simp [map_find, h]
    · split
      · rename_i h1 h2
        subst h2
        simp [map_find, h]
      · simp [map_find, ih]

theorem find_loop_none_iff (name : String) (scopes : List ScopeMap) :
    SymbolTable.find_loop name scopes = none ↔ ∀ s ∈ scopes, map_find name s = none := by
  induction scopes with
  | nil => simp [SymbolTable.find_loop]
  | cons s rest ih =>
    simp only [SymbolTable.find_loop, List.mem_cons, forall_eq_or_imp]
    cases hs : map_find name s with
    | none => simp [ih]
    | some e => simp

theorem find_loop_skip (name : String) (above rest : List ScopeMap)
    (h : ∀ s ∈ above, map_find name s = none) :
    SymbolTable.find_loop name (above ++ rest) = SymbolTable.find_loop name rest := by
  induction above with
  | nil => rfl
  | cons s more ih =>
    have hs : map_find name s = none := h s (by simp)
    simp only [List.cons_append, SymbolTable.find_loop, hs]
    exact ih (fun x hx => h x (by simp [hx]))

theorem find_innermost (t : SymbolTable) (name : String) (below above : List ScopeMap)
    (scope : ScopeMap) (entry : TableEntry) (hstack : t.table_stack = below ++ scope :: above)
    (hscope : map_find name scope = some entry) (habove : ∀ s ∈ above, map_find name s = none) :
    t.find name = some entry := by
  unfold SymbolTable.find
  rw [hstack]
  simp only [List.reverse_append, List.reverse_cons, List.append_assoc, List.singleton_append]
  rw [find_loop_skip name above.reverse _ (fun s hs => habove s (by simpa using hs))]
  simp [SymbolTable.find_loop, hscope]

theorem find_push (t : SymbolTable) (name : String) (base : List ScopeMap) (scope : ScopeMap)
    (hstack : t.table_stack = base ++ [scope]) :
    t.find name = match map_find name scope with
      | some entry => some entry
      | none => SymbolTable.find_loop name base.reverse := by
  unfold SymbolTable.find
  rw [hstack]
  simp [SymbolTable.find_loop]

theorem pre_increment_of_lt (counter : Int) (hlo : INT_MIN ≤ counter) (hhi : counter < INT_MAX) :
    pre_increment counter = counter + 1 := by
  unfold pre_increment int_wrap
  unfold INT_MIN at hlo
  unfold INT_MAX at hhi
  omega

theorem pre_increment_INT_MAX : pre_increment INT_MAX = INT_MIN := by decide

theorem location_calls_cons (op : TableOp) (rest : List TableOp) :
    location_calls (op :: rest) = location_calls [op] + location_calls rest := by
  cases op <;> simp [location_calls] <;> omega

theorem label_calls_cons (op : TableOp) (rest : List TableOp) :
    label_calls (op :: rest) = label_calls [op] + label_calls rest := by
  cases op <;> simp [label_calls] <;> omega

theorem apply_location (op : TableOp) (t t1 : SymbolTable) (now : Issued)
    (h : op.apply t = .ok (now, t1))
    (hlo : INT_MIN ≤ t.location_allotment)
    (hhi : t.location_allotment + location_calls [op] ≤ INT_MAX) :
    t.location_allotment ≤ t1.location_allotment ∧
    t1.location_allotment ≤ t.location_allotment + location_calls [op] ∧
    now.slots.length ≤ 1 ∧
    ∀ e ∈ now.slots, e.location = t.location_allotment + 1 ∧
      t1.location_allotment = t.location_allotment + 1 := by
  rcases hA : t.table_stack.getLast? with _ | top <;>
  rcases hB : t.while_stack.getLast? with _ | wtop <;>
  cases op <;>
    simp only [TableOp.apply, SymbolTable.push_to_while_stack_int, SymbolTable.getNextLabel_int,
      SymbolTable.while_stack_top, SymbolTable.pop_from_while_stack,
      SymbolTable.getNextLocation_int, SymbolTable.incrementScope, SymbolTable.decrementScope,
      SymbolTable.addEntry_new_int, SymbolTable.createEntry_int,
      SymbolTable.declaredInCurrentScope, hA, hB, Except.ok.injEq, Prod.mk.injEq,
      reduceCtorEq] at h <;>
    simp only [location_calls, Nat.cast_zero, Nat.cast_one, Nat.cast_add, add_zero,
      zero_add] at hhi ⊢ <;>
    first
    | exact h.elim
    | (obtain ⟨rfl, rfl⟩ := h
       have hp := pre_increment_of_lt t.location_allotment hlo (by omega)
       simp [hp])
    | (obtain ⟨rfl, rfl⟩ := h
       simp)
    | (unfold SymbolTable.getEntry at h
       split at h <;> simp at h
       obtain ⟨rfl, rfl⟩ := h
       simp)

theorem apply_label (op : TableOp) (t t1 : SymbolTable) (now : Issued)
    (h : op.apply t = .ok (now, t1))
    (hlo : INT_MIN ≤ t.label_allotment)
    (hhi : t.label_allotment + label_calls [op] ≤ INT_MAX) :
    t.label_allotment ≤ t1.label_allotment ∧
    t1.label_allotment ≤ t.label_allotment + label_calls [op] ∧
    now.labels.length ≤ 1 ∧
    ∀ l ∈ now.labels, (∃ p : String, l = p ++ "_" ++ toString (t.label_allotment + 1)) ∧
      t1.label_allotment = t.label_allotment + 1 := by
  rcases hA : t.table_stack.getLast? with _ | top <;>
  rcases hB : t.while_stack.getLast? with _ | wtop <;>
  cases op <;>
    simp only [TableOp.apply, SymbolTable.push_to_while_stack_int, SymbolTable.getNextLabel_int,
      SymbolTable.while_stack_top, SymbolTable.pop_from_while_stack,
      SymbolTable.getNextLocation_int, SymbolTable.incrementScope, SymbolTable.decrementScope,
      SymbolTable.addEntry_new_int, SymbolTable.createEntry_int,
      SymbolTable.declaredInCurrentScope, hA, hB, Except.ok.injEq, Prod.mk.injEq,
      reduceCtorEq] at h <;>
    simp only [label_calls, Nat.cast_zero, Nat.cast_one, Nat.cast_add, add_zero,
      zero_add] at hhi ⊢ <;>
    first
    | exact h.elim
    | (obtain ⟨rfl, rfl⟩ := h
       have hp := pre_increment_of_lt t.label_allotment hlo (by omega)
       simp only [hp]
       refine ⟨by omega, by omega, by simp, ?_⟩
       intro l hl
       simp only [List.mem_singleton] at hl
       subst hl
       exact ⟨⟨_, rfl⟩, trivial⟩)
    | (obtain ⟨rfl, rfl⟩ := h
       simp)
    | (unfold SymbolTable.getEntry at h
       split at h <;> simp at h
       obtain ⟨rfl, rfl⟩ := h
       simp)

theorem pairwise_short {α : Type} (R : α → α → Prop) (l : List α) (h : l.length ≤ 1) :
    l.Pairwise R := by
  match l, h with
  | [], _ => exact List.Pairwise.nil
  | [a], _ => exact List.pairwise_singleton R a

theorem runOps_locations (ops : List TableOp) : ∀ (t : SymbolTable),
    INT_MIN ≤ t.location_allotment →
    t.location_allotment + location_calls ops ≤ INT_MAX →
    t.location_allotment ≤ (runOps ops t).2.location_allotment ∧
    (runOps ops t).2.location_allotment ≤ t.location_allotment + location_calls ops ∧
    (∀ e ∈ (runOps ops t).1.slots, t.location_allotment < e.location ∧
      e.location ≤ (runOps ops t).2.location_allotment) ∧
    ((runOps ops t).1.slots.map TableEntry.location).Pairwise (fun a b => a < b) := by
  induction ops with
  | nil => intro t _ _; simp [runOps, location_calls]
  | cons op rest ih =>
    intro t hlo hhi
    rw [location_calls_cons] at hhi ⊢
    push_cast at hhi ⊢
    cases hop : op.apply t with
    | error e =>
      simp only [runOps, hop, List.not_mem_nil, false_implies, implies_true, List.map_nil,
        List.Pairwise.nil, and_true, le_refl, true_and]
      have h0 : (0 : Int) ≤ (location_calls [op] : Int) := Int.ofNat_nonneg _
      have h1 : (0 : Int) ≤ (location_calls rest : Int) := Int.ofNat_nonneg _
      omega
    | ok r =>
      obtain ⟨now, t1⟩ := r
      simp only [runOps, hop]
      have h1 : (0 : Int) ≤ (location_calls rest : Int) := Int.ofNat_nonneg _
      obtain ⟨hmono, hup, hlen, hnow⟩ := apply_location op t t1 now hop hlo (by omega)
      obtain ⟨ih1, ihup, ih2, ih3⟩ := ih t1 (by omega) (by omega)
      refine ⟨le_trans hmono ih1, by omega, ?_, ?_⟩
      · intro e he
        simp only [List.mem_append] at he
        rcases he with he | he
        · obtain ⟨h1, h2⟩ := hnow e he
          constructor <;> omega
        · obtain ⟨h1, h2⟩ := ih2 e he
          constructor <;> omega
      · rw [List.map_append, List.pairwise_append]
        refine ⟨pairwise_short _ _ (by simpa using hlen), ih3, ?_⟩
        intro a ha b hb
        simp only [List.mem_map] at ha hb
        obtain ⟨ea, hea, rfl⟩ := ha
        obtain ⟨eb, heb, rfl⟩ := hb
        obtain ⟨h1, h2⟩ := hnow ea hea
        obtain ⟨h3, h4⟩ := ih2 eb heb
        omega

theorem runOps_labels (ops : List TableOp) : ∀ (t : SymbolTable),
    INT_MIN ≤ t.label_allotment →
    t.label_allotment + label_calls ops ≤ INT_MAX →
    t.label_allotment ≤ (runOps ops t).2.label_allotment ∧
    (runOps ops t).2.label_allotment ≤ t.label_allotment + label_calls ops ∧
    (∀ l ∈ (runOps ops t).1.labels, ∃ (p : String) (k : Int),
      l = p ++ "_" ++ toString k ∧ t.label_allotment < k ∧
      k ≤ (runOps ops t).2.label_allotment) ∧
    (runOps ops t).1.labels.Pairwise (fun a b => a ≠ b) := by
  induction ops with
  | nil => intro t _ _; simp [runOps, label_calls]
  | cons op rest ih =>
    intro t hlo hhi
    rw [label_calls_cons] at hhi ⊢
    push_cast at hhi ⊢
    cases hop : op.apply t with
    | error e =>
      simp only [runOps, hop, List.not_mem_nil, false_implies, implies_true,
        List.Pairwise.nil, and_true, le_refl, true_and]
      have h0 : (0 : Int) ≤ (label_calls [op] : Int) := Int.ofNat_nonneg _
      have h1 : (0 : Int) ≤ (label_calls rest : Int) := Int.ofNat_nonneg _
      omega
    | ok r =>
      obtain ⟨now, t1⟩ := r
      simp only [runOps, hop]
      have h1 : (0 : Int) ≤ (label_calls rest : Int) := Int.ofNat_nonneg _
      obtain ⟨hmono, hup, hlen, hnow⟩ := apply_label op t t1 now hop hlo (by omega)
      obtain ⟨ih1, ihup, ih2, ih3⟩ := ih t1 (by omega) (by omega)
      refine ⟨le_trans hmono ih1, by omega, ?_, ?_⟩
      · intro l hl
        simp only [List.mem_append] at hl
        rcases hl with hl | hl
        · obtain ⟨⟨p, hp⟩, h2⟩ := hnow l hl
          exact ⟨p, _, hp, by omega, by omega⟩
        · obtain ⟨p, k, hp, hk, hk2⟩ := ih2 l hl
          exact ⟨p, k, hp, by omega, hk2⟩
      · rw [List.pairwise_append]
        refine ⟨pairwise_short _ _ hlen, ih3, ?_⟩
        intro a ha b hb hab
        obtain ⟨⟨p, hp⟩, h2⟩ := hnow a ha
        obtain ⟨q, k, hq, hk, -⟩ := ih2 b hb
        rw [hp, hq] at hab
        have := (label_inj hab).2
        omega

theorem addEntry_ok (in_type : Typenames) (in_name : String) (t : SymbolTable)
    (base : List ScopeMap) (top : ScopeMap) (hstack : t.table_stack = base ++ [top]) :
    t.addEntry in_type in_name = .ok
      { t with location_allotment := t.location_allotment + 1,
               table_stack := base ++ [map_assign in_name
                 ⟨in_type, in_name, t.location_allotment + 1⟩ top] } := by
  simp [SymbolTable.addEntry, SymbolTable.addEntry_new, SymbolTable.getNextLocation, hstack]

theorem stack_split (t : SymbolTable) (top : ScopeMap)
    (h : t.table_stack.getLast? = some top) :
    t.table_stack = t.table_stack.dropLast ++ [top] :=
  (List.dropLast_append_getLast? top (by simp [h])).symm

theorem declare_all_spec (decls : List (Typenames × String)) :
    ∀ (t : SymbolTable) (base : List ScopeMap) (top : ScopeMap),
    t.table_stack = base ++ [top] →
    ∃ (t1 : SymbolTable) (top1 : ScopeMap),
      declare_all decls t = .ok t1 ∧ t1.table_stack = base ++ [top1] ∧
      t1.location_allotment = t.location_allotment + decls.length ∧
      (∀ name, (∀ d ∈ decls, d.2 ≠ name) → map_find name top1 = map_find name top) ∧
      (∀ (i : Nat) (h : i < decls.length),
        (∀ (j : Nat) (hj : j < decls.length), i < j → (decls.get ⟨j, hj⟩).2 ≠ (decls.get ⟨i, h⟩).2) →
        map_find (decls.get ⟨i, h⟩).2 top1 =
          some ⟨(decls.get ⟨i, h⟩).1, (decls.get ⟨i, h⟩).2, t.location_allotment + 1 + i⟩) := by
  induction decls with
  | nil =>
    intro t base top hstack
    exact ⟨t, top, rfl, hstack, by simp, fun _ _ => rfl, fun i h => absurd h (by simp)⟩
  | cons d rest ih =>
    intro t base top hstack
    obtain ⟨in_type, in_name⟩ := d
    have hadd := addEntry_ok in_type in_name t base top hstack
    obtain ⟨t1, top1, hrun, hst, hloc, hkeep, hnew⟩ :=
      ih { t with location_allotment := t.location_allotment + 1,
                  table_stack := base ++ [map_assign in_name
                    ⟨in_type, in_name, t.location_allotment + 1⟩ top] } base
        (map_assign in_name ⟨in_type, in_name, t.location_allotment + 1⟩ top) rfl
    refine ⟨t1, top1, ?_, hst, ?_, ?_, ?_⟩
    · simp only [declare_all, hadd]
      exact hrun
    · rw [hloc]
      simp only [List.length_cons]
      push_cast
      ring
    · intro name hname
      rw [hkeep name (fun d hd => hname d (by simp [hd]))]
      exact map_find_assign_other _ _ _ _ (hname (in_type, in_name) (by simp))
    · intro i h hlater
      cases i with
      | zero =>
        show map_find in_name top1 = _
        rw [hkeep in_name ?_, map_find_assign_same]
        · simp
        · intro d hd
          obtain ⟨j, hj⟩ := List.mem_iff_get.1 hd
          have := hlater (j.1 + 1) (by simp) (by omega)
          simp only [List.get_cons_succ, List.get_cons_zero] at this
          rw [← hj]
          exact this
      | succ k =>
        have hk : k < rest.length := by simpa using h
        have := hnew k hk (fun j hj hkj => by
          have := hlater (j + 1) (by simpa using hj) (by omega)
          simpa using this)
        simp only [List.get_cons_succ]
        rw [this]
        congr 2
        push_cast
        ring

/-! ## Claims on the symbol table -/

theorem pre_increment_iterate (k : Nat) (counter : Int) :
    pre_increment^[k + 1] counter = int_wrap (counter + k + 1) := by
  induction k with
  | zero => simp [pre_increment]
  | succ n ih =>
    rw [Function.iterate_succ_apply', ih]
    unfold pre_increment int_wrap
    push_cast
    omega

theorem pre_increment_cycle (counter : Int) :
    pre_increment^[4294967296 + 1] counter = pre_increment^[0 + 1] counter := by
  rw [pre_increment_iterate, pre_increment_iterate]
  unfold int_wrap
  push_cast
  omega

theorem runOps_getNextLabel (label : String) (n : Nat) : ∀ (t : SymbolTable),
    (runOps (List.replicate n (.getNextLabel label)) t).1.labels
      = (List.range n).map
          (fun i => label ++ "_" ++ toString (pre_increment^[i + 1] t.label_allotment)) := by
  induction n with
  | zero => intro t; rfl
  | succ m ih =>
    intro t
    rw [List.replicate_succ, List.range_succ_eq_map]
    simp only [runOps, TableOp.apply, List.map_cons, List.map_map, List.singleton_append]
    rw [ih]
    simp only [SymbolTable.getNextLabel_int, Function.iterate_succ_apply, Function.iterate_zero,
      id_eq]
    congr 1

theorem not_nodup_of_cycle {α : Type} (f : Nat → α) (h : f 4294967296 = f 0) :
    ¬ ((List.range 4294967297).map f).Nodup := by
  intro hn
  have := List.inj_on_of_nodup_map hn (List.mem_range.2 (by decide : 4294967296 < 4294967297))
    (List.mem_range.2 (by decide : 0 < 4294967297)) h
  revert this
  decide

theorem runOps_getNextLocation (n : Nat) (rest : List TableOp) : ∀ (t : SymbolTable),
    runOps (List.replicate n .getNextLocation ++ rest) t
      = runOps rest { t with location_allotment := pre_increment^[n] t.location_allotment } := by
  induction n with
  | zero => intro t; rfl
  | succ m ih =>
    intro t
    rewrite [List.replicate_succ, List.cons_append]
    simp only [runOps, TableOp.apply, List.nil_append]
    rewrite [ih]
    simp only [SymbolTable.getNextLocation_int, Function.iterate_succ_apply]

theorem runOps_reissue (N : Nat) (t : SymbolTable) (c : Int)
    (hN : pre_increment^[N] (pre_increment t.location_allotment) = c) :
    (runOps (.createEntry .VAL :: (List.replicate N .getNextLocation ++ [.createEntry .VAL]))
      t).1.slots = [⟨.VAL, "", pre_increment t.location_allotment⟩, ⟨.VAL, "", pre_increment c⟩] ∧
    (runOps (.createEntry .VAL :: List.replicate N .getNextLocation) t).2
      = { t with location_allotment := c,
                 archive := t.archive ++ [⟨.VAL, "", pre_increment t.location_allotment⟩] } := by
  constructor
  · simp only [runOps, TableOp.apply]
    rewrite [runOps_getNextLocation]
    simp only [runOps, TableOp.apply, SymbolTable.createEntry_int,
      SymbolTable.getNextLocation_int, hN, List.append_nil, List.singleton_append]
  · have h := runOps_getNextLocation N [] (t.createEntry_int .VAL).2
    rewrite [List.append_nil] at h
    simp only [runOps, TableOp.apply]
    rewrite [h]
    simp only [runOps, SymbolTable.createEntry_int, SymbolTable.getNextLocation_int, hN]

theorem runOps_reissue_first (N : Nat) (t : SymbolTable) :
    (runOps (.createEntry .VAL :: List.replicate N .getNextLocation) t).1.slots
      = [⟨.VAL, "", pre_increment t.location_allotment⟩] := by
  have h := runOps_getNextLocation N [] (t.createEntry_int .VAL).2
  rewrite [List.append_nil] at h
  simp only [runOps, TableOp.apply]
  rewrite [h]
  simp only [runOps, SymbolTable.createEntry_int, SymbolTable.getNextLocation_int,
    List.append_nil]

theorem pre_increment_wrap_init :
    pre_increment^[4294967295] (pre_increment SymbolTable.init.location_allotment) = 0 := by
  have h := pre_increment_iterate 4294967295 SymbolTable.init.location_allotment
  rewrite [Function.iterate_succ_apply] at h
  rewrite [h]
  decide

/-- C1, as stated, fails: on a table whose location counter holds `INT_MAX` the slot that
`createEntry` makes, and the slot that `addEntry` makes, gets the location `INT_MIN` and not
the counter plus one, and two calls of `createEntry` from the counter `INT_MAX - 1` create
slots with the locations 2147483647 and -2147483648, which do not increase; on the initial
table, a call of `createEntry`, `2^32 - 1` calls of `getNextLocation` and another call of
`createEntry` create two slots that both have the location 1. -/
theorem C1_counterexample :
    ((⟨[[]], [], 2147483647, 0, []⟩ : SymbolTable).createEntry_int .VAL).1
      = ⟨.VAL, "", -2147483648⟩ ∧
    ((⟨[[]], [], 2147483647, 0, []⟩ : SymbolTable).createEntry_int .VAL).1.location
      ≠ (⟨[[]], [], 2147483647, 0, []⟩ : SymbolTable).location_allotment + 1 ∧
    (⟨[[]], [], 2147483647, 0, []⟩ : SymbolTable).addEntry_new_int .VAL "x"
      = .ok (⟨.VAL, "x", -2147483648⟩,
          ⟨[[("x", ⟨.VAL, "x", -2147483648⟩)]], [], -2147483648, 0, []⟩) ∧
    (runOps [.createEntry .VAL, .createEntry .VAL] ⟨[[]], [], 2147483646, 0, []⟩).1.slots
      = [⟨.VAL, "", 2147483647⟩, ⟨.VAL, "", -2147483648⟩] ∧
    ¬ ((runOps [.createEntry .VAL, .createEntry .VAL]
        ⟨[[]], [], 2147483646, 0, []⟩).1.slots.map TableEntry.location).Pairwise
      (fun a b => a < b) ∧
    (runOps (.createEntry .VAL ::
        (List.replicate 4294967295 .getNextLocation ++ [.createEntry .VAL]))
      SymbolTable.init).1.slots = [⟨.VAL, "", 1⟩, ⟨.VAL, "", 1⟩] :=
  ⟨by decide, by decide, rfl, by decide, by decide,
    (runOps_reissue 4294967295 SymbolTable.init 0 pre_increment_wrap_init).1⟩

/-- C1, amended: while the location counter is below `INT_MAX`, a slot made by `createEntry`
or `addEntry` gets the location counter plus one and leaves the counter there, and the
methods on the `int` counter and on the integer counter agree; over every run of table calls
from a table in which the counter plus the number of calls that take a location does not pass
`INT_MAX`, the locations of the slots created increase strictly in creation order, lie above
the counter the run started from and are pairwise different; `incrementScope`,
`decrementScope`, `getNextLabel` and the loop-stack calls leave the location counter as it
is, on every table. -/
theorem C1_locations_fresh_increasing :
    (∀ (t : SymbolTable) (in_type : Typenames),
      INT_MIN ≤ t.location_allotment → t.location_allotment < INT_MAX →
      (t.createEntry_int in_type).1 = ⟨in_type, "", t.location_allotment + 1⟩ ∧
      (t.createEntry_int in_type).2.location_allotment = t.location_allotment + 1 ∧
      t.createEntry_int in_type = t.createEntry in_type) ∧
    (∀ (t t1 : SymbolTable) (in_type : Typenames) (in_name : String) (entry : TableEntry),
      INT_MIN ≤ t.location_allotment → t.location_allotment < INT_MAX →
      t.addEntry_new_int in_type in_name = .ok (entry, t1) →
      entry = ⟨in_type, in_name, t.location_allotment + 1⟩ ∧
      t.addEntry_new in_type in_name = .ok (entry, t1) ∧
      t.addEntry in_type in_name = .ok t1 ∧
      t1.getEntry in_name = .ok entry ∧
      t1.location_allotment = t.location_allotment + 1) ∧
    (∀ (ops : List TableOp) (t : SymbolTable),
      INT_MIN ≤ t.location_allotment →
      t.location_allotment + location_calls ops ≤ INT_MAX →
      ((runOps ops t).1.slots.map TableEntry.location).Pairwise (fun a b => a < b) ∧
      ((runOps ops t).1.slots.map TableEntry.location).Nodup ∧
      (runOps ops t).2.location_allotment ≤ INT_MAX ∧
      ∀ e ∈ (runOps ops t).1.slots, t.location_allotment < e.location ∧
        e.location ≤ (runOps ops t).2.location_allotment) ∧
    (∀ (t : SymbolTable),
      t.incrementScope.location_allotment = t.location_allotment ∧
      t.push_to_while_stack_int.location_allotment = t.location_allotment ∧
      (∀ label, (t.getNextLabel_int label).2.location_allotment = t.location_allotment) ∧
      (∀ t1, t.decrementScope = .ok t1 → t1.location_allotment = t.location_allotment) ∧
      (∀ t1, t.pop_from_while_stack = .ok t1 → t1.location_allotment = t.location_allotment)) := by
  refine ⟨?_, ?_, ?_, ?_⟩
  · intro t in_type hlo hhi
    have hp := pre_increment_of_lt _ hlo hhi
    simp [SymbolTable.createEntry_int, SymbolTable.getNextLocation_int, hp,
      SymbolTable.createEntry, SymbolTable.getNextLocation]
  · intro t t1 in_type in_name entry hlo hhi h
    have hp := pre_increment_of_lt _ hlo hhi
    rcases hA : t.table_stack.getLast? with _ | top
    · simp [SymbolTable.addEntry_new_int, hA] at h
    · have hsplit := stack_split t top hA
      have hadd := addEntry_ok in_type in_name t _ top hsplit
      simp only [SymbolTable.addEntry_new_int, hA, SymbolTable.getNextLocation_int, hp,
        Except.ok.injEq, Prod.mk.injEq] at h
      obtain ⟨rfl, rfl⟩ := h
      refine ⟨rfl, ?_, hadd, ?_, rfl⟩
      · simp [SymbolTable.addEntry_new, hA, SymbolTable.getNextLocation]
      · simp only [SymbolTable.getEntry]
        rw [find_push _ in_name _ _ rfl, map_find_assign_same]
  · intro ops t hlo hhi
    obtain ⟨-, hup, h2, h3⟩ := runOps_locations ops t hlo hhi
    exact ⟨h3, h3.imp (fun hab => ne_of_lt hab), le_trans hup hhi, h2⟩
  · intro t
    refine ⟨rfl, rfl, fun _ => rfl, ?_, ?_⟩
    · intro t1 h
      rcases hA : t.table_stack.getLast? with _ | top <;>
        simp [SymbolTable.decrementScope, hA] at h
      rw [← h]
    · intro t1 h
      rcases hB : t.while_stack.getLast? with _ | top <;>
        simp [SymbolTable.pop_from_while_stack, SymbolTable.while_stack_top, hB] at h
      rw [← h]

/-- The declaration of `x` on the initial table, and a run of four calls from it. -/
theorem C1_locations_fresh_increasing_witness :
    ((⟨.VAL, "x", 1⟩ : TableEntry) = ⟨.VAL, "x", SymbolTable.init.location_allotment + 1⟩ ∧
      SymbolTable.init.addEntry_new .VAL "x"
        = .ok (⟨.VAL, "x", 1⟩, ⟨[[("x", ⟨.VAL, "x", 1⟩)]], [], 1, 0, []⟩) ∧
      SymbolTable.init.addEntry .VAL "x" = .ok ⟨[[("x", ⟨.VAL, "x", 1⟩)]], [], 1, 0, []⟩ ∧
      (⟨[[("x", ⟨.VAL, "x", 1⟩)]], [], 1, 0, []⟩ : SymbolTable).getEntry "x"
        = .ok ⟨.VAL, "x", 1⟩ ∧
      (⟨[[("x", ⟨.VAL, "x", 1⟩)]], [], 1, 0, []⟩ : SymbolTable).location_allotment
        = SymbolTable.init.location_allotment + 1) ∧
    ((runOps [.addEntry .VAL "x", .incrementScope, .createEntry .CHAR, .decrementScope]
        SymbolTable.init).1.slots.map TableEntry.location).Nodup :=
  ⟨C1_locations_fresh_increasing.2.1 SymbolTable.init
      ⟨[[("x", ⟨.VAL, "x", 1⟩)]], [], 1, 0, []⟩ .VAL "x" ⟨.VAL, "x", 1⟩
      (by decide) (by decide) rfl,
   (C1_locations_fresh_increasing.2.2.1
      [.addEntry .VAL "x", .incrementScope, .createEntry .CHAR, .decrementScope]
      SymbolTable.init (by decide) (by decide)).2.1⟩

/-- C2: `getEntry` returns the entry bound to the name in the innermost (last pushed) open
scope that binds it, so an inner declaration shadows an outer one; it fails, with the
unknown-name internal error, exactly when no open scope binds the name, which is exactly
when `declared` is false. -/
theorem C2_getEntry_innermost (t : SymbolTable) (name : String) :
    (∀ (below above : List ScopeMap) (scope : ScopeMap) (entry : TableEntry),
      t.table_stack = below ++ scope :: above → map_find name scope = some entry →
      (∀ s ∈ above, map_find name s = none) → t.getEntry name = .ok entry) ∧
    ((∃ e, t.getEntry name = .error e) ↔ ∀ s ∈ t.table_stack, map_find name s = none) ∧
    ((∃ e, t.getEntry name = .error e) ↔ t.declared name = false) ∧
    (∀ e, t.getEntry name = .error e →
      e = .exit ("ERROR: Internal compiler error: getEntry on unknown name: " ++ name)) := by
  have hnone : t.find name = none ↔ ∀ s ∈ t.table_stack, map_find name s = none := by
    unfold SymbolTable.find
    rw [find_loop_none_iff]
    simp
  refine ⟨?_, ?_, ?_, ?_⟩
  · intro below above scope entry hstack hscope habove
    simp [SymbolTable.getEntry, find_innermost t name below above scope entry hstack hscope habove]
  · rw [← hnone]
    cases hf : t.find name <;> simp [SymbolTable.getEntry, hf]
  · cases hf : t.find name <;> simp [SymbolTable.getEntry, SymbolTable.declared, hf]
  · intro e he
    cases hf : t.find name <;> simp [SymbolTable.getEntry, hf] at he
    exact he.symm

/-- Two open scopes that both bind `x`: the inner binding is the one returned. -/
theorem C2_getEntry_innermost_witness :
    (⟨[[("x", ⟨.VAL, "x", 1⟩)], [("x", ⟨.CHAR, "x", 2⟩)], [("y", ⟨.VAL, "y", 3⟩)]],
      [], 3, 0, []⟩ : SymbolTable).getEntry "x" = .ok ⟨.CHAR, "x", 2⟩ :=
  (C2_getEntry_innermost ⟨[[("x", ⟨.VAL, "x", 1⟩)], [("x", ⟨.CHAR, "x", 2⟩)],
      [("y", ⟨.VAL, "y", 3⟩)]], [], 3, 0, []⟩ "x").1
    [[("x", ⟨.VAL, "x", 1⟩)]] [[("y", ⟨.VAL, "y", 3⟩)]] [("x", ⟨.CHAR, "x", 2⟩)]
    ⟨.CHAR, "x", 2⟩ rfl rfl (by decide)

/-- C3, as stated, fails: on a table whose current scope binds `x`, `addEntry` for `x` does
not fail; it binds `x` to another entry and raises the location counter. -/
theorem C3_counterexample :
    (⟨[[("x", ⟨.VAL, "x", 1⟩)]], [], 1, 0, []⟩ : SymbolTable).declaredInCurrentScope "x"
      = .ok true ∧
    (⟨[[("x", ⟨.VAL, "x", 1⟩)]], [], 1, 0, []⟩ : SymbolTable).addEntry .CHAR "x"
      = .ok ⟨[[("x", ⟨.CHAR, "x", 2⟩)]], [], 2, 0, []⟩ ∧
    (¬ ∃ e, (⟨[[("x", ⟨.VAL, "x", 1⟩)]], [], 1, 0, []⟩ : SymbolTable).addEntry .CHAR "x"
      = .error e) ∧
    (⟨[[("x", ⟨.CHAR, "x", 2⟩)]], [], 2, 0, []⟩ : SymbolTable).getEntry "x"
      ≠ (⟨[[("x", ⟨.VAL, "x", 1⟩)]], [], 1, 0, []⟩ : SymbolTable).getEntry "x" ∧
    (⟨[[("x", ⟨.CHAR, "x", 2⟩)]], [], 2, 0, []⟩ : SymbolTable).location_allotment
      ≠ (⟨[[("x", ⟨.VAL, "x", 1⟩)]], [], 1, 0, []⟩ : SymbolTable).location_allotment := by
  have hadd : (⟨[[("x", ⟨.VAL, "x", 1⟩)]], [], 1, 0, []⟩ : SymbolTable).addEntry .CHAR "x"
      = .ok ⟨[[("x", ⟨.CHAR, "x", 2⟩)]], [], 2, 0, []⟩ := rfl
  refine ⟨rfl, hadd, ?_, ?_, by decide⟩
  · rw [hadd]
    simp
  · simp only [SymbolTable.getEntry, SymbolTable.find, SymbolTable.find_loop, map_find,
      List.reverse_cons, List.reverse_nil, List.nil_append, if_true]
    intro h
    injection h with h
    exact absurd h (by decide)

/-- C3, amended: when the current scope already binds the name, `addEntry` does not fail;
it issues the next location, binds the name in the current scope to the new entry (the old
binding is replaced), and leaves every other name as it was.  The check for a duplicate is
`declaredInCurrentScope`, which the caller has to make. -/
theorem C3_addEntry_rebinds (t : SymbolTable) (in_type : Typenames) (in_name : String)
    (h : t.declaredInCurrentScope in_name = .ok true) :
    ∃ t1, t.addEntry in_type in_name = .ok t1 ∧
      t1.location_allotment = t.location_allotment + 1 ∧
      t1.getEntry in_name = .ok ⟨in_type, in_name, t.location_allotment + 1⟩ ∧
      t1.declaredInCurrentScope in_name = .ok true ∧
      t1.table_stack.length = t.table_stack.length ∧
      ∀ other, other ≠ in_name → t1.find other = t.find other := by
  rcases hA : t.table_stack.getLast? with _ | top
  · simp [SymbolTable.declaredInCurrentScope, hA] at h
  · have hsplit := stack_split t top hA
    refine ⟨_, addEntry_ok in_type in_name t _ top hsplit, rfl, ?_, ?_, ?_, ?_⟩
    · simp only [SymbolTable.getEntry]
      rw [find_push _ in_name _ _ rfl, map_find_assign_same]
    · simp [SymbolTable.declaredInCurrentScope, map_find_assign_same]
    · simp only [List.length_append, List.length_singleton]
      rw [congrArg List.length hsplit]
      simp
    · intro other hne
      rw [find_push _ other _ _ rfl, find_push t other _ _ hsplit,
        map_find_assign_other _ _ _ _ (Ne.symm hne)]

/-- A table whose only scope binds `x` to a `VAL` entry, and `x` declared again as `CHAR`. -/
theorem C3_addEntry_rebinds_witness :
    ∃ t1, (⟨[[("x", ⟨.VAL, "x", 1⟩)]], [], 1, 0, []⟩ : SymbolTable).addEntry .CHAR "x" = .ok t1 ∧
      t1.location_allotment = 1 + 1 ∧
      t1.getEntry "x" = .ok ⟨.CHAR, "x", 1 + 1⟩ ∧
      t1.declaredInCurrentScope "x" = .ok true ∧
      t1.table_stack.length = 1 ∧
      ∀ other, other ≠ "x" → t1.find other
        = (⟨[[("x", ⟨.VAL, "x", 1⟩)]], [], 1, 0, []⟩ : SymbolTable).find other :=
  C3_addEntry_rebinds ⟨[[("x", ⟨.VAL, "x", 1⟩)]], [], 1, 0, []⟩ .CHAR "x" rfl

/-- C4: from every table, `incrementScope`, then `addEntry` for each declaration of a list,
then `decrementScope` all succeed and give back the scope stack the table started with, so
`find`, `getEntry`, `declared` and `declaredInCurrentScope` answer for every name what they
answered before; in the table reached before `decrementScope`, every declared name resolves to
the entry its last declaration in the list created, whose location lies above the counter the
table started with. -/
theorem C4_scope_roundtrip (t : SymbolTable) (decls : List (Typenames × String)) :
    ∃ (inner closed : SymbolTable),
      declare_all decls t.incrementScope = .ok inner ∧
      inner.decrementScope = .ok closed ∧
      closed.table_stack = t.table_stack ∧
      (∀ name, closed.find name = t.find name ∧ closed.getEntry name = t.getEntry name ∧
        closed.declared name = t.declared name ∧
        closed.declaredInCurrentScope name = t.declaredInCurrentScope name) ∧
      (∀ (i : Nat) (h : i < decls.length),
        (∀ (j : Nat) (hj : j < decls.length), i < j →
          (decls.get ⟨j, hj⟩).2 ≠ (decls.get ⟨i, h⟩).2) →
        inner.getEntry (decls.get ⟨i, h⟩).2 =
          .ok ⟨(decls.get ⟨i, h⟩).1, (decls.get ⟨i, h⟩).2, t.location_allotment + 1 + i⟩ ∧
        inner.declaredInCurrentScope (decls.get ⟨i, h⟩).2 = .ok true) ∧
      (∀ name, (∀ d ∈ decls, d.2 ≠ name) → inner.find name = t.find name) := by
  obtain ⟨inner, top1, hrun, hst, hloc, hkeep, hnew⟩ :=
    declare_all_spec decls t.incrementScope t.table_stack [] rfl
  have hclosed : inner.decrementScope = .ok
      { inner with archive := inner.archive ++ map_values top1,
                   table_stack := t.table_stack } := by
    simp [SymbolTable.decrementScope, hst]
  refine ⟨inner, _, hrun, hclosed, rfl, ?_, ?_, ?_⟩
  · intro name
    exact ⟨rfl, rfl, rfl, rfl⟩
  · intro i h hlater
    have := hnew i h hlater
    refine ⟨?_, ?_⟩
    · simp only [SymbolTable.getEntry]
      rw [find_push inner _ _ _ hst, this]
      rfl
    · simp only [SymbolTable.declaredInCurrentScope, hst, getLast?_concat_eq, this,
        Option.isSome_some]
  · intro name hname
    rw [find_push inner _ _ _ hst, hkeep name hname]
    rfl

/-- C5, as stated, fails: on a table whose label counter holds `INT_MAX`,
`getNextLabel("while")` returns `while_-2147483648`, which is not the argument, an underscore
and the decimal rendering of the counter plus one, and leaves the counter at `INT_MIN`; among
the labels that `2^32 + 1` calls of `getNextLabel("while")` return on the initial table two
are the same string. -/
theorem C5_counterexample :
    ((⟨[[]], [], 0, 2147483647, []⟩ : SymbolTable).getNextLabel_int "while").1
      = "while_-2147483648" ∧
    ((⟨[[]], [], 0, 2147483647, []⟩ : SymbolTable).getNextLabel_int "while").1
      ≠ "while" ++ "_" ++
        toString ((⟨[[]], [], 0, 2147483647, []⟩ : SymbolTable).label_allotment + 1) ∧
    ((⟨[[]], [], 0, 2147483647, []⟩ : SymbolTable).getNextLabel_int "while").2.label_allotment
      = -2147483648 ∧
    ((⟨[[]], [], 0, 2147483647, []⟩ : SymbolTable).getNextLabel_int "while").2.label_allotment
      ≠ (⟨[[]], [], 0, 2147483647, []⟩ : SymbolTable).label_allotment + 1 ∧
    ¬ (runOps (List.replicate 4294967297 (.getNextLabel "while"))
        SymbolTable.init).1.labels.Nodup := by
  refine ⟨by decide, by decide, by decide, by decide, ?_⟩
  rw [runOps_getNextLabel]
  exact not_nodup_of_cycle _ (by rw [pre_increment_cycle])

/-- C5, amended: while the label counter is below `INT_MAX`, `getNextLabel` returns its
argument, an underscore and the decimal rendering of the label counter plus one, and moves
the counter there; the rendering of a natural number is made of decimal digits whose value is
that number; over every run of table calls (calls of `getNextLabel` with any arguments and
`push_to_while_stack` among them) from a table in which the label counter plus the number of
calls that take a label does not pass `INT_MAX`, the labels issued are pairwise different. -/
theorem C5_labels_unique :
    (∀ (t : SymbolTable) (label : String),
      INT_MIN ≤ t.label_allotment → t.label_allotment < INT_MAX →
      (t.getNextLabel_int label).1 = label ++ "_" ++ toString (t.label_allotment + 1) ∧
      (t.getNextLabel_int label).2.label_allotment = t.label_allotment + 1 ∧
      t.getNextLabel_int label = t.getNextLabel label ∧
      t.push_to_while_stack_int = t.push_to_while_stack) ∧
    (∀ n : Nat, digits_value (toString (n : Int)).data = n ∧
      ∀ c ∈ (toString (n : Int)).data, c ∈ "0123456789".data) ∧
    (∀ (ops : List TableOp) (t : SymbolTable),
      INT_MIN ≤ t.label_allotment →
      t.label_allotment + label_calls ops ≤ INT_MAX →
      (runOps ops t).1.labels.Pairwise (fun a b => a ≠ b) ∧ (runOps ops t).1.labels.Nodup ∧
      (runOps ops t).2.label_allotment ≤ INT_MAX ∧
      ∀ l ∈ (runOps ops t).1.labels, ∃ (p : String) (k : Int),
        l = p ++ "_" ++ toString k ∧ t.label_allotment < k ∧
        k ≤ (runOps ops t).2.label_allotment) := by
  refine ⟨?_, ?_, ?_⟩
  · intro t label hlo hhi
    have hp := pre_increment_of_lt _ hlo hhi
    simp [SymbolTable.getNextLabel_int, SymbolTable.getNextLabel, hp,
      SymbolTable.push_to_while_stack_int, SymbolTable.push_to_while_stack]
  · intro n
    have hrepr : toString (n : Int) = Nat.repr n := rfl
    rw [hrepr]
    refine ⟨?_, fun c hc => nat_repr_mem n c hc⟩
    simp only [Nat.repr, List.asString, Nat.toDigits]
    exact toDigitsCore_value (n + 1) n (by omega)
  · intro ops t hlo hhi
    obtain ⟨-, hup, h2, h3⟩ := runOps_labels ops t hlo hhi
    exact ⟨h3, h3, le_trans hup hhi, h2⟩

/-- The first label of the initial table, and a run of three calls that take a label. -/
theorem C5_labels_unique_witness :
    (SymbolTable.init.getNextLabel_int "else_start_").1
      = "else_start_" ++ "_" ++ toString (SymbolTable.init.label_allotment + 1) ∧
    (runOps [.getNextLabel "while", .push_to_while_stack, .getNextLabel "else_end_"]
      SymbolTable.init).1.labels.Nodup :=
  ⟨(C5_labels_unique.1 SymbolTable.init "else_start_" (by decide) (by decide)).1,
   (C5_labels_unique.2.2
      [.getNextLabel "while", .push_to_while_stack, .getNextLabel "else_end_"]
      SymbolTable.init (by decide) (by decide)).2.1⟩

/-- A table with one scope binding `x`, and an inner scope that declares `x` twice and `y`. -/
theorem C4_scope_roundtrip_witness :
    ∃ (inner closed : SymbolTable),
      declare_all [(.CHAR, "x"), (.VAL, "y"), (.VAL, "x")]
        (⟨[[("x", ⟨.VAL, "x", 1⟩)]], [], 1, 0, []⟩ : SymbolTable).incrementScope = .ok inner ∧
      inner.decrementScope = .ok closed ∧
      closed.table_stack = [[("x", ⟨.VAL, "x", 1⟩)]] ∧
      inner.getEntry "x" = .ok ⟨.VAL, "x", 4⟩ ∧
      inner.getEntry "y" = .ok ⟨.VAL, "y", 3⟩ ∧
      closed.getEntry "x" = .ok ⟨.VAL, "x", 1⟩ ∧
      closed.declared "y" = false := by
  obtain ⟨inner, closed, h1, h2, h3, h4, h5, -⟩ :=
    C4_scope_roundtrip ⟨[[("x", ⟨.VAL, "x", 1⟩)]], [], 1, 0, []⟩
      [(.CHAR, "x"), (.VAL, "y"), (.VAL, "x")]
  refine ⟨inner, closed, h1, h2, h3, ?_, ?_, ?_, ?_⟩
  · exact (h5 2 (by decide) (fun j hj hlt => by simp at hj; omega)).1
  · refine (h5 1 (by decide) (fun j hj hlt => ?_)).1
    simp only [List.length_cons, List.length_nil] at hj
    have hj2 : j = 2 := by omega
    subst hj2
    simp
  · rw [(h4 "x").2.1]
    rfl
  · rw [(h4 "y").2.2.1]
    rfl

/-! ## Running the computations on the globals -/

@[simp] theorem Compile.pure_run {α : Type} (a : α) (w : World) :
    (pure a : Compile α) w = (.ok a, w) := rfl

@[simp] theorem Compile.ret_run {α : Type} (a : α) (w : World) :
    (Compile.ret a) w = (.ok a, w) := rfl

@[simp] theorem Compile.fail_run {α : Type} (e : Error) (w : World) :
    (Compile.fail e : Compile α) w = (.error e, w) := rfl

@[simp] theorem yyerror_run {α : Type} (msg : String) (w : World) :
    (yyerror msg : Compile α) w = (.error (.yyerror msg), w) := rfl

theorem Compile.bind_run {α β : Type} (m : Compile α) (f : α → Compile β) (w : World) :
    (m >>= f) w = match m w with
      | (.ok a, w1) => f a w1
      | (.error e, w1) => (.error e, w1) := rfl

@[simp] theorem Compile.bind_ok {α β : Type} (m : Compile α) (f : α → Compile β) (w w1 : World)
    (a : α) (h : m w = (.ok a, w1)) : (m >>= f) w = f a w1 := by
  rw [Compile.bind_run, h]

@[simp] theorem Compile.bind_error {α β : Type} (m : Compile α) (f : α → Compile β)
    (w w1 : World) (e : Error) (h : m w = (.error e, w1)) : (m >>= f) w = (.error e, w1) := by
  rw [Compile.bind_run, h]

theorem Compile.bind_eq_ok {α β : Type} (m : Compile α) (f : α → Compile β) (w w2 : World)
    (b : β) : (m >>= f) w = (.ok b, w2) ↔ ∃ a w1, m w = (.ok a, w1) ∧ f a w1 = (.ok b, w2) := by
  rw [Compile.bind_run]
  rcases hm : m w with ⟨r, w1⟩
  cases r with
  | error e => simp
  | ok a =>
    constructor
    · intro h
      exact ⟨a, w1, rfl, h⟩
    · rintro ⟨a1, w3, h1, h⟩
      simp only [Prod.mk.injEq, Except.ok.injEq] at h1
      obtain ⟨rfl, rfl⟩ := h1
      exact h

@[simp] theorem Compile.emit_run (line : String) (w : World) :
    Compile.emit line w = (.ok (), { w with fout := w.fout ++ [line] }) := rfl

@[simp] theorem Compile.createEntry_run (in_type : Typenames) (w : World) :
    Compile.createEntry in_type w =
      (.ok ⟨in_type, "", w.table.location_allotment + 1⟩,
       { w with table := (w.table.createEntry in_type).2 }) := rfl

@[simp] theorem Compile.getNextLabel_run (label : String) (w : World) :
    Compile.getNextLabel label w =
      (.ok (label ++ "_" ++ toString (w.table.label_allotment + 1)),
       { w with table := (w.table.getNextLabel label).2 }) := rfl

theorem math_val_check_run (node : ASTNode) (w : World) :
    math_val_check node w =
      if node.getType = Typenames.VAL then (.ok (), w)
      else (.error (.yyerror "cannot use type in mathematical expression"), w) := by
  unfold math_val_check
  by_cases h : node.getType = Typenames.VAL <;> simp [h]

theorem relational_mem_not_math : ∀ op ∈ relational_ops, op ∉ math_ops := by decide

theorem math_mem_not_relational : ∀ op ∈ math_ops, op ∉ relational_ops := by decide

theorem ASTNode_Math2_run (in1 in2 : ASTNode) (op : String) (w : World) :
    ASTNode_Math2 in1 in2 op w =
      if op ∈ relational_ops ∧ in1.getType ≠ in2.getType then
        (.error (.yyerror "types do not match for relationship operator."), w)
      else if op ∈ math_ops ∧ (in1.getType ≠ Typenames.VAL ∨ in2.getType ≠ Typenames.VAL) then
        (.error (.yyerror "cannot use type in mathematical expression"), w)
      else (.ok (.Math2 (op_to_instruction_at op) in1 in2), w) := by
  unfold ASTNode_Math2 relational_check
  by_cases hr : op ∈ relational_ops
  · have hm : op ∉ math_ops := relational_mem_not_math op hr
    by_cases h1 : in1.getType = in2.getType <;> simp [hr, hm, h1, Compile.bind_run]
  · by_cases hm : op ∈ math_ops
    · by_cases h3 : in1.getType = Typenames.VAL <;> by_cases h4 : in2.getType = Typenames.VAL <;>
        simp [hr, hm, h3, h4, Compile.bind_run, math_val_check_run]
    · simp [hr, hm, Compile.bind_run]

theorem ASTNode_Assign_run (lhs rhs : ASTNode) (w : World) :
    ASTNode_Assign lhs rhs w =
      if lhs.getType = rhs.getType then (.ok (.Assign lhs.getType lhs rhs), w)
      else (.error (.yyerror "types do not match for assignment"), w) := by
  unfold ASTNode_Assign
  by_cases h : lhs.getType = rhs.getType <;> simp [h]

theorem ASTNode_Math1_Minus_run (child : ASTNode) (w : World) :
    ASTNode_Math1_Minus child w =
      if child.getType = Typenames.VAL then (.ok (.Math1_Minus child), w)
      else (.error (.yyerror "cannot use type in mathematical expression"), w) := by
  unfold ASTNode_Math1_Minus
  by_cases h : child.getType = Typenames.VAL <;> simp [h, Compile.bind_run, math_val_check_run]

theorem ASTNode_BoolAnd_run (in1 in2 : ASTNode) (w : World) :
    ASTNode_BoolAnd in1 in2 w =
      if in1.getType = Typenames.VAL ∧ in2.getType = Typenames.VAL then
        (.ok (.BoolAnd in1 in2), w)
      else (.error (.yyerror "cannot use type in mathematical expression"), w) := by
  unfold ASTNode_BoolAnd
  by_cases h1 : in1.getType = Typenames.VAL <;> by_cases h2 : in2.getType = Typenames.VAL <;>
    simp [h1, h2, Compile.bind_run, math_val_check_run]

theorem ASTNode_BoolOr_run (in1 in2 : ASTNode) (w : World) :
    ASTNode_BoolOr in1 in2 w =
      if in1.getType = Typenames.VAL ∧ in2.getType = Typenames.VAL then
        (.ok (.BoolOr in1 in2), w)
      else (.error (.yyerror "cannot use type in mathematical expression"), w) := by
  unfold ASTNode_BoolOr
  by_cases h1 : in1.getType = Typenames.VAL <;> by_cases h2 : in2.getType = Typenames.VAL <;>
    simp [h1, h2, Compile.bind_run, math_val_check_run]

theorem ASTNode_Not_run (inp : ASTNode) (w : World) :
    ASTNode_Not inp w =
      if inp.getType = Typenames.VAL then (.ok (.Not inp), w)
      else (.error (.yyerror "cannot use type in mathematical expression"), w) := by
  unfold ASTNode_Not
  by_cases h : inp.getType = Typenames.VAL <;> simp [h, Compile.bind_run, math_val_check_run]

theorem ASTNode_Random_run (inp : ASTNode) (w : World) :
    ASTNode_Random inp w =
      if inp.getType = Typenames.VAL then (.ok (.Random inp), w)
      else (.error (.yyerror "cannot use type as argument to random"), w) := by
  unfold ASTNode_Random
  by_cases h : inp.getType = Typenames.VAL <;> simp [h]

theorem ASTNode_If_run (cond if_statement : ASTNode) (else_statement : Option ASTNode)
    (w : World) :
    ASTNode_If cond if_statement else_statement w =
      if cond.getType = Typenames.VAL then (.ok (.If cond if_statement else_statement), w)
      else (.error (.yyerror "condition for if statements must evaluate to type val"), w) := by
  unfold ASTNode_If
  by_cases h : cond.getType = Typenames.VAL <;> simp [h]

theorem ASTNode_While_run (cond statement : ASTNode) (w : World) :
    ASTNode_While cond statement w =
      match w.table.while_stack.getLast? with
      | none => (.error .undefined, w)
      | some top =>
        if cond.getType = Typenames.VAL then (.ok (.While top cond statement), w)
        else (.error (.yyerror "condition for while statements must evaluate to type val"), w) := by
  unfold ASTNode_While
  rw [Compile.bind_run]
  simp only [Compile.while_stack_top, SymbolTable.while_stack_top]
  cases w.table.while_stack.getLast? with
  | none => rfl
  | some top => by_cases h : cond.getType = Typenames.VAL <;> simp [h]

theorem ASTNode_Break_run (w : World) :
    ASTNode_Break w =
      if w.table.while_stack_size ≤ 0 then
        (.error (.yyerror "'break' command used outside of any loop"), w)
      else match w.table.while_stack.getLast? with
        | none => (.error .undefined, w)
        | some top => (.ok (.Break top), w) := by
  unfold ASTNode_Break
  rw [Compile.bind_run]
  simp only [Compile.while_stack_size]
  by_cases h : w.table.while_stack_size ≤ 0
  · simp [h]
  · simp only [h, if_false]
    rw [Compile.bind_run]
    simp only [Compile.while_stack_top, SymbolTable.while_stack_top]
    cases w.table.while_stack.getLast? with
    | none => rfl
    | some top => rfl

theorem ASTNode_Continue_run (w : World) :
    ASTNode_Continue w =
      if w.table.while_stack_size ≤ 0 then
        (.error (.yyerror "'continue' command used outside of any loop"), w)
      else match w.table.while_stack.getLast? with
        | none => (.error .undefined, w)
        | some top => (.ok (.Continue top), w) := by
  unfold ASTNode_Continue
  rw [Compile.bind_run]
  simp only [Compile.while_stack_size]
  by_cases h : w.table.while_stack_size ≤ 0
  · simp [h]
  · simp only [h, if_false]
    rw [Compile.bind_run]
    simp only [Compile.while_stack_top, SymbolTable.while_stack_top]
    cases w.table.while_stack.getLast? with
    | none => rfl
    | some top => rfl

/-! ## Claims on the constructors -/

/-- C6: the constructor of `ASTNode_Math2` with a relational operator fails exactly when
the kinds of the two operands differ, and with an arithmetic or boolean operator of `math_ops`
exactly when one of the operands is not `VAL`; the failure is a call of `yyerror`; the
constructor, failing or not, leaves the symbol table and the output as they were. -/
theorem C6_Math2_type_check (in1 in2 : ASTNode) (op : String) (w : World) :
    (op ∈ relational_ops →
      ((∃ e, (ASTNode_Math2 in1 in2 op w).1 = .error e) ↔ in1.getType ≠ in2.getType) ∧
      (∀ e, (ASTNode_Math2 in1 in2 op w).1 = .error e →
        e = .yyerror "types do not match for relationship operator.")) ∧
    (op ∈ math_ops →
      ((∃ e, (ASTNode_Math2 in1 in2 op w).1 = .error e) ↔
        (in1.getType ≠ Typenames.VAL ∨ in2.getType ≠ Typenames.VAL)) ∧
      (∀ e, (ASTNode_Math2 in1 in2 op w).1 = .error e →
        e = .yyerror "cannot use type in mathematical expression")) ∧
    (ASTNode_Math2 in1 in2 op w).2 = w ∧
    (∀ node, (ASTNode_Math2 in1 in2 op w).1 = .ok node →
      node = .Math2 (op_to_instruction_at op) in1 in2 ∧ node.getType = Typenames.VAL) ∧
    relational_ops = ["==", "!=", "<", "<=", ">", ">="] ∧
    math_ops = ["+", "-", "*", "/", "&&", "||", "!", "+=", "-=", "*=", "/="] := by
  rw [ASTNode_Math2_run]
  refine ⟨?_, ?_, ?_, ?_, rfl, rfl⟩
  · intro hr
    have hm : op ∉ math_ops := relational_mem_not_math op hr
    by_cases h : in1.getType = in2.getType <;> simp [hr, hm, h]
  · intro hm
    have hr : op ∉ relational_ops := math_mem_not_relational op hm
    by_cases h3 : in1.getType = Typenames.VAL <;> by_cases h4 : in2.getType = Typenames.VAL <;>
      simp [hr, hm, h3, h4]
  · split
    · rfl
    · split <;> rfl
  · intro node h
    split at h
    · simp at h
    · split at h
      · simp at h
      · simp only [Except.ok.injEq] at h
        subst h
        exact ⟨rfl, rfl⟩

/-- A `VAL` literal compared with a `CHAR` literal, and a `CHAR` literal added to a `VAL`
literal. -/
theorem C6_Math2_type_check_witness :
    (((∃ e, (ASTNode_Math2 (.Literal .VAL "1") (.Literal .CHAR "'a'") "<"
        ⟨SymbolTable.init, []⟩).1 = .error e) ↔
        (ASTNode.Literal .VAL "1").getType ≠ (ASTNode.Literal .CHAR "'a'").getType) ∧
      (∀ e, (ASTNode_Math2 (.Literal .VAL "1") (.Literal .CHAR "'a'") "<"
        ⟨SymbolTable.init, []⟩).1 = .error e →
        e = .yyerror "types do not match for relationship operator.")) ∧
    (((∃ e, (ASTNode_Math2 (.Literal .CHAR "'a'") (.Literal .VAL "1") "+"
        ⟨SymbolTable.init, []⟩).1 = .error e) ↔
        ((ASTNode.Literal .CHAR "'a'").getType ≠ Typenames.VAL ∨
          (ASTNode.Literal .VAL "1").getType ≠ Typenames.VAL)) ∧
      (∀ e, (ASTNode_Math2 (.Literal .CHAR "'a'") (.Literal .VAL "1") "+"
        ⟨SymbolTable.init, []⟩).1 = .error e →
        e = .yyerror "cannot use type in mathematical expression")) :=
  ⟨(C6_Math2_type_check (.Literal .VAL "1") (.Literal .CHAR "'a'") "<"
      ⟨SymbolTable.init, []⟩).1 (by decide),
   (C6_Math2_type_check (.Literal .CHAR "'a'") (.Literal .VAL "1") "+"
      ⟨SymbolTable.init, []⟩).2.1 (by decide)⟩

/-- C7: the constructors of unary minus, `BoolAnd`, `BoolOr`, `Not` and `Random` fail exactly
when an operand's kind is not `VAL`, which is exactly when `math_val_check` fails on that
operand and exactly when the constructor of `ASTNode_Math2` with an operator of `math_ops`
fails on the operands; the constructor of `If` fails exactly when the kind of the condition
is not `VAL`; every such failure is a call of `yyerror` (unary minus, `BoolAnd`, `BoolOr` and
`Not` through `math_val_check`, `Random` and `If` through a test of their own); a node of the
five value-producing classes that is built has kind `VAL`. -/
theorem C7_operand_checks (x y : ASTNode) (w : World) :
    (((∃ e, (ASTNode_Math1_Minus x w).1 = .error e) ↔ x.getType ≠ Typenames.VAL) ∧
      ((∃ e, (ASTNode_Not x w).1 = .error e) ↔ x.getType ≠ Typenames.VAL) ∧
      ((∃ e, (ASTNode_Random x w).1 = .error e) ↔ x.getType ≠ Typenames.VAL) ∧
      ((∃ e, (ASTNode_BoolAnd x y w).1 = .error e) ↔
        (x.getType ≠ Typenames.VAL ∨ y.getType ≠ Typenames.VAL)) ∧
      ((∃ e, (ASTNode_BoolOr x y w).1 = .error e) ↔
        (x.getType ≠ Typenames.VAL ∨ y.getType ≠ Typenames.VAL))) ∧
    (((∃ e, (math_val_check x w).1 = .error e) ↔ x.getType ≠ Typenames.VAL) ∧
      (∀ op ∈ math_ops, ((∃ e, (ASTNode_Math2 x y op w).1 = .error e) ↔
        (x.getType ≠ Typenames.VAL ∨ y.getType ≠ Typenames.VAL)))) ∧
    (∀ (s : ASTNode) (other : Option ASTNode),
      ((∃ e, (ASTNode_If x s other w).1 = .error e) ↔ x.getType ≠ Typenames.VAL) ∧
      (∀ e, (ASTNode_If x s other w).1 = .error e → ∃ msg, e = .yyerror msg)) ∧
    ((∀ e, (ASTNode_Math1_Minus x w).1 = .error e → e = (.yyerror "cannot use type in mathematical expression")) ∧
      (∀ e, (ASTNode_Not x w).1 = .error e → e = (.yyerror "cannot use type in mathematical expression")) ∧
      (∀ e, (ASTNode_Random x w).1 = .error e → e = (.yyerror "cannot use type as argument to random")) ∧
      (∀ e, (ASTNode_BoolAnd x y w).1 = .error e → e = (.yyerror "cannot use type in mathematical expression")) ∧
      (∀ e, (ASTNode_BoolOr x y w).1 = .error e → e = (.yyerror "cannot use type in mathematical expression")) ∧
      (∀ e, (math_val_check x w).1 = .error e → e = (.yyerror "cannot use type in mathematical expression"))) ∧
    ((∀ n, (ASTNode_Math1_Minus x w).1 = .ok n → n.getType = Typenames.VAL) ∧
      (∀ n, (ASTNode_Not x w).1 = .ok n → n.getType = Typenames.VAL) ∧
      (∀ n, (ASTNode_Random x w).1 = .ok n → n.getType = Typenames.VAL) ∧
      (∀ n, (ASTNode_BoolAnd x y w).1 = .ok n → n.getType = Typenames.VAL) ∧
      (∀ n, (ASTNode_BoolOr x y w).1 = .ok n → n.getType = Typenames.VAL)) := by
  simp only [ASTNode_Math1_Minus_run, ASTNode_Not_run, ASTNode_Random_run, ASTNode_BoolAnd_run,
    ASTNode_BoolOr_run, ASTNode_If_run, math_val_check_run, ASTNode_Math2_run]
  refine ⟨?_, ⟨?_, ?_⟩, ?_, ?_, ?_⟩
  · by_cases h1 : x.getType = Typenames.VAL <;> by_cases h2 : y.getType = Typenames.VAL <;>
      simp [h1, h2]
  · by_cases h1 : x.getType = Typenames.VAL <;> simp [h1]
  · intro op hm
    have hr : op ∉ relational_ops := math_mem_not_relational op hm
    by_cases h1 : x.getType = Typenames.VAL <;> by_cases h2 : y.getType = Typenames.VAL <;>
      simp [h1, h2, hm, hr]
  · intro s other
    by_cases h1 : x.getType = Typenames.VAL <;> simp [h1]
  · by_cases h1 : x.getType = Typenames.VAL <;> by_cases h2 : y.getType = Typenames.VAL <;>
      simp [h1, h2]
  · refine ⟨?_, ?_, ?_, ?_, ?_⟩ <;> intro n hn <;> split at hn <;>
      simp only [Except.ok.injEq, reduceCtorEq] at hn <;> subst hn <;> rfl

/-- A `CHAR` literal as operand of `Random`, and of `BoolAnd` next to a `VAL` literal. -/
theorem C7_operand_checks_witness :
    ((∃ e, (ASTNode_Random (.Literal .CHAR "'a'") ⟨SymbolTable.init, []⟩).1 = .error e) ↔
      (ASTNode.Literal .CHAR "'a'").getType ≠ Typenames.VAL) ∧
    (∀ n, (ASTNode_BoolAnd (.Literal .VAL "1") (.Literal .VAL "0") ⟨SymbolTable.init, []⟩).1
      = .ok n → n.getType = Typenames.VAL) :=
  ⟨(C7_operand_checks (.Literal .CHAR "'a'") (.Literal .VAL "1") ⟨SymbolTable.init, []⟩).1.2.2.1,
   (C7_operand_checks (.Literal .VAL "1") (.Literal .VAL "0")
      ⟨SymbolTable.init, []⟩).2.2.2.2.2.2.2.1⟩

/-- C8: the constructor of `ASTNode_Assign` fails exactly when the kind of the left side
differs from the kind of the right side, by a call of `yyerror`; failing or not, it leaves the
output and the symbol table (location and label counters included) as they were; the node it
builds has the kind of the left side. -/
theorem C8_Assign_type_check (lhs rhs : ASTNode) (w : World) :
    ((∃ e, (ASTNode_Assign lhs rhs w).1 = .error e) ↔ lhs.getType ≠ rhs.getType) ∧
    (∀ e, (ASTNode_Assign lhs rhs w).1 = .error e →
      e = .yyerror "types do not match for assignment") ∧
    (ASTNode_Assign lhs rhs w).2 = w ∧
    (∀ node, (ASTNode_Assign lhs rhs w).1 = .ok node →
      node = .Assign lhs.getType lhs rhs ∧ node.getType = lhs.getType) := by
  rw [ASTNode_Assign_run]
  by_cases h : lhs.getType = rhs.getType
  · simp only [h, if_true, ne_eq, not_true_eq_false, iff_false, not_exists, reduceCtorEq,
      not_false_eq_true, implies_true, false_implies, Except.ok.injEq, true_and]
    intro node hn
    subst hn
    exact ⟨rfl, rfl⟩
  · simp only [h, if_false, ne_eq, not_false_eq_true, iff_true, Except.error.injEq,
      exists_eq', true_and, reduceCtorEq, false_implies, implies_true, and_true]
    intro e he
    exact he.symm

/-- A `VAL` variable assigned from a `CHAR` literal is refused with nothing written. -/
theorem C8_Assign_type_check_witness :
    (ASTNode_Assign (.Variable .VAL ⟨.VAL, "x", 1⟩) (.Literal .CHAR "'a'")
      ⟨SymbolTable.init, []⟩).1 = .error (.yyerror "types do not match for assignment") ∧
    (ASTNode_Assign (.Variable .VAL ⟨.VAL, "x", 1⟩) (.Literal .CHAR "'a'")
      ⟨SymbolTable.init, []⟩).2 = ⟨SymbolTable.init, []⟩ := by
  have h := C8_Assign_type_check (.Variable .VAL ⟨.VAL, "x", 1⟩) (.Literal .CHAR "'a'")
    ⟨SymbolTable.init, []⟩
  obtain ⟨e, he⟩ := h.1.2 (by decide)
  exact ⟨by rw [he, h.2.1 e he], h.2.2.1⟩

/-! ## Processing -/

theorem render_some_run (entry : TableEntry) (w : World)
    (h : entry.type_id = Typenames.VAL ∨ entry.type_id = Typenames.CHAR) :
    Compile.render (some entry) w = (.ok ("s" ++ toString entry.location), w) := by
  simp [Compile.render, TableEntry.getLocation, h]

theorem render_eq_ok (p : Option TableEntry) (w w1 : World) (text : String)
    (h : Compile.render p w = (.ok text, w1)) :
    w1 = w ∧ ∃ entry, p = some entry ∧ entry.getLocation = .ok text := by
  cases p with
  | none => simp [Compile.render] at h
  | some entry =>
    simp only [Compile.render] at h
    cases hl : entry.getLocation with
    | error e => simp [hl] at h
    | ok s =>
      simp only [hl, Compile.ret_run, Prod.mk.injEq, Except.ok.injEq] at h
      exact ⟨h.2.symm, entry, rfl, by rw [hl, h.1]⟩

set_option maxHeartbeats 1600000 in
theorem process_kind (node : ASTNode) (hc : Constructed node) :
    ∀ (w w1 : World) (entry : TableEntry),
      node.process w = (.ok (some entry), w1) → entry.getType = node.getType := by
  induction hc with
  | Temp in_type w0 node h =>
    intro w w1 entry hp
    simp only [ASTNode_Temp, Compile.pure_run, Except.ok.injEq] at h
    subst h
    simp [ASTNode.process] at hp
  | Root w0 node h =>
    intro w w1 entry hp
    simp only [ASTNode_Root, Compile.pure_run, Except.ok.injEq] at h
    subst h
    simp [ASTNode.process, Compile.bind_eq_ok] at hp
  | Variable in_entry w0 node h =>
    intro w w1 entry hp
    simp only [ASTNode_Variable, Compile.pure_run, Except.ok.injEq] at h
    subst h
    simp [ASTNode.process, Compile.bind_eq_ok] at hp
    rw [← hp.1]
    rfl
  | Literal in_type in_lex w0 node h =>
    intro w w1 entry hp
    simp only [ASTNode_Literal, Compile.pure_run, Except.ok.injEq] at h
    subst h
    simp only [ASTNode.process] at hp
    split at hp
    · simp only [Compile.bind_eq_ok, Compile.createEntry_run, Prod.mk.injEq, Except.ok.injEq,
        Compile.pure_run, Compile.emit_run, Option.some.injEq] at hp
      obtain ⟨var, w2, ⟨rfl, -⟩, text, w3, -, u, w4, -, hv, -⟩ := hp
      rw [← hv]
      rfl
    · simp at hp
  | Assign lhs rhs w0 node hl hr h ihl ihr =>
    intro w w1 entry hp
    rw [ASTNode_Assign_run] at h
    split at h
    · simp only [Except.ok.injEq] at h
      subst h
      simp only [ASTNode.process, Compile.bind_eq_ok, Compile.pure_run, Prod.mk.injEq,
        Except.ok.injEq, Compile.emit_run] at hp
      obtain ⟨u, w2, -, le, w3, hlp, re, w4, -, ci, w5, -, rt, w6, -, lt, w7, -, u2, w8, -,
        hle, -⟩ := hp
      subst hle
      exact ihl _ _ _ hlp
    · simp at h
  | Math1_Minus child w0 node hch h ih =>
    intro w w1 entry hp
    rw [ASTNode_Math1_Minus_run] at h
    split at h
    · simp only [Except.ok.injEq] at h
      subst h
      simp only [ASTNode.process, Compile.bind_eq_ok, Compile.pure_run, Prod.mk.injEq,
        Except.ok.injEq, Compile.emit_run, Compile.createEntry_run, Option.some.injEq] at hp
      obtain ⟨ce, w2, -, res, w3, ⟨rfl, -⟩, u, w4, -, t1, w5, -, t2, w6, -, u2, w7, -,
        hres, -⟩ := hp
      rw [← hres]
      rfl
    · simp at h
  | BoolAnd in1 in2 w0 node h1 h2 h ih1 ih2 =>
    intro w w1 entry hp
    rw [ASTNode_BoolAnd_run] at h
    split at h
    · simp only [Except.ok.injEq] at h
      subst h
      simp only [ASTNode.process, Compile.bind_eq_ok, Compile.pure_run, Prod.mk.injEq,
        Except.ok.injEq, Compile.emit_run, Compile.createEntry_run, Compile.getNextLabel_run,
        Option.some.injEq] at hp
      casesm* (∃ _, _), (_ ∧ _)
      subst_vars
      rfl
    · simp at h
  | BoolOr in1 in2 w0 node h1 h2 h ih1 ih2 =>
    intro w w1 entry hp
    rw [ASTNode_BoolOr_run] at h
    split at h
    · simp only [Except.ok.injEq] at h
      subst h
      simp only [ASTNode.process, Compile.bind_eq_ok, Compile.pure_run, Prod.mk.injEq,
        Except.ok.injEq, Compile.emit_run, Compile.createEntry_run, Compile.getNextLabel_run,
        Option.some.injEq] at hp
      casesm* (∃ _, _), (_ ∧ _)
      subst_vars
      rfl
    · simp at h
  | Random inp w0 node h1 h ih1 =>
    intro w w1 entry hp
    rw [ASTNode_Random_run] at h
    split at h
    · simp only [Except.ok.injEq] at h
      subst h
      simp only [ASTNode.process, Compile.bind_eq_ok, Compile.pure_run, Prod.mk.injEq,
        Except.ok.injEq, Compile.emit_run, Compile.createEntry_run, Compile.getNextLabel_run,
        Option.some.injEq] at hp
      casesm* (∃ _, _), (_ ∧ _)
      subst_vars
      rfl
    · simp at h
  | Not inp w0 node h1 h ih1 =>
    intro w w1 entry hp
    rw [ASTNode_Not_run] at h
    split at h
    · simp only [Except.ok.injEq] at h
      subst h
      simp only [ASTNode.process, Compile.bind_eq_ok, Compile.pure_run, Prod.mk.injEq,
        Except.ok.injEq, Compile.emit_run, Compile.createEntry_run, Compile.getNextLabel_run,
        Option.some.injEq] at hp
      casesm* (∃ _, _), (_ ∧ _)
      subst_vars
      rfl
    · simp at h
  | Math2 in1 in2 op w0 node h1 h2 h ih1 ih2 =>
    intro w w1 entry hp
    rw [ASTNode_Math2_run] at h
    split at h
    · simp at h
    · split at h
      · simp at h
      · simp only [Except.ok.injEq] at h
        subst h
        simp only [ASTNode.process, Compile.bind_eq_ok, Compile.pure_run, Prod.mk.injEq,
          Except.ok.injEq, Compile.emit_run, Compile.createEntry_run, Option.some.injEq] at hp
        casesm* (∃ _, _), (_ ∧ _)
        subst_vars
        rfl
  | Print w0 node h =>
    intro w w1 entry hp
    simp only [ASTNode_Print, Compile.pure_run, Except.ok.injEq] at h
    subst h
    simp [ASTNode.process, Compile.bind_eq_ok] at hp
  | If cond if_statement else_statement w0 node h1 h2 h3 h ih1 ih2 ih3 =>
    intro w w1 entry hp
    rw [ASTNode_If_run] at h
    split at h
    · simp only [Except.ok.injEq] at h
      subst h
      cases else_statement <;>
        simp only [ASTNode.process, Compile.bind_eq_ok, Compile.pure_run, Prod.mk.injEq,
          Except.ok.injEq, Compile.emit_run, Compile.getNextLabel_run] at hp <;>
        casesm* (∃ _, _), (_ ∧ _) <;> contradiction
    · simp at h
  | While cond statement w0 node h1 h2 h ih1 ih2 =>
    intro w w1 entry hp
    rw [ASTNode_While_run] at h
    split at h
    · simp at h
    · split at h
      · simp only [Except.ok.injEq] at h
        subst h
        simp [ASTNode.process, Compile.bind_eq_ok] at hp
      · simp at h
  | Break w0 node h =>
    intro w w1 entry hp
    rw [ASTNode_Break_run] at h
    split at h
    · simp at h
    · split at h
      · simp at h
      · simp only [Except.ok.injEq] at h
        subst h
        simp [ASTNode.process, Compile.bind_eq_ok] at hp
  | Continue w0 node h =>
    intro w w1 entry hp
    rw [ASTNode_Continue_run] at h
    split at h
    · simp at h
    · split at h
      · simp at h
      · simp only [Except.ok.injEq] at h
        subst h
        simp [ASTNode.process, Compile.bind_eq_ok] at hp
  | addChild node in_child h1 h2 ih1 ih2 =>
    intro w w1 entry hp
    cases node <;> first
      | exact ih1 w w1 entry hp
      | simp [ASTNode.addChild, ASTNode.process, Compile.bind_eq_ok] at hp

theorem getLocation_of_kind (entry : TableEntry)
    (h : entry.getType = Typenames.VAL ∨ entry.getType = Typenames.CHAR) :
    entry.getLocation = .ok ("s" ++ toString entry.location) := by
  simp only [TableEntry.getType] at h
  simp [TableEntry.getLocation, h]

/-- C9: for an `Assign` node built by its constructor from constructed children, of kind
`VAL` or `CHAR`, whose left side and then right side process to slots, `process` writes its
comment, runs the left side, runs the right side on the globals the left side left, and then
appends the one record `val_copy <rhs slot> <lhs slot>` as the last record; the symbol table
is the one the right side left (nothing is allocated by the node) and the slot returned is
the slot of the left side. -/
theorem C9_Assign_process (lhs rhs node : ASTNode) (w0 w w1 w2 : World)
    (lhs_entry rhs_entry : TableEntry)
    (hl : Constructed lhs) (hr : Constructed rhs)
    (hnode : (ASTNode_Assign lhs rhs w0).1 = .ok node)
    (hkind : node.getType = Typenames.VAL ∨ node.getType = Typenames.CHAR)
    (hlp : lhs.process { w with fout := w.fout ++ ["# Process Assign"] }
      = (.ok (some lhs_entry), w1))
    (hrp : rhs.process w1 = (.ok (some rhs_entry), w2)) :
    rhs_entry.getLocation = .ok ("s" ++ toString rhs_entry.location) ∧
    lhs_entry.getLocation = .ok ("s" ++ toString lhs_entry.location) ∧
    node.process w = (.ok (some lhs_entry),
      { table := w2.table,
        fout := w2.fout ++ ["val_copy " ++ ("s" ++ toString rhs_entry.location) ++ " "
          ++ ("s" ++ toString lhs_entry.location)] }) := by
  rw [ASTNode_Assign_run] at hnode
  split at hnode
  · rename_i hty
    simp only [Except.ok.injEq] at hnode
    subst hnode
    have hnk : lhs.getType = Typenames.VAL ∨ lhs.getType = Typenames.CHAR := hkind
    have hlk : lhs_entry.getType = Typenames.VAL ∨ lhs_entry.getType = Typenames.CHAR := by
      rw [process_kind lhs hl _ _ _ hlp]
      exact hnk
    have hrk : rhs_entry.getType = Typenames.VAL ∨ rhs_entry.getType = Typenames.CHAR := by
      rw [process_kind rhs hr _ _ _ hrp, ← hty]
      exact hnk
    refine ⟨getLocation_of_kind _ hrk, getLocation_of_kind _ hlk, ?_⟩
    simp only [ASTNode.process]
    rw [Compile.bind_ok _ _ w _ () (Compile.emit_run _ w)]
    rw [Compile.bind_ok _ _ _ _ _ hlp]
    rw [Compile.bind_ok _ _ _ _ _ hrp]
    have hci : copy_instruction_for lhs.getType w2 = (.ok "val_copy", w2) := by
      simp [copy_instruction_for, hnk]
    rw [Compile.bind_ok _ _ _ _ _ hci]
    rw [Compile.bind_ok _ _ _ _ _ (render_some_run rhs_entry w2 hrk)]
    rw [Compile.bind_ok _ _ _ _ _ (render_some_run lhs_entry w2 hlk)]
    rfl
  · simp at hnode

/-- The assignment `x = 5` with `x` a `VAL` variable at location 1, from the initial table
with one location issued. -/
theorem C9_Assign_process_witness :
    (ASTNode.Assign .VAL (.Variable .VAL ⟨.VAL, "x", 1⟩) (.Literal .VAL "5")).process
      ⟨⟨[[("x", ⟨.VAL, "x", 1⟩)]], [], 1, 0, []⟩, []⟩
    = (.ok (some ⟨.VAL, "x", 1⟩),
       { table := ⟨[[("x", ⟨.VAL, "x", 1⟩)]], [⟨.VAL, "", 2⟩], 2, 0, []⟩,
         fout := ["# Process Assign", "# Process Variable", "val_copy 5 s2"]
           ++ ["val_copy " ++ ("s" ++ toString (2 : Int)) ++ " " ++ ("s" ++ toString (1 : Int))] }) :=
  (C9_Assign_process (.Variable .VAL ⟨.VAL, "x", 1⟩) (.Literal .VAL "5")
    (.Assign .VAL (.Variable .VAL ⟨.VAL, "x", 1⟩) (.Literal .VAL "5"))
    ⟨SymbolTable.init, []⟩
    ⟨⟨[[("x", ⟨.VAL, "x", 1⟩)]], [], 1, 0, []⟩, []⟩
    ⟨⟨[[("x", ⟨.VAL, "x", 1⟩)]], [], 1, 0, []⟩, ["# Process Assign", "# Process Variable"]⟩
    ⟨⟨[[("x", ⟨.VAL, "x", 1⟩)]], [⟨.VAL, "", 2⟩], 2, 0, []⟩,
      ["# Process Assign", "# Process Variable", "val_copy 5 s2"]⟩
    ⟨.VAL, "x", 1⟩ ⟨.VAL, "", 2⟩
    (Constructed.Variable ⟨.VAL, "x", 1⟩ ⟨SymbolTable.init, []⟩ _ rfl)
    (Constructed.Literal .VAL "5" ⟨SymbolTable.init, []⟩ _ rfl)
    rfl (Or.inl rfl) rfl rfl).2.2

/-! ## Every node leaves a later stage of the globals -/

theorem World.Extends.refl (w : World) : World.Extends w w :=
  ⟨le_refl _, le_refl _, rfl, rfl, [], by simp⟩

theorem World.Extends.trans {w w1 w2 : World} (h1 : World.Extends w w1)
    (h2 : World.Extends w1 w2) : World.Extends w w2 := by
  obtain ⟨a1, b1, c1, d1, l1, e1⟩ := h1
  obtain ⟨a2, b2, c2, d2, l2, e2⟩ := h2
  exact ⟨le_trans a1 a2, le_trans b1 b2, c2.trans c1, d2.trans d1, l1 ++ l2,
    by rw [e2, e1, List.append_assoc]⟩

theorem grows_pure {α : Type} (a : α) : Compile.Grows (pure a : Compile α) :=
  fun w => World.Extends.refl w

theorem grows_fail {α : Type} (e : Error) : Compile.Grows (Compile.fail e : Compile α) :=
  fun w => World.Extends.refl w

theorem grows_yyerror {α : Type} (msg : String) :
    Compile.Grows (yyerror msg : Compile α) :=
  fun w => World.Extends.refl w

theorem grows_emit (line : String) : Compile.Grows (Compile.emit line) :=
  fun _ => ⟨le_refl _, le_refl _, rfl, rfl, [line], rfl⟩

theorem grows_createEntry (in_type : Typenames) :
    Compile.Grows (Compile.createEntry in_type) :=
  fun w => ⟨by simp [Compile.createEntry, SymbolTable.createEntry, SymbolTable.getNextLocation],
    le_refl _, rfl, rfl, [], by simp [Compile.createEntry]⟩

theorem grows_getNextLabel (label : String) :
    Compile.Grows (Compile.getNextLabel label) :=
  fun w => ⟨le_refl _, by simp [Compile.getNextLabel, SymbolTable.getNextLabel],
    rfl, rfl, [], by simp [Compile.getNextLabel]⟩

theorem grows_render (p : Option TableEntry) : Compile.Grows (Compile.render p) := by
  intro w
  cases p with
  | none => exact World.Extends.refl w
  | some entry =>
    simp only [Compile.render]
    cases entry.getLocation <;> exact World.Extends.refl w

theorem grows_bind {α β : Type} (m : Compile α) (f : α → Compile β)
    (hm : Compile.Grows m) (hf : ∀ a, Compile.Grows (f a)) : Compile.Grows (m >>= f) := by
  intro w
  rw [Compile.bind_run]
  have h1 := hm w
  rcases hmw : m w with ⟨r, w1⟩
  rw [hmw] at h1
  cases r with
  | error e => exact h1
  | ok a => exact World.Extends.trans h1 (hf a w1)

theorem grows_item_getType (item : Option TableEntry) :
    Compile.Grows (item_getType item) := by
  cases item with
  | none => exact grows_fail _
  | some entry => exact grows_pure _

theorem grows_out_instruction_for (item_type : Typenames) :
    Compile.Grows (out_instruction_for item_type) := by
  unfold out_instruction_for
  split
  · exact grows_pure _
  · split
    · exact grows_pure _
    · exact grows_yyerror _

theorem grows_copy_instruction_for (type : Typenames) :
    Compile.Grows (copy_instruction_for type) := by
  unfold copy_instruction_for
  split
  · exact grows_pure _
  · exact grows_yyerror _

mutual
theorem process_grows : ∀ (node : ASTNode), Compile.Grows node.process
  | .Temp _ _ => by
    simp only [ASTNode.process]
    exact grows_pure _
  | .Root children => by
    simp only [ASTNode.process]
    exact grows_bind _ _ (grows_emit _) (fun _ =>
      grows_bind _ _ (process_children_grows children) (fun _ => grows_pure _))
  | .Variable _ _ => by
    simp only [ASTNode.process]
    exact grows_bind _ _ (grows_emit _) (fun _ => grows_pure _)
  | .Literal type lexeme => by
    simp only [ASTNode.process]
    split
    · exact grows_bind _ _ (grows_createEntry _) (fun _ =>
        grows_bind _ _ (grows_render _) (fun _ =>
          grows_bind _ _ (grows_emit _) (fun _ => grows_pure _)))
    · exact grows_yyerror _
  | .Assign type lhs rhs => by
    simp only [ASTNode.process]
    exact grows_bind _ _ (grows_emit _) (fun _ =>
      grows_bind _ _ (process_grows lhs) (fun _ =>
        grows_bind _ _ (process_grows rhs) (fun _ =>
          grows_bind _ _ (grows_copy_instruction_for _) (fun _ =>
            grows_bind _ _ (grows_render _) (fun _ =>
              grows_bind _ _ (grows_render _) (fun _ =>
                grows_bind _ _ (grows_emit _) (fun _ => grows_pure _)))))))
  | .Math1_Minus child => by
    simp only [ASTNode.process]
    exact grows_bind _ _ (process_grows child) (fun _ =>
      grows_bind _ _ (grows_createEntry _) (fun _ =>
        grows_bind _ _ (grows_emit _) (fun _ =>
          grows_bind _ _ (grows_render _) (fun _ =>
            grows_bind _ _ (grows_render _) (fun _ =>
              grows_bind _ _ (grows_emit _) (fun _ => grows_pure _))))))
  | .Math2 math_instruction in1 in2 => by
    simp only [ASTNode.process]
    exact grows_bind _ _ (process_grows in1) (fun _ =>
      grows_bind _ _ (process_grows in2) (fun _ =>
        grows_bind _ _ (grows_createEntry _) (fun _ =>
          grows_bind _ _ (grows_emit _) (fun _ =>
            grows_bind _ _ (grows_render _) (fun _ =>
              grows_bind _ _ (grows_render _) (fun _ =>
                grows_bind _ _ (grows_render _) (fun _ =>
                  grows_bind _ _ (grows_emit _) (fun _ => grows_pure _))))))))
  | .BoolAnd in1 in2 => by
    simp only [ASTNode.process]
    exact grows_bind _ _ (grows_emit _) (fun _ =>
      grows_bind _ _ (process_grows in1) (fun _ =>
        grows_bind _ _ (grows_createEntry _) (fun _ =>
          grows_bind _ _ (grows_render _) (fun _ =>
            grows_bind _ _ (grows_render _) (fun _ =>
              grows_bind _ _ (grows_emit _) (fun _ =>
                grows_bind _ _ (grows_getNextLabel _) (fun _ =>
                  grows_bind _ _ (grows_render _) (fun _ =>
                    grows_bind _ _ (grows_emit _) (fun _ =>
                      grows_bind _ _ (process_grows in2) (fun _ =>
                        grows_bind _ _ (grows_render _) (fun _ =>
                          grows_bind _ _ (grows_render _) (fun _ =>
                            grows_bind _ _ (grows_emit _) (fun _ =>
                              grows_bind _ _ (grows_emit _) (fun _ => grows_pure _))))))))))))))
  | .BoolOr in1 in2 => by
    simp only [ASTNode.process]
    exact grows_bind _ _ (grows_emit _) (fun _ =>
      grows_bind _ _ (process_grows in1) (fun _ =>
        grows_bind _ _ (grows_createEntry _) (fun _ =>
          grows_bind _ _ (grows_render _) (fun _ =>
            grows_bind _ _ (grows_render _) (fun _ =>
              grows_bind _ _ (grows_emit _) (fun _ =>
                grows_bind _ _ (grows_getNextLabel _) (fun _ =>
                  grows_bind _ _ (grows_render _) (fun _ =>
                    grows_bind _ _ (grows_emit _) (fun _ =>
                      grows_bind _ _ (process_grows in2) (fun _ =>
                        grows_bind _ _ (grows_render _) (fun _ =>
                          grows_bind _ _ (grows_render _) (fun _ =>
                            grows_bind _ _ (grows_emit _) (fun _ =>
                              grows_bind _ _ (grows_emit _) (fun _ => grows_pure _))))))))))))))
  | .Print children => by
    simp only [ASTNode.process]
    exact grows_bind _ _ (grows_emit _) (fun _ =>
      grows_bind _ _ (process_print_grows children) (fun _ =>
        grows_bind _ _ (grows_emit _) (fun _ => grows_pure _)))
  | .Random inp => by
    simp only [ASTNode.process]
    exact grows_bind _ _ (grows_emit _) (fun _ =>
      grows_bind _ _ (process_grows inp) (fun _ =>
        grows_bind _ _ (grows_createEntry _) (fun _ =>
          grows_bind _ _ (grows_render _) (fun _ =>
            grows_bind _ _ (grows_render _) (fun _ =>
              grows_bind _ _ (grows_emit _) (fun _ => grows_pure _))))))
  | .Not inp => by
    simp only [ASTNode.process]
    exact grows_bind _ _ (grows_emit _) (fun _ =>
      grows_bind _ _ (process_grows inp) (fun _ =>
        grows_bind _ _ (grows_createEntry _) (fun _ =>
          grows_bind _ _ (grows_render _) (fun _ =>
            grows_bind _ _ (grows_render _) (fun _ =>
              grows_bind _ _ (grows_emit _) (fun _ => grows_pure _))))))
  | .If cond if_statement else_statement => by
    simp only [ASTNode.process]
    refine grows_bind _ _ (grows_emit _) (fun _ =>
      grows_bind _ _ (process_grows cond) (fun _ =>
        grows_bind _ _ (grows_getNextLabel _) (fun _ =>
          grows_bind _ _ (grows_render _) (fun _ =>
            grows_bind _ _ (grows_emit _) (fun _ =>
              grows_bind _ _ (grows_emit _) (fun _ =>
                grows_bind _ _ (process_grows if_statement) (fun _ =>
                  grows_bind _ _ (grows_getNextLabel _) (fun _ =>
                    grows_bind _ _ (grows_emit _) (fun _ =>
                      grows_bind _ _ (grows_emit _) (fun _ =>
                        grows_bind _ _ (grows_emit _) (fun _ => ?_)))))))))))
    cases else_statement with
    | none => exact grows_bind _ _ (grows_emit _) (fun _ => grows_pure _)
    | some other =>
      exact grows_bind _ _ (process_grows other) (fun _ =>
        grows_bind _ _ (grows_emit _) (fun _ => grows_pure _))
  | .While while_label cond statement => by
    simp only [ASTNode.process]
    exact grows_bind _ _ (grows_emit _) (fun _ =>
      grows_bind _ _ (grows_emit _) (fun _ =>
        grows_bind _ _ (process_grows cond) (fun _ =>
          grows_bind _ _ (grows_render _) (fun _ =>
            grows_bind _ _ (grows_emit _) (fun _ =>
              grows_bind _ _ (process_grows statement) (fun _ =>
                grows_bind _ _ (grows_emit _) (fun _ =>
                  grows_bind _ _ (grows_emit _) (fun _ => grows_pure _))))))))
  | .Break _ => by
    simp only [ASTNode.process]
    exact grows_bind _ _ (grows_emit _) (fun _ =>
      grows_bind _ _ (grows_emit _) (fun _ => grows_pure _))
  | .Continue _ => by
    simp only [ASTNode.process]
    exact grows_bind _ _ (grows_emit _) (fun _ =>
      grows_bind _ _ (grows_emit _) (fun _ => grows_pure _))
theorem process_children_grows : ∀ (children : List ASTNode),
    Compile.Grows (ASTNode.process_children children)
  | [] => by
    simp only [ASTNode.process_children]
    exact grows_pure _
  | child :: rest => by
    simp only [ASTNode.process_children]
    exact grows_bind _ _ (process_grows child) (fun _ => process_children_grows rest)
theorem process_print_grows : ∀ (children : List ASTNode),
    Compile.Grows (ASTNode.process_print children)
  | [] => by
    simp only [ASTNode.process_print]
    exact grows_pure _
  | child :: rest => by
    simp only [ASTNode.process_print]
    exact grows_bind _ _ (process_grows child) (fun _ =>
      grows_bind _ _ (grows_item_getType _) (fun _ =>
        grows_bind _ _ (grows_out_instruction_for _) (fun _ =>
          grows_bind _ _ (grows_render _) (fun _ =>
            grows_bind _ _ (grows_emit _) (fun _ => process_print_grows rest)))))
end

theorem op_to_instruction_at_of_mem (op : String) (h : op ∈ op_to_instruction.map Prod.fst) :
    op_to_instruction.lookup op = some (op_to_instruction_at op) ∧
    (op ∈ relational_ops ∨ op ∈ math_ops) := by
  simp only [op_to_instruction, List.map_cons, List.map_nil, List.mem_cons, List.mem_singleton,
    List.not_mem_nil, or_false] at h
  rcases h with h | h | h | h | h | h | h | h | h | h <;> subst h <;> decide

/-- C10, as stated, fails.  The comparison `x == y` of two `STRING` variables passes the
constructor (the kinds are identical) and both operands process to their slots, but `process`
of the node ends with the internal error of `getLocation` (`exit(1)`) and returns no slot.
The sum `x + y` of two `VAL` variables at the locations 2147483646 and 2147483647, on a table
whose location counter holds `INT_MAX`, gets a result slot with the location `INT_MIN`, which
is below both locations issued before. -/
theorem C10_counterexample :
    (ASTNode_Variable ⟨.STRING, "x", 1⟩ ⟨SymbolTable.init, []⟩).1
      = .ok (.Variable .STRING ⟨.STRING, "x", 1⟩) ∧
    (ASTNode_Variable ⟨.STRING, "y", 2⟩ ⟨SymbolTable.init, []⟩).1
      = .ok (.Variable .STRING ⟨.STRING, "y", 2⟩) ∧
    (ASTNode_Math2 (.Variable .STRING ⟨.STRING, "x", 1⟩) (.Variable .STRING ⟨.STRING, "y", 2⟩)
      "==" ⟨SymbolTable.init, []⟩).1
      = .ok (.Math2 "test_equ" (.Variable .STRING ⟨.STRING, "x", 1⟩)
          (.Variable .STRING ⟨.STRING, "y", 2⟩)) ∧
    ((ASTNode.Variable .STRING ⟨.STRING, "x", 1⟩).process
      ⟨⟨[[("x", ⟨.STRING, "x", 1⟩), ("y", ⟨.STRING, "y", 2⟩)]], [], 2, 0, []⟩, []⟩).1
      = .ok (some ⟨.STRING, "x", 1⟩) ∧
    ((ASTNode.Variable .STRING ⟨.STRING, "y", 2⟩).process
      ⟨⟨[[("x", ⟨.STRING, "x", 1⟩), ("y", ⟨.STRING, "y", 2⟩)]], [], 2, 0, []⟩,
        ["# Process Variable"]⟩).1
      = .ok (some ⟨.STRING, "y", 2⟩) ∧
    ((ASTNode.Math2 "test_equ" (.Variable .STRING ⟨.STRING, "x", 1⟩)
        (.Variable .STRING ⟨.STRING, "y", 2⟩)).process
      ⟨⟨[[("x", ⟨.STRING, "x", 1⟩), ("y", ⟨.STRING, "y", 2⟩)]], [], 2, 0, []⟩, []⟩).1
      = .error (.exit
          "ERROR: Internal compiler error: don't know how to handle that type in memory yet: x") ∧
    (ASTNode_Math2 (.Variable .VAL ⟨.VAL, "x", 2147483646⟩)
      (.Variable .VAL ⟨.VAL, "y", 2147483647⟩) "+" ⟨SymbolTable.init, []⟩).1
      = .ok (.Math2 "add" (.Variable .VAL ⟨.VAL, "x", 2147483646⟩)
          (.Variable .VAL ⟨.VAL, "y", 2147483647⟩)) ∧
    Math2_process_int "add" (.Variable .VAL ⟨.VAL, "x", 2147483646⟩)
        (.Variable .VAL ⟨.VAL, "y", 2147483647⟩)
      ⟨⟨[[("x", ⟨.VAL, "x", 2147483646⟩), ("y", ⟨.VAL, "y", 2147483647⟩)]], [],
        2147483647, 0, []⟩, []⟩
      = (.ok (some ⟨.VAL, "", -2147483648⟩),
         ⟨⟨[[("x", ⟨.VAL, "x", 2147483646⟩), ("y", ⟨.VAL, "y", 2147483647⟩)]],
           [⟨.VAL, "", -2147483648⟩], -2147483648, 0, []⟩,
          ["# Process Variable", "# Process Variable", "# Math2 add",
           "add s2147483646 s2147483647 s-2147483648"]⟩) ∧
    (⟨.VAL, "", -2147483648⟩ : TableEntry).location
      < (⟨.VAL, "x", 2147483646⟩ : TableEntry).location :=
  ⟨rfl, rfl, rfl, rfl, rfl, rfl, rfl, rfl, by decide⟩

/-- C10, amended: for a `Math2` node built by its constructor with one of the ten operators
of the mnemonic table from constructed operands whose kinds are `VAL` or `CHAR` (equal for a
relational operator, both `VAL` for an arithmetic one), when the first and then the second
operand process to slots and the location counter stays below `INT_MAX`, `process` runs the
first operand, then the second, then takes a new `VAL` slot from the table (the same on the
`int` counter and on the integer counter), whose location is the location counter plus one,
above the counter at every earlier stage and above the location of every slot created by a
run of table calls that leads to this table and in which the counter does not pass `INT_MAX`,
and appends its comment and the one instruction record
`<mnemonic> <first slot> <second slot> <result slot>` with the mnemonic the table gives for
the operator; the new slot is returned. -/
theorem C10_Math2_process (in1 in2 node : ASTNode) (op : String) (w0 w w1 w2 : World)
    (lhs rhs : TableEntry)
    (h1 : Constructed in1) (h2 : Constructed in2)
    (hop : op ∈ op_to_instruction.map Prod.fst)
    (hnode : (ASTNode_Math2 in1 in2 op w0).1 = .ok node)
    (hkind : in1.getType = Typenames.VAL ∨ in1.getType = Typenames.CHAR)
    (hlp : in1.process w = (.ok (some lhs), w1))
    (hrp : in2.process w1 = (.ok (some rhs), w2))
    (hlo : INT_MIN ≤ w.table.location_allotment)
    (hhi : w2.table.location_allotment < INT_MAX) :
    op_to_instruction.lookup op = some (op_to_instruction_at op) ∧
    op_to_instruction = [("==", "test_equ"), ("!=", "test_nequ"), ("<", "test_less"),
      ("<=", "test_lte"), (">", "test_gtr"), (">=", "test_gte"), ("+", "add"), ("-", "sub"),
      ("*", "mult"), ("/", "div")] ∧
    node = .Math2 (op_to_instruction_at op) in1 in2 ∧
    node.process w = (.ok (some ⟨.VAL, "", w2.table.location_allotment + 1⟩),
      { table := (w2.table.createEntry .VAL).2,
        fout := w2.fout ++ ["# Math2 " ++ op_to_instruction_at op,
          op_to_instruction_at op ++ " " ++ ("s" ++ toString lhs.location) ++ " "
            ++ ("s" ++ toString rhs.location) ++ " "
            ++ ("s" ++ toString (w2.table.location_allotment + 1))] }) ∧
    Math2_process_int (op_to_instruction_at op) in1 in2 w = node.process w ∧
    w2.table.createEntry_int .VAL = w2.table.createEntry .VAL ∧
    (w2.table.createEntry .VAL).1 = ⟨.VAL, "", w2.table.location_allotment + 1⟩ ∧
    (w2.table.createEntry .VAL).2.location_allotment = w2.table.location_allotment + 1 ∧
    w.table.location_allotment ≤ w1.table.location_allotment ∧
    w1.table.location_allotment ≤ w2.table.location_allotment ∧
    (∃ lines1 lines2, w1.fout = w.fout ++ lines1 ∧ w2.fout = w1.fout ++ lines2) ∧
    (∀ (ops : List TableOp) (t0 : SymbolTable),
      INT_MIN ≤ t0.location_allotment →
      t0.location_allotment + location_calls ops ≤ INT_MAX →
      (runOps ops t0).2 = w2.table →
      ∀ e ∈ (runOps ops t0).1.slots, e.location < w2.table.location_allotment + 1) := by
  obtain ⟨hlook, hclass⟩ := op_to_instruction_at_of_mem op hop
  have hg1 := process_grows in1 w
  rw [hlp] at hg1
  have hg2 := process_grows in2 w1
  rw [hrp] at hg2
  obtain ⟨hloc1, -, -, -, lines1, hout1⟩ := hg1
  obtain ⟨hloc2, -, -, -, lines2, hout2⟩ := hg2
  have hl1 : w.table.location_allotment ≤ w1.table.location_allotment := hloc1
  have hl2 : w1.table.location_allotment ≤ w2.table.location_allotment := hloc2
  have hfresh : ∀ (ops : List TableOp) (t0 : SymbolTable),
      INT_MIN ≤ t0.location_allotment →
      t0.location_allotment + location_calls ops ≤ INT_MAX →
      (runOps ops t0).2 = w2.table →
      ∀ e ∈ (runOps ops t0).1.slots, e.location < w2.table.location_allotment + 1 := by
    intro ops t0 hlo0 hhi0 hrun e he
    have := ((runOps_locations ops t0 hlo0 hhi0).2.2.1 e he).2
    rw [hrun] at this
    omega
  have hce : w2.table.createEntry_int .VAL = w2.table.createEntry .VAL := by
    have hp := pre_increment_of_lt w2.table.location_allotment (by omega) hhi
    simp [SymbolTable.createEntry_int, SymbolTable.getNextLocation_int, hp,
      SymbolTable.createEntry, SymbolTable.getNextLocation]
  have hshape : node = .Math2 (op_to_instruction_at op) in1 in2 ∧
      ¬ (op ∈ relational_ops ∧ in1.getType ≠ in2.getType) ∧
      ¬ (op ∈ math_ops ∧ (in1.getType ≠ Typenames.VAL ∨ in2.getType ≠ Typenames.VAL)) := by
    rw [ASTNode_Math2_run] at hnode
    split at hnode
    · simp at hnode
    · rename_i hrel
      split at hnode
      · simp at hnode
      · rename_i hmath
        simp only [Except.ok.injEq] at hnode
        exact ⟨hnode.symm, hrel, hmath⟩
  obtain ⟨hsh, hrel, hmath⟩ := hshape
  subst hsh
  have hk2 : in2.getType = Typenames.VAL ∨ in2.getType = Typenames.CHAR := by
    rcases hclass with hc | hc
    · have : in1.getType = in2.getType := by
        by_contra hne
        exact hrel ⟨hc, hne⟩
      rw [← this]
      exact hkind
    · left
      by_contra hne
      exact hmath ⟨hc, Or.inr hne⟩
  have hlk : lhs.type_id = Typenames.VAL ∨ lhs.type_id = Typenames.CHAR := by
    have := process_kind in1 h1 _ _ _ hlp
    simp only [TableEntry.getType] at this
    rw [this]
    exact hkind
  have hrk : rhs.type_id = Typenames.VAL ∨ rhs.type_id = Typenames.CHAR := by
    have := process_kind in2 h2 _ _ _ hrp
    simp only [TableEntry.getType] at this
    rw [this]
    exact hk2
  have hproc : (ASTNode.Math2 (op_to_instruction_at op) in1 in2).process w
      = (.ok (some ⟨.VAL, "", w2.table.location_allotment + 1⟩),
      { table := (w2.table.createEntry .VAL).2,
        fout := w2.fout ++ ["# Math2 " ++ op_to_instruction_at op,
          op_to_instruction_at op ++ " " ++ ("s" ++ toString lhs.location) ++ " "
            ++ ("s" ++ toString rhs.location) ++ " "
            ++ ("s" ++ toString (w2.table.location_allotment + 1))] }) := by
    simp only [ASTNode.process]
    rw [Compile.bind_ok _ _ _ _ _ hlp]
    rw [Compile.bind_ok _ _ _ _ _ hrp]
    rw [Compile.bind_ok _ _ _ _ _ (Compile.createEntry_run _ w2)]
    rw [Compile.bind_ok _ _ _ _ _ (Compile.emit_run _ _)]
    rw [Compile.bind_ok _ _ _ _ _ (render_some_run lhs _ hlk)]
    rw [Compile.bind_ok _ _ _ _ _ (render_some_run rhs _ hrk)]
    rw [Compile.bind_ok _ _ _ _ _ (render_some_run ⟨.VAL, "", _⟩ _ (Or.inl rfl))]
    rw [Compile.bind_ok _ _ _ _ _ (Compile.emit_run _ _)]
    simp
  have hcei : Compile.createEntry_int .VAL w2
      = (.ok ⟨.VAL, "", w2.table.location_allotment + 1⟩,
         { w2 with table := (w2.table.createEntry .VAL).2 }) := by
    simp only [Compile.createEntry_int, hce]
    rfl
  have hproc_int : Math2_process_int (op_to_instruction_at op) in1 in2 w
      = (ASTNode.Math2 (op_to_instruction_at op) in1 in2).process w := by
    rw [hproc]
    simp only [Math2_process_int]
    rw [Compile.bind_ok _ _ _ _ _ hlp]
    rw [Compile.bind_ok _ _ _ _ _ hrp]
    rw [Compile.bind_ok _ _ _ _ _ hcei]
    rw [Compile.bind_ok _ _ _ _ _ (Compile.emit_run _ _)]
    rw [Compile.bind_ok _ _ _ _ _ (render_some_run lhs _ hlk)]
    rw [Compile.bind_ok _ _ _ _ _ (render_some_run rhs _ hrk)]
    rw [Compile.bind_ok _ _ _ _ _ (render_some_run ⟨.VAL, "", _⟩ _ (Or.inl rfl))]
    rw [Compile.bind_ok _ _ _ _ _ (Compile.emit_run _ _)]
    simp
  exact ⟨hlook, rfl, rfl, hproc, hproc_int, hce, rfl, rfl, hloc1, hloc2,
    ⟨lines1, lines2, hout1, hout2⟩, hfresh⟩

/-- The sum `3 + 4` of two `VAL` literals from the initial table. -/
theorem C10_Math2_process_witness :
    (ASTNode.Math2 "add" (.Literal .VAL "3") (.Literal .VAL "4")).process
      ⟨SymbolTable.init, []⟩
    = (.ok (some ⟨.VAL, "", 2 + 1⟩),
      { table := ((⟨[[]], [⟨.VAL, "", 1⟩, ⟨.VAL, "", 2⟩], 2, 0, []⟩ : SymbolTable).createEntry
          .VAL).2,
        fout := ["val_copy 3 s1", "val_copy 4 s2"] ++ ["# Math2 " ++ op_to_instruction_at "+",
          op_to_instruction_at "+" ++ " " ++ ("s" ++ toString (1 : Int)) ++ " "
            ++ ("s" ++ toString (2 : Int)) ++ " " ++ ("s" ++ toString ((2 : Int) + 1))] }) :=
  (C10_Math2_process (.Literal .VAL "3") (.Literal .VAL "4")
    (.Math2 "add" (.Literal .VAL "3") (.Literal .VAL "4")) "+"
    ⟨SymbolTable.init, []⟩ ⟨SymbolTable.init, []⟩
    ⟨⟨[[]], [⟨.VAL, "", 1⟩], 1, 0, []⟩, ["val_copy 3 s1"]⟩
    ⟨⟨[[]], [⟨.VAL, "", 1⟩, ⟨.VAL, "", 2⟩], 2, 0, []⟩, ["val_copy 3 s1", "val_copy 4 s2"]⟩
    ⟨.VAL, "", 1⟩ ⟨.VAL, "", 2⟩
    (Constructed.Literal .VAL "3" ⟨SymbolTable.init, []⟩ _ rfl)
    (Constructed.Literal .VAL "4" ⟨SymbolTable.init, []⟩ _ rfl)
    (by decide) rfl (Or.inl rfl) rfl rfl (by decide) (by decide)).2.2.2.1

/-! ## Claims on literals, loop stack and kinds -/

theorem Literal_process_int_run (type : Typenames) (lexeme : String) (w : World)
    (hkind : type = Typenames.VAL ∨ type = Typenames.CHAR) :
    Literal_process_int type lexeme w =
      (.ok (some ⟨type, "", pre_increment w.table.location_allotment⟩),
       { table := (w.table.createEntry_int type).2,
         fout := w.fout ++ ["val_copy " ++ lexeme ++ " "
           ++ ("s" ++ toString (pre_increment w.table.location_allotment))] }) := by
  have hc : Compile.createEntry_int type w
      = (.ok ⟨type, "", pre_increment w.table.location_allotment⟩,
         { w with table := (w.table.createEntry_int type).2 }) := rfl
  simp only [Literal_process_int, hkind, if_true]
  rw [Compile.bind_ok _ _ _ _ _ hc]
  rw [Compile.bind_ok _ _ _ _ _ (render_some_run ⟨type, "", _⟩ _ hkind)]
  rw [Compile.bind_ok _ _ _ _ _ (Compile.emit_run _ _)]
  rfl

/-- C11, as stated, fails: on a table whose location counter holds `INT_MAX` the slot that
`process` of the literal `7` returns has the location `INT_MIN`, not the counter plus one,
and is rendered `s-2147483648`; on the table that a call of `createEntry` and `2^32 - 1`
calls of `getNextLocation` on the initial table leave, the slot returned has the location 1,
which is the location of the slot created by that call. -/
theorem C11_counterexample :
    Literal_process_int .VAL "7" ⟨⟨[[]], [], 2147483647, 0, []⟩, []⟩
      = (.ok (some ⟨.VAL, "", -2147483648⟩),
         ⟨⟨[[]], [⟨.VAL, "", -2147483648⟩], -2147483648, 0, []⟩,
          ["val_copy 7 s-2147483648"]⟩) ∧
    (⟨.VAL, "", -2147483648⟩ : TableEntry).location
      ≠ (⟨[[]], [], 2147483647, 0, []⟩ : SymbolTable).location_allotment + 1 ∧
    (runOps (.createEntry .VAL :: List.replicate 4294967295 .getNextLocation)
      SymbolTable.init).1.slots = [⟨.VAL, "", 1⟩] ∧
    (runOps (.createEntry .VAL :: List.replicate 4294967295 .getNextLocation)
      SymbolTable.init).2 = ⟨[[]], [⟨.VAL, "", 1⟩], 0, 0, []⟩ ∧
    Literal_process_int .VAL "7" ⟨⟨[[]], [⟨.VAL, "", 1⟩], 0, 0, []⟩, []⟩
      = (.ok (some ⟨.VAL, "", 1⟩),
         ⟨⟨[[]], [⟨.VAL, "", 1⟩, ⟨.VAL, "", 1⟩], 1, 0, []⟩, ["val_copy 7 s1"]⟩) :=
  ⟨rfl, by decide, runOps_reissue_first 4294967295 SymbolTable.init,
    (runOps_reissue 4294967295 SymbolTable.init 0 pre_increment_wrap_init).2, rfl⟩

/-- C11, amended: for a literal of kind `VAL` or `CHAR`, any lexeme and any globals whose
location counter is below `INT_MAX`, `process` (the same on the `int` counter and on the
integer counter) takes one new slot of the literal's kind from the table, whose location is
the location counter plus one and whose rendering is the letter `s` and that location,
appends the single record `val_copy <lexeme> <slot>` and returns the slot; the location is
above the location of every slot created by a run of table calls that leads to this table
and in which the counter does not pass `INT_MAX`. -/
theorem C11_Literal_process (type : Typenames) (lexeme : String) (w : World)
    (hkind : type = Typenames.VAL ∨ type = Typenames.CHAR)
    (hlo : INT_MIN ≤ w.table.location_allotment)
    (hhi : w.table.location_allotment < INT_MAX) :
    Literal_process_int type lexeme w = (ASTNode.Literal type lexeme).process w ∧
    (ASTNode.Literal type lexeme).process w =
      (.ok (some ⟨type, "", w.table.location_allotment + 1⟩),
       { table := (w.table.createEntry type).2,
         fout := w.fout ++ ["val_copy " ++ lexeme ++ " "
           ++ ("s" ++ toString (w.table.location_allotment + 1))] }) ∧
    w.table.createEntry_int type = w.table.createEntry type ∧
    (w.table.createEntry type).1 = ⟨type, "", w.table.location_allotment + 1⟩ ∧
    (w.table.createEntry type).2.location_allotment = w.table.location_allotment + 1 ∧
    (⟨type, "", w.table.location_allotment + 1⟩ : TableEntry).getType = type ∧
    (⟨type, "", w.table.location_allotment + 1⟩ : TableEntry).getLocation
      = .ok ("s" ++ toString (w.table.location_allotment + 1)) ∧
    (∀ (ops : List TableOp) (t0 : SymbolTable),
      INT_MIN ≤ t0.location_allotment →
      t0.location_allotment + location_calls ops ≤ INT_MAX →
      (runOps ops t0).2 = w.table →
      ∀ e ∈ (runOps ops t0).1.slots, e.location < w.table.location_allotment + 1) := by
  have hr : Compile.render (some ⟨type, "", w.table.location_allotment + 1⟩)
      { w with table := (w.table.createEntry type).2 }
      = (.ok ("s" ++ toString (w.table.location_allotment + 1)),
         { w with table := (w.table.createEntry type).2 }) :=
    render_some_run ⟨type, "", _⟩ _ hkind
  have hp := pre_increment_of_lt _ hlo hhi
  have hce : w.table.createEntry_int type = w.table.createEntry type := by
    simp [SymbolTable.createEntry_int, SymbolTable.getNextLocation_int, hp,
      SymbolTable.createEntry, SymbolTable.getNextLocation]
  have hproc : (ASTNode.Literal type lexeme).process w =
      (.ok (some ⟨type, "", w.table.location_allotment + 1⟩),
       { table := (w.table.createEntry type).2,
         fout := w.fout ++ ["val_copy " ++ lexeme ++ " "
           ++ ("s" ++ toString (w.table.location_allotment + 1))] }) := by
    simp only [ASTNode.process, hkind, if_true]
    rw [Compile.bind_ok _ _ _ _ _ (Compile.createEntry_run _ w)]
    rw [Compile.bind_ok _ _ _ _ _ hr]
    rw [Compile.bind_ok _ _ _ _ _ (Compile.emit_run _ _)]
    rfl
  refine ⟨?_, hproc, hce, rfl, rfl, rfl, getLocation_of_kind _ hkind, ?_⟩
  · rw [hproc, Literal_process_int_run _ _ _ hkind, hp, hce]
  · intro ops t0 hlo0 hhi0 hrun e he
    have := ((runOps_locations ops t0 hlo0 hhi0).2.2.1 e he).2
    rw [hrun] at this
    omega

/-- The literal `7` of kind `VAL` on a table that has issued two locations. -/
theorem C11_Literal_process_witness :
    (ASTNode.Literal .VAL "7").process ⟨⟨[[]], [], 2, 0, []⟩, ["# Processing Root"]⟩ =
      (.ok (some ⟨.VAL, "", 2 + 1⟩),
       { table := ((⟨[[]], [], 2, 0, []⟩ : SymbolTable).createEntry .VAL).2,
         fout := ["# Processing Root"] ++ ["val_copy " ++ "7" ++ " "
           ++ ("s" ++ toString ((2 : Int) + 1))] }) :=
  (C11_Literal_process .VAL "7" ⟨⟨[[]], [], 2, 0, []⟩, ["# Processing Root"]⟩ (Or.inl rfl)
    (by decide) (by decide)).2.1

/-! ## Break, Continue and the loop stack -/

theorem while_stack_size_le_zero (t : SymbolTable) :
    t.while_stack_size ≤ 0 ↔ t.while_stack = [] := by
  simp only [SymbolTable.while_stack_size]
  constructor
  · intro h
    have : t.while_stack.length = 0 := by omega
    exact List.length_eq_zero.1 this
  · intro h
    simp [h]

theorem Break_process_run (while_label : String) (w : World) :
    (ASTNode.Break while_label).process w =
      (.ok none, { w with fout := w.fout ++ ["# Process Break", "jump " ++ while_label ++ "_end"] }) := by
  simp only [ASTNode.process]
  rw [Compile.bind_ok _ _ _ _ _ (Compile.emit_run _ _)]
  rw [Compile.bind_ok _ _ _ _ _ (Compile.emit_run _ _)]
  simp

theorem Continue_process_run (while_label : String) (w : World) :
    (ASTNode.Continue while_label).process w =
      (.ok none,
       { w with fout := w.fout ++ ["# Process Continue", "jump " ++ while_label ++ "_start"] }) := by
  simp only [ASTNode.process]
  rw [Compile.bind_ok _ _ _ _ _ (Compile.emit_run _ _)]
  rw [Compile.bind_ok _ _ _ _ _ (Compile.emit_run _ _)]
  simp

theorem pop_push (t : SymbolTable) :
    t.push_to_while_stack.pop_from_while_stack =
      .ok { t with label_allotment := t.label_allotment + 1 } := by
  simp [SymbolTable.push_to_while_stack, SymbolTable.pop_from_while_stack,
    SymbolTable.while_stack_top, SymbolTable.getNextLabel]

/-- C15: the constructors of `Break` and `Continue` fail, by `yyerror`, exactly when the loop
stack is empty (`while_stack_size` is 0) and change nothing; on a stack whose top is `W` they
build the node that records `W`; `process` of that node appends its comment and the single
record `jump W_end` (`jump W_start` for `Continue`) on every state of the globals, whatever
the loop stack holds then; after two pushes the node built records the label of the second
push, which differs from the first, and after a pop it records the label of the first. -/
theorem C15_Break_Continue (w : World) :
    (((∃ e, (ASTNode_Break w).1 = .error e) ↔ w.table.while_stack_size = 0) ∧
      ((∃ e, (ASTNode_Continue w).1 = .error e) ↔ w.table.while_stack_size = 0) ∧
      (∀ e, (ASTNode_Break w).1 = .error e →
        e = .yyerror "'break' command used outside of any loop") ∧
      (∀ e, (ASTNode_Continue w).1 = .error e →
        e = .yyerror "'continue' command used outside of any loop") ∧
      (ASTNode_Break w).2 = w ∧ (ASTNode_Continue w).2 = w) ∧
    (∀ (below : List String) (W : String), w.table.while_stack = below ++ [W] →
      (ASTNode_Break w).1 = .ok (.Break W) ∧ (ASTNode_Continue w).1 = .ok (.Continue W)) ∧
    (∀ (W : String) (w2 : World),
      (ASTNode.Break W).process w2 =
        (.ok none, { w2 with fout := w2.fout ++ ["# Process Break", "jump " ++ W ++ "_end"] }) ∧
      (ASTNode.Continue W).process w2 =
        (.ok none,
         { w2 with fout := w2.fout ++ ["# Process Continue", "jump " ++ W ++ "_start"] })) ∧
    ((ASTNode_Break ⟨w.table.push_to_while_stack.push_to_while_stack, w.fout⟩).1
        = .ok (.Break ("while" ++ "_" ++ toString (w.table.label_allotment + 1 + 1))) ∧
      "while" ++ "_" ++ toString (w.table.label_allotment + 1 + 1)
        ≠ "while" ++ "_" ++ toString (w.table.label_allotment + 1) ∧
      (∃ popped, w.table.push_to_while_stack.push_to_while_stack.pop_from_while_stack
          = .ok popped ∧
        (ASTNode_Break ⟨popped, w.fout⟩).1
          = .ok (.Break ("while" ++ "_" ++ toString (w.table.label_allotment + 1))))) := by
  refine ⟨?_, ?_, fun W w2 => ⟨Break_process_run W w2, Continue_process_run W w2⟩, ?_, ?_, ?_⟩
  · rw [ASTNode_Break_run, ASTNode_Continue_run]
    by_cases h : w.table.while_stack_size ≤ 0
    · have h0 : w.table.while_stack_size = 0 := by
        have := (while_stack_size_le_zero _).1 h
        simp [SymbolTable.while_stack_size, this]
      rw [h0]
      simp only [le_refl, if_true]
      refine ⟨by simp, by simp, ?_, ?_, ?_, ?_⟩ <;>
        first
        | trivial
        | rfl
        | (intro e he
           simp only [Except.error.injEq] at he
           exact he.symm)
    · have hne : w.table.while_stack ≠ [] := fun hh => h ((while_stack_size_le_zero _).2 hh)
      have h0 : w.table.while_stack_size ≠ 0 := fun hh => h (by omega)
      obtain ⟨top, htop⟩ : ∃ top, w.table.while_stack.getLast? = some top := by
        cases hl : w.table.while_stack.getLast? with
        | none => exact absurd (List.getLast?_eq_none_iff.1 hl) hne
        | some top => exact ⟨top, rfl⟩
      simp [h, h0, htop]
  · intro below W hstack
    rw [ASTNode_Break_run, ASTNode_Continue_run]
    have h : ¬ w.table.while_stack_size ≤ 0 := by
      simp [SymbolTable.while_stack_size, hstack]
    simp [h, hstack]
  · rw [ASTNode_Break_run]
    have h : ¬ (SymbolTable.while_stack_size
        (w.table.push_to_while_stack.push_to_while_stack)) ≤ 0 := by
      simp [SymbolTable.while_stack_size, SymbolTable.push_to_while_stack,
        SymbolTable.getNextLabel]
      omega
    simp only [h, if_false]
    simp [SymbolTable.push_to_while_stack, SymbolTable.getNextLabel]
  · intro hlab
    have := (label_inj hlab).2
    omega
  · refine ⟨_, pop_push _, ?_⟩
    rw [ASTNode_Break_run]
    have h : ¬ (SymbolTable.while_stack_size
        { w.table.push_to_while_stack with
          label_allotment := w.table.push_to_while_stack.label_allotment + 1 }) ≤ 0 := by
      simp [SymbolTable.while_stack_size, SymbolTable.push_to_while_stack,
        SymbolTable.getNextLabel]
    simp only [h, if_false]
    simp [SymbolTable.push_to_while_stack, SymbolTable.getNextLabel]

/-- Two loops pushed on the initial table: a `Break` built now records the second label. -/
theorem C15_Break_Continue_witness :
    (ASTNode_Break ⟨⟨[[]], [], 0, 2, ["while_1", "while_2"]⟩, []⟩).1 = .ok (.Break "while_2") ∧
    (ASTNode_Continue ⟨⟨[[]], [], 0, 2, ["while_1", "while_2"]⟩, []⟩).1
      = .ok (.Continue "while_2") :=
  (C15_Break_Continue ⟨⟨[[]], [], 0, 2, ["while_1", "while_2"]⟩, []⟩).2.1
    ["while_1"] "while_2" rfl

/-! ## And, Or, If and While -/

@[simp] theorem createEntry_label (in_type : Typenames) (t : SymbolTable) :
    (t.createEntry in_type).2.label_allotment = t.label_allotment := rfl

@[simp] theorem createEntry_location (in_type : Typenames) (t : SymbolTable) :
    (t.createEntry in_type).2.location_allotment = t.location_allotment + 1 := rfl

@[simp] theorem createEntry_table_stack (in_type : Typenames) (t : SymbolTable) :
    (t.createEntry in_type).2.table_stack = t.table_stack := rfl

@[simp] theorem createEntry_while_stack (in_type : Typenames) (t : SymbolTable) :
    (t.createEntry in_type).2.while_stack = t.while_stack := rfl

@[simp] theorem getNextLabel_label (label : String) (t : SymbolTable) :
    (t.getNextLabel label).2.label_allotment = t.label_allotment + 1 := rfl

@[simp] theorem getNextLabel_location (label : String) (t : SymbolTable) :
    (t.getNextLabel label).2.location_allotment = t.location_allotment := rfl

@[simp] theorem getNextLabel_table_stack (label : String) (t : SymbolTable) :
    (t.getNextLabel label).2.table_stack = t.table_stack := rfl

@[simp] theorem getNextLabel_while_stack (label : String) (t : SymbolTable) :
    (t.getNextLabel label).2.while_stack = t.while_stack := rfl

theorem BoolAnd_process_eq (in1 in2 : ASTNode) (w w1 w2 : World) (lhs_entry rhs_entry : TableEntry)
    (hk1 : lhs_entry.type_id = Typenames.VAL ∨ lhs_entry.type_id = Typenames.CHAR)
    (hk2 : rhs_entry.type_id = Typenames.VAL ∨ rhs_entry.type_id = Typenames.CHAR)
    (h1 : in1.process { w with fout := w.fout ++ ["# Process And"] }
      = (.ok (some lhs_entry), w1))
    (h2 : in2.process
        { table := ((w1.table.createEntry .VAL).2.getNextLabel "And_ShortCircut_").2,
          fout := w1.fout ++
            ["test_nequ " ++ ("s" ++ toString lhs_entry.location) ++ " 0 "
              ++ ("s" ++ toString (w1.table.location_allotment + 1)),
             "jump_if_0 " ++ ("s" ++ toString (w1.table.location_allotment + 1)) ++ " "
              ++ ("And_ShortCircut_" ++ "_" ++ toString (w1.table.label_allotment + 1))] }
      = (.ok (some rhs_entry), w2)) :
    (ASTNode.BoolAnd in1 in2).process w =
      (.ok (some ⟨.VAL, "", w1.table.location_allotment + 1⟩),
       { table := w2.table,
         fout := w2.fout ++
           ["test_nequ " ++ ("s" ++ toString rhs_entry.location) ++ " 0 "
              ++ ("s" ++ toString (w1.table.location_allotment + 1)),
            ("And_ShortCircut_" ++ "_" ++ toString (w1.table.label_allotment + 1)) ++ ":"] }) := by
  simp only [ASTNode.process]
  rw [Compile.bind_ok _ _ _ _ _ (Compile.emit_run _ _)]
  rw [Compile.bind_ok _ _ _ _ _ h1]
  rw [Compile.bind_ok _ _ _ _ _ (Compile.createEntry_run _ _)]
  rw [Compile.bind_ok _ _ _ _ _ (render_some_run lhs_entry _ hk1)]
  rw [Compile.bind_ok _ _ _ _ _ (render_some_run ⟨.VAL, "", _⟩ _ (Or.inl rfl))]
  rw [Compile.bind_ok _ _ _ _ _ (Compile.emit_run _ _)]
  rw [Compile.bind_ok _ _ _ _ _ (Compile.getNextLabel_run _ _)]
  rw [Compile.bind_ok _ _ _ _ _ (render_some_run ⟨.VAL, "", _⟩ _ (Or.inl rfl))]
  rw [Compile.bind_ok _ _ _ _ _ (Compile.emit_run _ _)]
  have h2' : in2.process
      { table := ((w1.table.createEntry Typenames.VAL).2.getNextLabel "And_ShortCircut_").2,
        fout := (w1.fout ++
            ["test_nequ " ++ ("s" ++ toString lhs_entry.location) ++ " 0 "
              ++ ("s" ++ toString (w1.table.location_allotment + 1))]) ++
             ["jump_if_0 " ++ ("s" ++ toString (w1.table.location_allotment + 1)) ++ " "
              ++ ("And_ShortCircut_" ++ "_" ++ toString (w1.table.label_allotment + 1))] }
      = (.ok (some rhs_entry), w2) := by
    rw [← h2]
    simp
  simp only [createEntry_label]
  rw [Compile.bind_ok _ _ _ _ _ h2']
  rw [Compile.bind_ok _ _ _ _ _ (render_some_run rhs_entry _ hk2)]
  rw [Compile.bind_ok _ _ _ _ _ (render_some_run ⟨.VAL, "", _⟩ _ (Or.inl rfl))]
  rw [Compile.bind_ok _ _ _ _ _ (Compile.emit_run _ _)]
  rw [Compile.bind_ok _ _ _ _ _ (Compile.emit_run _ _)]
  simp

theorem BoolOr_process_eq (in1 in2 : ASTNode) (w w1 w2 : World) (lhs_entry rhs_entry : TableEntry)
    (hk1 : lhs_entry.type_id = Typenames.VAL ∨ lhs_entry.type_id = Typenames.CHAR)
    (hk2 : rhs_entry.type_id = Typenames.VAL ∨ rhs_entry.type_id = Typenames.CHAR)
    (h1 : in1.process { w with fout := w.fout ++ ["# Process Or"] }
      = (.ok (some lhs_entry), w1))
    (h2 : in2.process
        { table := ((w1.table.createEntry .VAL).2.getNextLabel "Or_ShortCircuit_").2,
          fout := w1.fout ++
            ["test_nequ " ++ ("s" ++ toString lhs_entry.location) ++ " 0 "
              ++ ("s" ++ toString (w1.table.location_allotment + 1)),
             "jump_if_n0 " ++ ("s" ++ toString (w1.table.location_allotment + 1)) ++ " "
              ++ ("Or_ShortCircuit_" ++ "_" ++ toString (w1.table.label_allotment + 1))] }
      = (.ok (some rhs_entry), w2)) :
    (ASTNode.BoolOr in1 in2).process w =
      (.ok (some ⟨.VAL, "", w1.table.location_allotment + 1⟩),
       { table := w2.table,
         fout := w2.fout ++
           ["test_nequ " ++ ("s" ++ toString rhs_entry.location) ++ " 0 "
              ++ ("s" ++ toString (w1.table.location_allotment + 1)),
            ("Or_ShortCircuit_" ++ "_" ++ toString (w1.table.label_allotment + 1)) ++ ":"] }) := by
  simp only [ASTNode.process]
  rw [Compile.bind_ok _ _ _ _ _ (Compile.emit_run _ _)]
  rw [Compile.bind_ok _ _ _ _ _ h1]
  rw [Compile.bind_ok _ _ _ _ _ (Compile.createEntry_run _ _)]
  rw [Compile.bind_ok _ _ _ _ _ (render_some_run lhs_entry _ hk1)]
  rw [Compile.bind_ok _ _ _ _ _ (render_some_run ⟨.VAL, "", _⟩ _ (Or.inl rfl))]
  rw [Compile.bind_ok _ _ _ _ _ (Compile.emit_run _ _)]
  rw [Compile.bind_ok _ _ _ _ _ (Compile.getNextLabel_run _ _)]
  rw [Compile.bind_ok _ _ _ _ _ (render_some_run ⟨.VAL, "", _⟩ _ (Or.inl rfl))]
  rw [Compile.bind_ok _ _ _ _ _ (Compile.emit_run _ _)]
  have h2' : in2.process
      { table := ((w1.table.createEntry Typenames.VAL).2.getNextLabel "Or_ShortCircuit_").2,
        fout := (w1.fout ++
            ["test_nequ " ++ ("s" ++ toString lhs_entry.location) ++ " 0 "
              ++ ("s" ++ toString (w1.table.location_allotment + 1))]) ++
             ["jump_if_n0 " ++ ("s" ++ toString (w1.table.location_allotment + 1)) ++ " "
              ++ ("Or_ShortCircuit_" ++ "_" ++ toString (w1.table.label_allotment + 1))] }
      = (.ok (some rhs_entry), w2) := by
    rw [← h2]
    simp
  simp only [createEntry_label]
  rw [Compile.bind_ok _ _ _ _ _ h2']
  rw [Compile.bind_ok _ _ _ _ _ (render_some_run rhs_entry _ hk2)]
  rw [Compile.bind_ok _ _ _ _ _ (render_some_run ⟨.VAL, "", _⟩ _ (Or.inl rfl))]
  rw [Compile.bind_ok _ _ _ _ _ (Compile.emit_run _ _)]
  rw [Compile.bind_ok _ _ _ _ _ (Compile.emit_run _ _)]
  simp

theorem If_process_start (cond if_statement : ASTNode) (else_statement : Option ASTNode)
    (w w1 w2 : World) (cond_entry : TableEntry) (then_result : Option TableEntry)
    (hk : cond_entry.type_id = Typenames.VAL ∨ cond_entry.type_id = Typenames.CHAR)
    (hc : cond.process { w with fout := w.fout ++ ["# Process If"] }
      = (.ok (some cond_entry), w1))
    (hs : if_statement.process
        { table := (w1.table.getNextLabel "else_start_").2,
          fout := w1.fout ++
            ["jump_if_0 " ++ ("s" ++ toString cond_entry.location) ++ " "
              ++ ("else_start_" ++ "_" ++ toString (w1.table.label_allotment + 1)),
             "#If True Statement"] }
      = (.ok then_result, w2)) :
    (ASTNode.If cond if_statement else_statement).process w =
      (match else_statement with
       | some node =>
         (node.process >>= fun _ =>
           Compile.emit (("else_end_" ++ "_" ++ toString (w2.table.label_allotment + 1)) ++ ":")
             >>= fun _ => pure none)
       | none =>
         (Compile.emit (("else_end_" ++ "_" ++ toString (w2.table.label_allotment + 1)) ++ ":")
             >>= fun _ => pure none))
        { table := (w2.table.getNextLabel "else_end_").2,
          fout := w2.fout ++
            ["jump " ++ ("else_end_" ++ "_" ++ toString (w2.table.label_allotment + 1)),
             ("else_start_" ++ "_" ++ toString (w1.table.label_allotment + 1)) ++ ":",
             "#If False Statement"] } := by
  simp only [ASTNode.process]
  rw [Compile.bind_ok _ _ _ _ _ (Compile.emit_run _ _)]
  rw [Compile.bind_ok _ _ _ _ _ hc]
  rw [Compile.bind_ok _ _ _ _ _ (Compile.getNextLabel_run _ _)]
  rw [Compile.bind_ok _ _ _ _ _ (render_some_run cond_entry _ hk)]
  rw [Compile.bind_ok _ _ _ _ _ (Compile.emit_run _ _)]
  rw [Compile.bind_ok _ _ _ _ _ (Compile.emit_run _ _)]
  have hs' : if_statement.process
      { table := (w1.table.getNextLabel "else_start_").2,
        fout := (w1.fout ++
            ["jump_if_0 " ++ ("s" ++ toString cond_entry.location) ++ " "
              ++ ("else_start_" ++ "_" ++ toString (w1.table.label_allotment + 1))]) ++
             ["#If True Statement"] }
      = (.ok then_result, w2) := by
    rw [← hs]
    simp
  simp only []
  rw [Compile.bind_ok _ _ _ _ _ hs']
  rw [Compile.bind_ok _ _ _ _ _ (Compile.getNextLabel_run _ _)]
  rw [Compile.bind_ok _ _ _ _ _ (Compile.emit_run _ _)]
  rw [Compile.bind_ok _ _ _ _ _ (Compile.emit_run _ _)]
  rw [Compile.bind_ok _ _ _ _ _ (Compile.emit_run _ _)]
  cases else_statement <;> simp

theorem While_process_eq (while_label : String) (cond statement : ASTNode) (w w1 w2 : World)
    (cond_entry : TableEntry) (body_result : Option TableEntry)
    (hk : cond_entry.type_id = Typenames.VAL ∨ cond_entry.type_id = Typenames.CHAR)
    (hc : cond.process
        { w with fout := w.fout ++ ["# Process While", (while_label ++ "_start") ++ ":"] }
      = (.ok (some cond_entry), w1))
    (hb : statement.process
        { w1 with fout := w1.fout ++
            ["jump_if_0 " ++ ("s" ++ toString cond_entry.location) ++ " "
              ++ (while_label ++ "_end")] }
      = (.ok body_result, w2)) :
    (ASTNode.While while_label cond statement).process w =
      (.ok none,
       { w2 with fout := w2.fout ++
           ["jump " ++ (while_label ++ "_start"), (while_label ++ "_end") ++ ":"] }) := by
  simp only [ASTNode.process]
  rw [Compile.bind_ok _ _ _ _ _ (Compile.emit_run _ _)]
  rw [Compile.bind_ok _ _ _ _ _ (Compile.emit_run _ _)]
  have hc' : cond.process
      { table := w.table,
        fout := (w.fout ++ ["# Process While"]) ++ [(while_label ++ "_start") ++ ":"] }
      = (.ok (some cond_entry), w1) := by
    rw [← hc]
    simp
  simp only []
  rw [Compile.bind_ok _ _ _ _ _ hc']
  rw [Compile.bind_ok _ _ _ _ _ (render_some_run cond_entry _ hk)]
  rw [Compile.bind_ok _ _ _ _ _ (Compile.emit_run _ _)]
  rw [Compile.bind_ok _ _ _ _ _ hb]
  rw [Compile.bind_ok _ _ _ _ _ (Compile.emit_run _ _)]
  rw [Compile.bind_ok _ _ _ _ _ (Compile.emit_run _ _)]
  simp

theorem process_appends (node : ASTNode) (w w1 : World) (r : Except Error (Option TableEntry))
    (h : node.process w = (r, w1)) :
    w.table.location_allotment ≤ w1.table.location_allotment ∧
    w.table.label_allotment ≤ w1.table.label_allotment ∧
    ∃ lines, w1.fout = w.fout ++ lines := by
  have hg := process_grows node w
  rw [h] at hg
  exact ⟨hg.1, hg.2.1, hg.2.2.2.2⟩

theorem process_slot_renders (node : ASTNode) (hc : Constructed node)
    (hkind : node.getType = Typenames.VAL ∨ node.getType = Typenames.CHAR)
    (w w1 : World) (entry : TableEntry) (hp : node.process w = (.ok (some entry), w1)) :
    entry.type_id = Typenames.VAL ∨ entry.type_id = Typenames.CHAR := by
  have := process_kind node hc w w1 entry hp
  simp only [TableEntry.getType] at this
  rw [this]
  exact hkind

/-- C12: for a `BoolAnd` node built by its constructor from constructed operands that
process to slots, `process` writes its comment, the code of the first operand, the records
`test_nequ <first slot> 0 <t>` and `jump_if_0 <t> <L>`, the code of the second operand, the
records `test_nequ <second slot> 0 <t>` and `<L>:`, in this order, and returns `t`; the code
of the first operand is what its `process` has appended when it returns, the code of the
second operand what its `process` has appended after the jump record; `t` is the one slot and
`L` the one label the node takes from the table, both between the two operands, and the table
is otherwise only changed by the operands.  `BoolOr` does the same with `jump_if_n0` and its
own label. -/
theorem C12_short_circuit :
    (∀ (in1 in2 node : ASTNode) (w0 w w1 w2 : World) (lhs_entry rhs_entry : TableEntry),
      Constructed in1 → Constructed in2 →
      (ASTNode_BoolAnd in1 in2 w0).1 = .ok node →
      in1.process { w with fout := w.fout ++ ["# Process And"] }
        = (.ok (some lhs_entry), w1) →
      in2.process
        { table := ((w1.table.createEntry .VAL).2.getNextLabel "And_ShortCircut_").2,
          fout := w1.fout ++
            ["test_nequ " ++ ("s" ++ toString lhs_entry.location) ++ " 0 "
              ++ ("s" ++ toString (w1.table.location_allotment + 1)),
             "jump_if_0 " ++ ("s" ++ toString (w1.table.location_allotment + 1)) ++ " "
              ++ ("And_ShortCircut_" ++ "_" ++ toString (w1.table.label_allotment + 1))] }
        = (.ok (some rhs_entry), w2) →
      (w1.table.createEntry .VAL).1 = ⟨.VAL, "", w1.table.location_allotment + 1⟩ ∧
      ((w1.table.createEntry .VAL).2.getNextLabel "And_ShortCircut_").1
        = "And_ShortCircut_" ++ "_" ++ toString (w1.table.label_allotment + 1) ∧
      ∃ code1 code2 : List String,
        w1.fout = w.fout ++ ["# Process And"] ++ code1 ∧
        w2.fout = w1.fout ++
          ["test_nequ " ++ ("s" ++ toString lhs_entry.location) ++ " 0 "
             ++ ("s" ++ toString (w1.table.location_allotment + 1)),
           "jump_if_0 " ++ ("s" ++ toString (w1.table.location_allotment + 1)) ++ " "
             ++ ("And_ShortCircut_" ++ "_" ++ toString (w1.table.label_allotment + 1))] ++ code2 ∧
        node.process w =
          (.ok (some ⟨.VAL, "", w1.table.location_allotment + 1⟩),
           { table := w2.table,
             fout := w.fout ++ ["# Process And"] ++ code1 ++
               ["test_nequ " ++ ("s" ++ toString lhs_entry.location) ++ " 0 "
                  ++ ("s" ++ toString (w1.table.location_allotment + 1)),
                "jump_if_0 " ++ ("s" ++ toString (w1.table.location_allotment + 1)) ++ " "
                  ++ ("And_ShortCircut_" ++ "_" ++ toString (w1.table.label_allotment + 1))]
               ++ code2 ++
               ["test_nequ " ++ ("s" ++ toString rhs_entry.location) ++ " 0 "
                  ++ ("s" ++ toString (w1.table.location_allotment + 1)),
                ("And_ShortCircut_" ++ "_" ++ toString (w1.table.label_allotment + 1))
                  ++ ":"] })) ∧
    (∀ (in1 in2 node : ASTNode) (w0 w w1 w2 : World) (lhs_entry rhs_entry : TableEntry),
      Constructed in1 → Constructed in2 →
      (ASTNode_BoolOr in1 in2 w0).1 = .ok node →
      in1.process { w with fout := w.fout ++ ["# Process Or"] }
        = (.ok (some lhs_entry), w1) →
      in2.process
        { table := ((w1.table.createEntry .VAL).2.getNextLabel "Or_ShortCircuit_").2,
          fout := w1.fout ++
            ["test_nequ " ++ ("s" ++ toString lhs_entry.location) ++ " 0 "
              ++ ("s" ++ toString (w1.table.location_allotment + 1)),
             "jump_if_n0 " ++ ("s" ++ toString (w1.table.location_allotment + 1)) ++ " "
              ++ ("Or_ShortCircuit_" ++ "_" ++ toString (w1.table.label_allotment + 1))] }
        = (.ok (some rhs_entry), w2) →
      (w1.table.createEntry .VAL).1 = ⟨.VAL, "", w1.table.location_allotment + 1⟩ ∧
      ((w1.table.createEntry .VAL).2.getNextLabel "Or_ShortCircuit_").1
        = "Or_ShortCircuit_" ++ "_" ++ toString (w1.table.label_allotment + 1) ∧
      ∃ code1 code2 : List String,
        w1.fout = w.fout ++ ["# Process Or"] ++ code1 ∧
        w2.fout = w1.fout ++
          ["test_nequ " ++ ("s" ++ toString lhs_entry.location) ++ " 0 "
             ++ ("s" ++ toString (w1.table.location_allotment + 1)),
           "jump_if_n0 " ++ ("s" ++ toString (w1.table.location_allotment + 1)) ++ " "
             ++ ("Or_ShortCircuit_" ++ "_" ++ toString (w1.table.label_allotment + 1))] ++ code2 ∧
        node.process w =
          (.ok (some ⟨.VAL, "", w1.table.location_allotment + 1⟩),
           { table := w2.table,
             fout := w.fout ++ ["# Process Or"] ++ code1 ++
               ["test_nequ " ++ ("s" ++ toString lhs_entry.location) ++ " 0 "
                  ++ ("s" ++ toString (w1.table.location_allotment + 1)),
                "jump_if_n0 " ++ ("s" ++ toString (w1.table.location_allotment + 1)) ++ " "
                  ++ ("Or_ShortCircuit_" ++ "_" ++ toString (w1.table.label_allotment + 1))]
               ++ code2 ++
               ["test_nequ " ++ ("s" ++ toString rhs_entry.location) ++ " 0 "
                  ++ ("s" ++ toString (w1.table.location_allotment + 1)),
                ("Or_ShortCircuit_" ++ "_" ++ toString (w1.table.label_allotment + 1))
                  ++ ":"] })) := by
  constructor
  · intro in1 in2 node w0 w w1 w2 lhs_entry rhs_entry hc1 hc2 hnode h1 h2
    rw [ASTNode_BoolAnd_run] at hnode
    split at hnode
    · rename_i hty
      simp only [Except.ok.injEq] at hnode
      subst hnode
      have hk1 := process_slot_renders in1 hc1 (Or.inl hty.1) _ _ _ h1
      have hk2 := process_slot_renders in2 hc2 (Or.inl hty.2) _ _ _ h2
      obtain ⟨-, -, code1, hcode1⟩ := process_appends in1 _ _ _ h1
      obtain ⟨-, -, code2, hcode2⟩ := process_appends in2 _ _ _ h2
      refine ⟨rfl, rfl, code1, code2, by simpa using hcode1, by simpa using hcode2, ?_⟩
      rw [BoolAnd_process_eq in1 in2 w w1 w2 lhs_entry rhs_entry hk1 hk2 h1 h2, hcode2, hcode1]
    · simp at hnode
  · intro in1 in2 node w0 w w1 w2 lhs_entry rhs_entry hc1 hc2 hnode h1 h2
    rw [ASTNode_BoolOr_run] at hnode
    split at hnode
    · rename_i hty
      simp only [Except.ok.injEq] at hnode
      subst hnode
      have hk1 := process_slot_renders in1 hc1 (Or.inl hty.1) _ _ _ h1
      have hk2 := process_slot_renders in2 hc2 (Or.inl hty.2) _ _ _ h2
      obtain ⟨-, -, code1, hcode1⟩ := process_appends in1 _ _ _ h1
      obtain ⟨-, -, code2, hcode2⟩ := process_appends in2 _ _ _ h2
      refine ⟨rfl, rfl, code1, code2, by simpa using hcode1, by simpa using hcode2, ?_⟩
      rw [BoolOr_process_eq in1 in2 w w1 w2 lhs_entry rhs_entry hk1 hk2 h1 h2, hcode2, hcode1]
    · simp at hnode

/-- The conjunction `1 && 0` of two `VAL` literals from the initial table. -/
theorem C12_short_circuit_witness :
    ∃ code1 code2 : List String,
      ["# Process And", "val_copy 1 s1"] = [] ++ ["# Process And"] ++ code1 ∧
      ["# Process And", "val_copy 1 s1", "test_nequ s1 0 s2", "jump_if_0 s2 And_ShortCircut__1",
        "val_copy 0 s3"] = ["# Process And", "val_copy 1 s1"] ++
          ["test_nequ s1 0 s2", "jump_if_0 s2 And_ShortCircut__1"] ++ code2 ∧
      (ASTNode.BoolAnd (.Literal .VAL "1") (.Literal .VAL "0")).process ⟨SymbolTable.init, []⟩ =
        (.ok (some ⟨.VAL, "", 2⟩),
         { table := ⟨[[]], [⟨.VAL, "", 1⟩, ⟨.VAL, "", 2⟩, ⟨.VAL, "", 3⟩], 3, 1, []⟩,
           fout := [] ++ ["# Process And"] ++ code1 ++
             ["test_nequ s1 0 s2", "jump_if_0 s2 And_ShortCircut__1"] ++ code2 ++
             ["test_nequ s3 0 s2", "And_ShortCircut__1:"] }) :=
  (C12_short_circuit.1
    (.Literal .VAL "1") (.Literal .VAL "0") (.BoolAnd (.Literal .VAL "1") (.Literal .VAL "0"))
    ⟨SymbolTable.init, []⟩ ⟨SymbolTable.init, []⟩
    ⟨⟨[[]], [⟨.VAL, "", 1⟩], 1, 0, []⟩, ["# Process And", "val_copy 1 s1"]⟩
    ⟨⟨[[]], [⟨.VAL, "", 1⟩, ⟨.VAL, "", 2⟩, ⟨.VAL, "", 3⟩], 3, 1, []⟩,
      ["# Process And", "val_copy 1 s1", "test_nequ s1 0 s2", "jump_if_0 s2 And_ShortCircut__1",
       "val_copy 0 s3"]⟩
    ⟨.VAL, "", 1⟩ ⟨.VAL, "", 3⟩
    (Constructed.Literal .VAL "1" ⟨SymbolTable.init, []⟩ _ rfl)
    (Constructed.Literal .VAL "0" ⟨SymbolTable.init, []⟩ _ rfl)
    rfl rfl rfl).2.2

theorem else_labels_ne (a b : Int) :
    "else_start_" ++ "_" ++ toString a ≠ "else_end_" ++ "_" ++ toString b := by
  intro h
  have := (label_inj h).1
  revert this
  decide

/-- C13: for an `If` node built by its constructor from a constructed condition, when the
condition processes to a slot and the branches process, `process` writes its comment, the
code of the condition, `jump_if_0 <cond slot> <else_start>`, a comment, the code of the first
branch, `jump <else_end>`, `<else_start>:`, a comment, the code of the else branch when there
is one, and `<else_end>:`, in this order; the code of the condition and of each branch is
what its `process` has appended when it returns; the two labels are different; with a null
else branch both label definitions are written, with only the comment between them. -/
theorem C13_If_process :
    (∀ (cond if_statement other node : ASTNode) (w0 w w1 w2 w3 : World)
      (cond_entry : TableEntry) (then_result else_result : Option TableEntry),
      Constructed cond →
      (ASTNode_If cond if_statement (some other) w0).1 = .ok node →
      cond.process { w with fout := w.fout ++ ["# Process If"] }
        = (.ok (some cond_entry), w1) →
      if_statement.process
        { table := (w1.table.getNextLabel "else_start_").2,
          fout := w1.fout ++
            ["jump_if_0 " ++ ("s" ++ toString cond_entry.location) ++ " "
              ++ ("else_start_" ++ "_" ++ toString (w1.table.label_allotment + 1)),
             "#If True Statement"] }
        = (.ok then_result, w2) →
      other.process
        { table := (w2.table.getNextLabel "else_end_").2,
          fout := w2.fout ++
            ["jump " ++ ("else_end_" ++ "_" ++ toString (w2.table.label_allotment + 1)),
             ("else_start_" ++ "_" ++ toString (w1.table.label_allotment + 1)) ++ ":",
             "#If False Statement"] }
        = (.ok else_result, w3) →
      "else_start_" ++ "_" ++ toString (w1.table.label_allotment + 1)
        ≠ "else_end_" ++ "_" ++ toString (w2.table.label_allotment + 1) ∧
      ∃ code1 code2 code3 : List String,
        w1.fout = w.fout ++ ["# Process If"] ++ code1 ∧
        w2.fout = w1.fout ++
          ["jump_if_0 " ++ ("s" ++ toString cond_entry.location) ++ " "
             ++ ("else_start_" ++ "_" ++ toString (w1.table.label_allotment + 1)),
           "#If True Statement"] ++ code2 ∧
        w3.fout = w2.fout ++
          ["jump " ++ ("else_end_" ++ "_" ++ toString (w2.table.label_allotment + 1)),
           ("else_start_" ++ "_" ++ toString (w1.table.label_allotment + 1)) ++ ":",
           "#If False Statement"] ++ code3 ∧
        node.process w =
          (.ok none,
           { table := w3.table,
             fout := w.fout ++ ["# Process If"] ++ code1 ++
               ["jump_if_0 " ++ ("s" ++ toString cond_entry.location) ++ " "
                  ++ ("else_start_" ++ "_" ++ toString (w1.table.label_allotment + 1)),
                "#If True Statement"] ++ code2 ++
               ["jump " ++ ("else_end_" ++ "_" ++ toString (w2.table.label_allotment + 1)),
                ("else_start_" ++ "_" ++ toString (w1.table.label_allotment + 1)) ++ ":",
                "#If False Statement"] ++ code3 ++
               [("else_end_" ++ "_" ++ toString (w2.table.label_allotment + 1)) ++ ":"] })) ∧
    (∀ (cond if_statement node : ASTNode) (w0 w w1 w2 : World)
      (cond_entry : TableEntry) (then_result : Option TableEntry),
      Constructed cond →
      (ASTNode_If cond if_statement none w0).1 = .ok node →
      cond.process { w with fout := w.fout ++ ["# Process If"] }
        = (.ok (some cond_entry), w1) →
      if_statement.process
        { table := (w1.table.getNextLabel "else_start_").2,
          fout := w1.fout ++
            ["jump_if_0 " ++ ("s" ++ toString cond_entry.location) ++ " "
              ++ ("else_start_" ++ "_" ++ toString (w1.table.label_allotment + 1)),
             "#If True Statement"] }
        = (.ok then_result, w2) →
      "else_start_" ++ "_" ++ toString (w1.table.label_allotment + 1)
        ≠ "else_end_" ++ "_" ++ toString (w2.table.label_allotment + 1) ∧
      ∃ code1 code2 : List String,
        w1.fout = w.fout ++ ["# Process If"] ++ code1 ∧
        w2.fout = w1.fout ++
          ["jump_if_0 " ++ ("s" ++ toString cond_entry.location) ++ " "
             ++ ("else_start_" ++ "_" ++ toString (w1.table.label_allotment + 1)),
           "#If True Statement"] ++ code2 ∧
        node.process w =
          (.ok none,
           { table := (w2.table.getNextLabel "else_end_").2,
             fout := w.fout ++ ["# Process If"] ++ code1 ++
               ["jump_if_0 " ++ ("s" ++ toString cond_entry.location) ++ " "
                  ++ ("else_start_" ++ "_" ++ toString (w1.table.label_allotment + 1)),
                "#If True Statement"] ++ code2 ++
               ["jump " ++ ("else_end_" ++ "_" ++ toString (w2.table.label_allotment + 1)),
                ("else_start_" ++ "_" ++ toString (w1.table.label_allotment + 1)) ++ ":",
                "#If False Statement",
                ("else_end_" ++ "_" ++ toString (w2.table.label_allotment + 1)) ++ ":"] })) := by
  constructor
  · intro cond if_statement other node w0 w w1 w2 w3 cond_entry then_result else_result
      hc hnode h1 h2 h3
    rw [ASTNode_If_run] at hnode
    split at hnode
    · rename_i hty
      simp only [Except.ok.injEq] at hnode
      subst hnode
      have hk := process_slot_renders cond hc (Or.inl hty) _ _ _ h1
      obtain ⟨-, -, code1, hcode1⟩ := process_appends cond _ _ _ h1
      obtain ⟨-, -, code2, hcode2⟩ := process_appends if_statement _ _ _ h2
      obtain ⟨-, -, code3, hcode3⟩ := process_appends other _ _ _ h3
      refine ⟨else_labels_ne _ _, code1, code2, code3, by simpa using hcode1,
        by simpa using hcode2, by simpa using hcode3, ?_⟩
      rw [If_process_start cond if_statement (some other) w w1 w2 cond_entry then_result hk h1 h2]
      simp only []
      rw [Compile.bind_ok _ _ _ _ _ h3]
      rw [Compile.bind_ok _ _ _ _ _ (Compile.emit_run _ _)]
      rw [hcode3, hcode2, hcode1]
      simp
    · simp at hnode
  · intro cond if_statement node w0 w w1 w2 cond_entry then_result hc hnode h1 h2
    rw [ASTNode_If_run] at hnode
    split at hnode
    · rename_i hty
      simp only [Except.ok.injEq] at hnode
      subst hnode
      have hk := process_slot_renders cond hc (Or.inl hty) _ _ _ h1
      obtain ⟨-, -, code1, hcode1⟩ := process_appends cond _ _ _ h1
      obtain ⟨-, -, code2, hcode2⟩ := process_appends if_statement _ _ _ h2
      refine ⟨else_labels_ne _ _, code1, code2, by simpa using hcode1,
        by simpa using hcode2, ?_⟩
      rw [If_process_start cond if_statement none w w1 w2 cond_entry then_result hk h1 h2]
      simp only []
      rw [Compile.bind_ok _ _ _ _ _ (Compile.emit_run _ _)]
      rw [hcode2, hcode1]
      simp
    · simp at hnode

/-- An `If` without else branch: condition the literal `1`, first branch an empty `Print`. -/
theorem C13_If_process_witness :
    "else_start_" ++ "_" ++ toString ((0 : Int) + 1)
      ≠ "else_end_" ++ "_" ++ toString ((1 : Int) + 1) ∧
    ∃ code1 code2 : List String,
      ["# Process If", "val_copy 1 s1"] = [] ++ ["# Process If"] ++ code1 ∧
      ["# Process If", "val_copy 1 s1", "jump_if_0 s1 else_start__1", "#If True Statement",
        "# Process Print", "out_char '\\n'"] = ["# Process If", "val_copy 1 s1"] ++
          ["jump_if_0 s1 else_start__1", "#If True Statement"] ++ code2 ∧
      (ASTNode.If (.Literal .VAL "1") (.Print []) none).process ⟨SymbolTable.init, []⟩ =
        (.ok none,
         { table := ⟨[[]], [⟨.VAL, "", 1⟩], 1, 2, []⟩,
           fout := [] ++ ["# Process If"] ++ code1 ++
             ["jump_if_0 s1 else_start__1", "#If True Statement"] ++ code2 ++
             ["jump else_end__2", "else_start__1:", "#If False Statement", "else_end__2:"] }) :=
  C13_If_process.2 (.Literal .VAL "1") (.Print []) (.If (.Literal .VAL "1") (.Print []) none)
    ⟨SymbolTable.init, []⟩ ⟨SymbolTable.init, []⟩
    ⟨⟨[[]], [⟨.VAL, "", 1⟩], 1, 0, []⟩, ["# Process If", "val_copy 1 s1"]⟩
    ⟨⟨[[]], [⟨.VAL, "", 1⟩], 1, 1, []⟩,
      ["# Process If", "val_copy 1 s1", "jump_if_0 s1 else_start__1", "#If True Statement",
       "# Process Print", "out_char '\\n'"]⟩
    ⟨.VAL, "", 1⟩ none
    (Constructed.Literal .VAL "1" ⟨SymbolTable.init, []⟩ _ rfl)
    rfl rfl rfl

/-- C14: for a `While` node built by its constructor, from a constructed condition, while
`W` is on top of the loop stack, when the condition processes to a slot and the body
processes, `process` writes its comment, `W_start:`, the code of the condition,
`jump_if_0 <cond slot> W_end`, the code of the body, `jump W_start` and `W_end:`, in this
order; the code of the condition and of the body is what its `process` has appended when it
returns.  The loop `while (x) { break; }`, built after one `push_to_while_stack` on a table that
declares `x`, gives the start label, the processing of `x`, the conditional jump to the end
label, the jump of `break` to the same end label, the jump back to the start label and the end
label. -/
theorem C14_While_process :
    (∀ (cond statement node : ASTNode) (w0 w w1 w2 : World) (below : List String) (W : String)
      (cond_entry : TableEntry) (body_result : Option TableEntry),
      Constructed cond →
      w0.table.while_stack = below ++ [W] →
      (ASTNode_While cond statement w0).1 = .ok node →
      cond.process { w with fout := w.fout ++ ["# Process While", (W ++ "_start") ++ ":"] }
        = (.ok (some cond_entry), w1) →
      statement.process
        { w1 with fout := w1.fout ++
            ["jump_if_0 " ++ ("s" ++ toString cond_entry.location) ++ " " ++ (W ++ "_end")] }
        = (.ok body_result, w2) →
      node = .While W cond statement ∧
      ∃ code1 code2 : List String,
        w1.fout = w.fout ++ ["# Process While", (W ++ "_start") ++ ":"] ++ code1 ∧
        w2.fout = w1.fout ++
          ["jump_if_0 " ++ ("s" ++ toString cond_entry.location) ++ " " ++ (W ++ "_end")]
          ++ code2 ∧
        node.process w =
          (.ok none,
           { table := w2.table,
             fout := w.fout ++ ["# Process While", (W ++ "_start") ++ ":"] ++ code1 ++
               ["jump_if_0 " ++ ("s" ++ toString cond_entry.location) ++ " " ++ (W ++ "_end")]
               ++ code2 ++ ["jump " ++ (W ++ "_start"), (W ++ "_end") ++ ":"] })) ∧
    ((⟨[[("x", ⟨.VAL, "x", 1⟩)]], [], 1, 0, []⟩ : SymbolTable).push_to_while_stack
        = ⟨[[("x", ⟨.VAL, "x", 1⟩)]], [], 1, 1, ["while_1"]⟩ ∧
      (ASTNode_Variable ⟨.VAL, "x", 1⟩
          ⟨⟨[[("x", ⟨.VAL, "x", 1⟩)]], [], 1, 1, ["while_1"]⟩, []⟩).1
        = .ok (.Variable .VAL ⟨.VAL, "x", 1⟩) ∧
      (ASTNode_Break ⟨⟨[[("x", ⟨.VAL, "x", 1⟩)]], [], 1, 1, ["while_1"]⟩, []⟩).1
        = .ok (.Break "while_1") ∧
      (ASTNode_While (.Variable .VAL ⟨.VAL, "x", 1⟩) (.Break "while_1")
          ⟨⟨[[("x", ⟨.VAL, "x", 1⟩)]], [], 1, 1, ["while_1"]⟩, []⟩).1
        = .ok (.While "while_1" (.Variable .VAL ⟨.VAL, "x", 1⟩) (.Break "while_1")) ∧
      ((ASTNode.While "while_1" (.Variable .VAL ⟨.VAL, "x", 1⟩) (.Break "while_1")).process
          ⟨⟨[[("x", ⟨.VAL, "x", 1⟩)]], [], 1, 1, []⟩, []⟩)
        = (.ok none,
           ⟨⟨[[("x", ⟨.VAL, "x", 1⟩)]], [], 1, 1, []⟩,
            ["# Process While", "while_1_start:", "# Process Variable",
             "jump_if_0 s1 while_1_end", "# Process Break", "jump while_1_end",
             "jump while_1_start", "while_1_end:"]⟩)) := by
  refine ⟨?_, rfl, rfl, rfl, rfl, rfl⟩
  intro cond statement node w0 w w1 w2 below W cond_entry body_result hc hstack hnode h1 h2
  rw [ASTNode_While_run] at hnode
  simp only [hstack, getLast?_concat_eq] at hnode
  split at hnode
  · rename_i hty
    simp only [Except.ok.injEq] at hnode
    subst hnode
    have hk := process_slot_renders cond hc (Or.inl hty) _ _ _ h1
    obtain ⟨-, -, code1, hcode1⟩ := process_appends cond _ _ _ h1
    obtain ⟨-, -, code2, hcode2⟩ := process_appends statement _ _ _ h2
    refine ⟨rfl, code1, code2, by simpa using hcode1, by simpa using hcode2, ?_⟩
    rw [While_process_eq W cond statement w w1 w2 cond_entry body_result hk h1 h2,
      hcode2, hcode1]
  · simp at hnode

/-- The loop `while (x) { break; }` on a table that declares `x` and has `while_1` on the
loop stack. -/
theorem C14_While_process_witness :
    ∃ code1 code2 : List String,
      ["# Process While", "while_1_start:", "# Process Variable"]
        = [] ++ ["# Process While", ("while_1" ++ "_start") ++ ":"] ++ code1 ∧
      ["# Process While", "while_1_start:", "# Process Variable", "jump_if_0 s1 while_1_end",
        "# Process Break", "jump while_1_end"]
        = ["# Process While", "while_1_start:", "# Process Variable"] ++
          ["jump_if_0 s1 while_1_end"] ++ code2 ∧
      (ASTNode.While "while_1" (.Variable .VAL ⟨.VAL, "x", 1⟩) (.Break "while_1")).process
          ⟨⟨[[("x", ⟨.VAL, "x", 1⟩)]], [], 1, 1, ["while_1"]⟩, []⟩ =
        (.ok none,
         { table := ⟨[[("x", ⟨.VAL, "x", 1⟩)]], [], 1, 1, ["while_1"]⟩,
           fout := [] ++ ["# Process While", ("while_1" ++ "_start") ++ ":"] ++ code1 ++
             ["jump_if_0 s1 while_1_end"] ++ code2 ++
             ["jump while_1_start", "while_1_end:"] }) :=
  (C14_While_process.1 (.Variable .VAL ⟨.VAL, "x", 1⟩) (.Break "while_1")
    (.While "while_1" (.Variable .VAL ⟨.VAL, "x", 1⟩) (.Break "while_1"))
    ⟨⟨[[("x", ⟨.VAL, "x", 1⟩)]], [], 1, 1, ["while_1"]⟩, []⟩
    ⟨⟨[[("x", ⟨.VAL, "x", 1⟩)]], [], 1, 1, ["while_1"]⟩, []⟩
    ⟨⟨[[("x", ⟨.VAL, "x", 1⟩)]], [], 1, 1, ["while_1"]⟩,
      ["# Process While", "while_1_start:", "# Process Variable"]⟩
    ⟨⟨[[("x", ⟨.VAL, "x", 1⟩)]], [], 1, 1, ["while_1"]⟩,
      ["# Process While", "while_1_start:", "# Process Variable", "jump_if_0 s1 while_1_end",
       "# Process Break", "jump while_1_end"]⟩
    [] "while_1" ⟨.VAL, "x", 1⟩ none
    (Constructed.Variable ⟨.VAL, "x", 1⟩ ⟨SymbolTable.init, []⟩ _ rfl)
    rfl rfl rfl rfl).2

/-! ## Label definitions -/

theorem subperm_append {α : Type} {l1 l2 T1 T2 : List α} (h1 : l1.Subperm T1)
    (h2 : l2.Subperm T2) : (l1 ++ l2).Subperm (T1 ++ T2) :=
  ((List.subperm_append_right l2).2 h1).trans ((List.subperm_append_left T1).2 h2)

theorem nodup_of_subperm {α : Type} {l T : List α} (h : l.Subperm T) (hT : T.Nodup) :
    l.Nodup := by
  obtain ⟨l', hperm, hsub⟩ := h
  exact (hperm.nodup_iff).1 (hT.sublist hsub)

theorem toDigitsCore_getLast (fuel n : Nat) :
    (Nat.toDigitsCore 10 (fuel + 1) n []).getLast? = some (Nat.digitChar (n % 10)) := by
  simp only [Nat.toDigitsCore]
  split
  · rfl
  · rw [toDigitsCore_acc]
    simp

theorem int_toString_last (k : Int) :
    ∃ c, (toString k).data.getLast? = some c ∧ c ∈ "0123456789".data := by
  cases k with
  | ofNat m =>
    refine ⟨Nat.digitChar (m % 10), ?_, digitChar_mem _ (Nat.mod_lt _ (by decide))⟩
    show (Nat.repr m).data.getLast? = _
    simp only [Nat.repr, List.asString, Nat.toDigits]
    exact toDigitsCore_getLast m m
  | negSucc m =>
    refine ⟨Nat.digitChar ((m + 1) % 10), ?_, digitChar_mem _ (Nat.mod_lt _ (by decide))⟩
    show ("-" ++ Nat.repr (m + 1)).data.getLast? = _
    simp only [String.data_append, Nat.repr, List.asString, Nat.toDigits]
    rw [List.getLast?_append, toDigitsCore_getLast]
    rfl

theorem getLast?_append_some {α : Type} (l1 l2 : List α) (c : α) (h : l2.getLast? = some c) :
    (l1 ++ l2).getLast? = some c := by
  rw [List.getLast?_append, h]
  rfl

theorem not_label_of_last (x y : String) (c : Char) (h : y.data.getLast? = some c)
    (hc : c ≠ ':') : is_label_definition (x ++ y) = false := by
  simp only [is_label_definition, String.data_append, getLast?_append_some _ _ c h,
    Option.some.injEq, hc, decide_False, Bool.and_false]

theorem not_label_of_number (x y : String) (k : Int) :
    is_label_definition (x ++ (y ++ toString k)) = false := by
  obtain ⟨c, hc, hmem⟩ := int_toString_last k
  refine not_label_of_last x _ c ?_ ?_
  · rw [String.data_append]
    exact getLast?_append_some _ _ c hc
  · intro h
    subst h
    revert hmem
    decide

theorem not_label_of_comment (x y : String) (h : x.data.head? = some '#') :
    is_label_definition (x ++ y) = false := by
  have : (x ++ y).data.head? = some '#' := by
    rw [String.data_append]
    cases hx : x.data with
    | nil => simp [hx] at h
    | cons c cs =>
      rw [hx] at h
      simpa using h
  simp only [is_label_definition, is_comment, this, decide_True, Bool.not_true, Bool.false_and]

theorem loop_start_inj (a b : String) (h : (a ++ "_start") ++ ":" = (b ++ "_start") ++ ":") :
    a = b := by
  have h1 := congrArg String.data h
  simp only [String.data_append, List.append_assoc] at h1
  exact String.ext (List.append_cancel_right h1)

theorem loop_end_inj (a b : String) (h : (a ++ "_end") ++ ":" = (b ++ "_end") ++ ":") :
    a = b := by
  have h1 := congrArg String.data h
  simp only [String.data_append, List.append_assoc] at h1
  exact String.ext (List.append_cancel_right h1)

theorem loop_start_ne_end (a b : String) : (a ++ "_start") ++ ":" ≠ (b ++ "_end") ++ ":" := by
  intro h
  have h1 := congrArg (fun s => s.data.reverse.take 2) h
  simp [String.data_append] at h1

theorem counter_ne_loop (p W : String) (k : Int) :
    (p ++ "_" ++ toString k) ++ ":" ≠ (W ++ "_start") ++ ":" ∧
    (p ++ "_" ++ toString k) ++ ":" ≠ (W ++ "_end") ++ ":" := by
  obtain ⟨c, hc, hmem⟩ := int_toString_last k
  have hrev : ∀ s : String, ((p ++ "_" ++ toString k) ++ ":" = s) →
      s.data.reverse.take 2 = [':', c] := by
    intro s hs
    subst hs
    obtain ⟨init, hinit⟩ : ∃ init, (toString k).data = init ++ [c] := by
      have := List.getLast?_eq_some_iff.1 hc
      exact this
    simp [String.data_append, hinit]
  constructor
  · intro h
    have := hrev _ h
    simp [String.data_append] at this
    subst this
    revert hmem
    decide
  · intro h
    have := hrev _ h
    simp [String.data_append] at this
    subst this
    revert hmem
    decide

theorem counter_line_inj (p q : String) (a b : Int)
    (h : (p ++ "_" ++ toString a) ++ ":" = (q ++ "_" ++ toString b) ++ ":") : a = b := by
  have h1 := congrArg String.data h
  rw [String.data_append, String.data_append] at h1
  exact (label_inj (String.ext (List.append_cancel_right h1))).2

theorem LL_nil (T : List String) (K : Int → Prop) : LabelLines T K [] :=
  ⟨[], [], by simp, List.nil_subperm, List.nodup_nil, by simp⟩

theorem LL_cons_plain {T : List String} {K : Int → Prop} {l : List String} (line : String)
    (h : is_label_definition line = false) (hl : LabelLines T K l) :
    LabelLines T K (line :: l) := by
  obtain ⟨cs, ls, hperm, hsub, hnd, hform⟩ := hl
  refine ⟨cs, ls, ?_, hsub, hnd, hform⟩
  simpa [List.filter_cons, h] using hperm

theorem LL_weaken {T T' : List String} {K K' : Int → Prop} {l : List String}
    (hl : LabelLines T K l) (hT : T.Subperm T') (hK : ∀ k, K k → K' k) :
    LabelLines T' K' l := by
  obtain ⟨cs, ls, hperm, hsub, hnd, hform⟩ := hl
  refine ⟨cs, ls, hperm, hsub.trans hT, hnd, ?_⟩
  intro x hx
  obtain ⟨p, k, hpk, hk⟩ := hform x hx
  exact ⟨p, k, hpk, hK k hk⟩

theorem LL_append {T1 T2 : List String} {K1 K2 : Int → Prop} {l1 l2 : List String}
    (h1 : LabelLines T1 K1 l1) (h2 : LabelLines T2 K2 l2)
    (hdis : ∀ k, K1 k → K2 k → False) :
    LabelLines (T1 ++ T2) (fun k => K1 k ∨ K2 k) (l1 ++ l2) := by
  obtain ⟨cs1, ls1, hperm1, hsub1, hnd1, hform1⟩ := h1
  obtain ⟨cs2, ls2, hperm2, hsub2, hnd2, hform2⟩ := h2
  refine ⟨cs1 ++ cs2, ls1 ++ ls2, ?_, subperm_append hsub1 hsub2, ?_, ?_⟩
  · rw [List.filter_append]
    refine (List.Perm.append hperm1 hperm2).trans ?_
    rw [List.append_assoc, List.append_assoc]
    refine List.Perm.append_left cs1 ?_
    rw [← List.append_assoc, ← List.append_assoc]
    exact List.Perm.append_right ls2 List.perm_append_comm
  · rw [List.nodup_append]
    refine ⟨hnd1, hnd2, ?_⟩
    intro x hx1 hx2
    obtain ⟨p, k, hpk, hk⟩ := hform1 x hx1
    obtain ⟨q, j, hqj, hj⟩ := hform2 x hx2
    have := counter_line_inj p q k j (hpk.symm.trans hqj)
    subst this
    exact hdis k hk hj
  · intro x hx
    rw [List.mem_append] at hx
    rcases hx with hx | hx
    · obtain ⟨p, k, hpk, hk⟩ := hform1 x hx
      exact ⟨p, k, hpk, Or.inl hk⟩
    · obtain ⟨p, k, hpk, hk⟩ := hform2 x hx
      exact ⟨p, k, hpk, Or.inr hk⟩

theorem LL_counter (T : List String) {K : Int → Prop} (p : String) (k : Int) (hk : K k) :
    LabelLines T K [(p ++ "_" ++ toString k) ++ ":"] := by
  by_cases h : is_label_definition ((p ++ "_" ++ toString k) ++ ":") = true
  · refine ⟨[(p ++ "_" ++ toString k) ++ ":"], [], ?_, List.nil_subperm, by simp, ?_⟩
    · simp [List.filter_cons, h]
    · intro x hx
      simp only [List.mem_singleton] at hx
      exact ⟨p, k, hx, hk⟩
  · simp only [Bool.not_eq_true] at h
    exact LL_cons_plain _ h (LL_nil T K)

theorem LL_loop (K : Int → Prop) (line : String) : LabelLines [line] K [line] := by
  by_cases h : is_label_definition line = true
  · refine ⟨[], [line], ?_, List.Subperm.refl _, List.nodup_nil, by simp⟩
    simp [List.filter_cons, h]
  · simp only [Bool.not_eq_true] at h
    exact LL_cons_plain _ h (LL_nil _ K)

theorem loop_lines_append (a b : List String) :
    loop_lines (a ++ b) = loop_lines a ++ loop_lines b := by
  induction a with
  | nil => rfl
  | cons W rest ih => simp [loop_lines, ih]

theorem mem_loop_lines (x : String) (Ws : List String) (h : x ∈ loop_lines Ws) :
    ∃ W ∈ Ws, x = (W ++ "_start") ++ ":" ∨ x = (W ++ "_end") ++ ":" := by
  induction Ws with
  | nil => simp [loop_lines] at h
  | cons W rest ih =>
    simp only [loop_lines, List.mem_cons] at h
    rcases h with h | h | h
    · exact ⟨W, by simp, Or.inl h⟩
    · exact ⟨W, by simp, Or.inr h⟩
    · obtain ⟨V, hV, hx⟩ := ih h
      exact ⟨V, by simp [hV], hx⟩

theorem loop_lines_nodup (Ws : List String) (h : Ws.Nodup) : (loop_lines Ws).Nodup := by
  induction Ws with
  | nil => simp [loop_lines]
  | cons W rest ih =>
    rw [List.nodup_cons] at h
    simp only [loop_lines, List.nodup_cons, List.mem_cons, not_or]
    refine ⟨⟨loop_start_ne_end W W, ?_⟩, ?_, ih h.2⟩
    · intro hm
      obtain ⟨V, hV, hx⟩ := mem_loop_lines _ _ hm
      rcases hx with hx | hx
      · exact h.1 (by rw [loop_start_inj _ _ hx]; exact hV)
      · exact loop_start_ne_end _ _ hx
    · intro hm
      obtain ⟨V, hV, hx⟩ := mem_loop_lines _ _ hm
      rcases hx with hx | hx
      · exact loop_start_ne_end _ _ hx.symm
      · exact h.1 (by rw [loop_end_inj _ _ hx]; exact hV)

theorem LL_nodup {K : Int → Prop} {lines : List String} (Ws : List String)
    (h : LabelLines (loop_lines Ws) K lines) (hW : Ws.Nodup) :
    (lines.filter is_label_definition).Nodup := by
  obtain ⟨cs, ls, hperm, hsub, hnd, hform⟩ := h
  rw [hperm.nodup_iff, List.nodup_append]
  refine ⟨hnd, nodup_of_subperm hsub (loop_lines_nodup Ws hW), ?_⟩
  intro x hx1 hx2
  obtain ⟨p, k, hpk, -⟩ := hform x hx1
  obtain ⟨W, -, hx⟩ := mem_loop_lines x Ws (hsub.subset hx2)
  subst hpk
  rcases hx with hx | hx
  · exact (counter_ne_loop p W k).1 hx
  · exact (counter_ne_loop p W k).2 hx

theorem tracks_pure {α : Type} (T : List String) (a : α) : Tracks T (pure a : Compile α) := by
  intro w w1 b h
  simp only [Compile.pure_run, Prod.mk.injEq, Except.ok.injEq] at h
  obtain ⟨-, rfl⟩ := h
  exact ⟨le_refl _, [], by simp, LL_nil _ _⟩

theorem tracks_fail {α : Type} (T : List String) (e : Error) :
    Tracks T (Compile.fail e : Compile α) := by
  intro w w1 b h
  simp at h

theorem tracks_yyerror {α : Type} (T : List String) (msg : String) :
    Tracks T (yyerror msg : Compile α) := by
  intro w w1 b h
  simp at h

theorem tracks_emit_plain (T : List String) (line : String)
    (hline : is_label_definition line = false) : Tracks T (Compile.emit line) := by
  intro w w1 b h
  simp only [Compile.emit_run, Prod.mk.injEq, Except.ok.injEq] at h
  obtain ⟨-, rfl⟩ := h
  exact ⟨le_refl _, [line], rfl, LL_cons_plain line hline (LL_nil _ _)⟩

theorem tracks_emit_loop (line : String) : Tracks [line] (Compile.emit line) := by
  intro w w1 b h
  simp only [Compile.emit_run, Prod.mk.injEq, Except.ok.injEq] at h
  obtain ⟨-, rfl⟩ := h
  exact ⟨le_refl _, [line], rfl, LL_loop _ line⟩

theorem tracks_createEntry (T : List String) (in_type : Typenames) :
    Tracks T (Compile.createEntry in_type) := by
  intro w w1 b h
  simp only [Compile.createEntry_run, Prod.mk.injEq, Except.ok.injEq] at h
  obtain ⟨-, rfl⟩ := h
  exact ⟨le_refl _, [], by simp, LL_nil _ _⟩

theorem tracks_getNextLabel (T : List String) (label : String) :
    Tracks T (Compile.getNextLabel label) := by
  intro w w1 b h
  simp only [Compile.getNextLabel_run, Prod.mk.injEq, Except.ok.injEq] at h
  obtain ⟨-, rfl⟩ := h
  exact ⟨by simp [SymbolTable.getNextLabel], [], by simp, LL_nil _ _⟩

theorem tracks_weaken {α : Type} {T T' : List String} {m : Compile α} (h : Tracks T m)
    (hT : T.Subperm T') : Tracks T' m := by
  intro w w1 a hm
  obtain ⟨hmono, lines, hout, hll⟩ := h w w1 a hm
  exact ⟨hmono, lines, hout, LL_weaken hll hT (fun _ hk => hk)⟩

theorem tracks_bind {α β : Type} {T1 T2 : List String} (m : Compile α) (f : α → Compile β)
    (hm : Tracks T1 m) (hf : ∀ a, Tracks T2 (f a)) : Tracks (T1 ++ T2) (m >>= f) := by
  intro w w2 b h
  rw [Compile.bind_eq_ok] at h
  obtain ⟨a, w1, h1, h2⟩ := h
  obtain ⟨hmono1, lines1, hout1, hll1⟩ := hm w w1 a h1
  obtain ⟨hmono2, lines2, hout2, hll2⟩ := hf a w1 w2 b h2
  refine ⟨le_trans hmono1 hmono2, lines1 ++ lines2, by rw [hout2, hout1, List.append_assoc], ?_⟩
  refine LL_weaken (LL_append hll1 hll2 ?_) (List.Subperm.refl _) ?_
  · intro k hk1 hk2
    omega
  · intro k hk
    rcases hk with hk | hk
    · exact ⟨hk.1, le_trans hk.2 hmono2⟩
    · exact ⟨lt_of_le_of_lt hmono1 hk.1, hk.2⟩

theorem tracks_bind_nil {α β : Type} {T : List String} (m : Compile α) (f : α → Compile β)
    (hm : Tracks [] m) (hf : ∀ a, Tracks T (f a)) : Tracks T (m >>= f) :=
  tracks_bind m f hm hf

theorem tracks_bind_last {α β : Type} {T : List String} (m : Compile α) (f : α → Compile β)
    (hm : Tracks T m) (hf : ∀ a, Tracks [] (f a)) : Tracks T (m >>= f) := by
  have := tracks_bind m f hm hf
  rwa [List.append_nil] at this

theorem tracks_bind_render {β : Type} {T : List String} (p : Option TableEntry)
    (f : String → Compile β) (hf : ∀ n : Int, Tracks T (f ("s" ++ toString n))) :
    Tracks T (Compile.render p >>= f) := by
  intro w w2 b h
  rw [Compile.bind_eq_ok] at h
  obtain ⟨text, w1, h1, h2⟩ := h
  obtain ⟨hw, entry, -, hloc⟩ := render_eq_ok p w w1 text h1
  subst hw
  have htext : text = "s" ++ toString entry.location := by
    simp only [TableEntry.getLocation] at hloc
    split at hloc
    · simp only [Except.ok.injEq] at hloc
      exact hloc.symm
    · simp at hloc
  subst htext
  exact hf entry.location w1 w2 b h2

theorem render_eq_ok_iff (p : Option TableEntry) (w w1 : World) (text : String) :
    Compile.render p w = (.ok text, w1) ↔
      ∃ entry, p = some entry ∧
        (entry.type_id = Typenames.VAL ∨ entry.type_id = Typenames.CHAR) ∧
        text = "s" ++ toString entry.location ∧ w1 = w := by
  cases p with
  | none => simp [Compile.render]
  | some entry =>
    simp only [Compile.render, TableEntry.getLocation]
    by_cases h : entry.type_id = Typenames.VAL ∨ entry.type_id = Typenames.CHAR
    · simp only [h, if_true, Compile.ret_run, Prod.mk.injEq, Except.ok.injEq, Option.some.injEq]
      constructor
      · rintro ⟨rfl, rfl⟩
        exact ⟨entry, rfl, h, rfl, rfl⟩
      · rintro ⟨e, rfl, -, rfl, rfl⟩
        exact ⟨rfl, rfl⟩
    · simp only [h, if_false, Compile.fail_run, Prod.mk.injEq, reduceCtorEq, false_and,
        false_iff, not_exists, not_and]
      rintro e he hk
      simp only [Option.some.injEq] at he
      subst he
      exact absurd hk h

theorem bind_emit {β : Type} (line : String) (f : Unit → Compile β) (w : World) :
    (Compile.emit line >>= f) w = f () { w with fout := w.fout ++ [line] } := rfl

theorem bind_createEntry {β : Type} (in_type : Typenames) (f : TableEntry → Compile β)
    (w : World) :
    (Compile.createEntry in_type >>= f) w =
      f ⟨in_type, "", w.table.location_allotment + 1⟩
        { w with table := (w.table.createEntry in_type).2 } := rfl

theorem bind_getNextLabel {β : Type} (label : String) (f : String → Compile β) (w : World) :
    (Compile.getNextLabel label >>= f) w =
      f (label ++ "_" ++ toString (w.table.label_allotment + 1))
        { w with table := (w.table.getNextLabel label).2 } := rfl

theorem bind_render_val {β : Type} (name : String) (location : Int) (f : String → Compile β)
    (w : World) :
    (Compile.render (some ⟨Typenames.VAL, name, location⟩) >>= f) w =
      f ("s" ++ toString location) w := rfl


theorem tracks_BoolAnd (in1 in2 : ASTNode) (T1 T2 : List String)
    (ih1 : Tracks T1 in1.process) (ih2 : Tracks T2 in2.process) :
    Tracks (T1 ++ T2) (ASTNode.BoolAnd in1 in2).process := by
  intro w w3 r hp
  simp only [ASTNode.process, bind_emit, bind_createEntry, bind_getNextLabel, bind_render_val,
    Compile.bind_eq_ok, render_eq_ok_iff, Compile.pure_run, Prod.mk.injEq, Except.ok.injEq] at hp
  obtain ⟨a1, w1, h1, tx1, wx, ⟨e1, rfl, hk1, rfl, rfl⟩, a2, w2, h2, tx2, wy,
    ⟨e2, rfl, hk2, rfl, rfl⟩, -, rfl⟩ := hp
  obtain ⟨hmono1, lines1, hout1, hll1⟩ := ih1 _ _ _ h1
  obtain ⟨hmono2, lines2, hout2, hll2⟩ := ih2 _ _ _ h2
  simp only [createEntry_label, getNextLabel_label] at hmono2 hll2 hout2 ⊢
  simp only [] at hmono1 hll1 hout1
  refine ⟨by omega, "# Process And" :: (lines1 ++
    ("test_nequ " ++ ("s" ++ toString e1.location) ++ " 0 " ++
        ("s" ++ toString (w1.table.location_allotment + 1))) ::
    ("jump_if_0 " ++ ("s" ++ toString (w1.table.location_allotment + 1)) ++ " " ++
        ("And_ShortCircut_" ++ "_" ++ toString (w1.table.label_allotment + 1))) ::
    (lines2 ++
      [("test_nequ " ++ ("s" ++ toString e2.location) ++ " 0 " ++
        ("s" ++ toString (w1.table.location_allotment + 1))),
       ("And_ShortCircut_" ++ "_" ++ toString (w1.table.label_allotment + 1)) ++ ":"])), ?_, ?_⟩
  · rw [hout2, hout1]
    simp
  · refine LL_cons_plain _ (by decide) ?_
    refine LL_weaken (LL_append hll1 (LL_cons_plain _ (not_label_of_number _ _ _)
      (LL_cons_plain _ (not_label_of_number _ _ _)
        (LL_append hll2 (LL_cons_plain _ (not_label_of_number _ _ _)
          (LL_counter [] "And_ShortCircut_" (w1.table.label_allotment + 1) rfl)) ?_))) ?_) ?_ ?_
    · intro k hk1 hk2
      have : w1.table.label_allotment + 1 = k := hk2
      omega
    · intro k hk1 hk2
      rcases hk2 with hk2 | hk2
      · omega
      · have : w1.table.label_allotment + 1 = k := hk2
        omega
    · simp only [List.append_nil]
      exact List.Subperm.refl _
    · intro k hk
      rcases hk with hk | hk | hk
      · exact ⟨hk.1, by omega⟩
      · exact ⟨by omega, hk.2⟩
      · have : w1.table.label_allotment + 1 = k := hk
        exact ⟨by omega, by omega⟩

theorem tracks_BoolOr (in1 in2 : ASTNode) (T1 T2 : List String)
    (ih1 : Tracks T1 in1.process) (ih2 : Tracks T2 in2.process) :
    Tracks (T1 ++ T2) (ASTNode.BoolOr in1 in2).process := by
  intro w w3 r hp
  simp only [ASTNode.process, bind_emit, bind_createEntry, bind_getNextLabel, bind_render_val,
    Compile.bind_eq_ok, render_eq_ok_iff, Compile.pure_run, Prod.mk.injEq, Except.ok.injEq] at hp
  obtain ⟨a1, w1, h1, tx1, wx, ⟨e1, rfl, hk1, rfl, rfl⟩, a2, w2, h2, tx2, wy,
    ⟨e2, rfl, hk2, rfl, rfl⟩, -, rfl⟩ := hp
  obtain ⟨hmono1, lines1, hout1, hll1⟩ := ih1 _ _ _ h1
  obtain ⟨hmono2, lines2, hout2, hll2⟩ := ih2 _ _ _ h2
  simp only [createEntry_label, getNextLabel_label] at hmono2 hll2 hout2 ⊢
  simp only [] at hmono1 hll1 hout1
  refine ⟨by omega, "# Process Or" :: (lines1 ++
    ("test_nequ " ++ ("s" ++ toString e1.location) ++ " 0 " ++
        ("s" ++ toString (w1.table.location_allotment + 1))) ::
    ("jump_if_n0 " ++ ("s" ++ toString (w1.table.location_allotment + 1)) ++ " " ++
        ("Or_ShortCircuit_" ++ "_" ++ toString (w1.table.label_allotment + 1))) ::
    (lines2 ++
      [("test_nequ " ++ ("s" ++ toString e2.location) ++ " 0 " ++
        ("s" ++ toString (w1.table.location_allotment + 1))),
       ("Or_ShortCircuit_" ++ "_" ++ toString (w1.table.label_allotment + 1)) ++ ":"])), ?_, ?_⟩
  · rw [hout2, hout1]
    simp
  · refine LL_cons_plain _ (by decide) ?_
    refine LL_weaken (LL_append hll1 (LL_cons_plain _ (not_label_of_number _ _ _)
      (LL_cons_plain _ (not_label_of_number _ _ _)
        (LL_append hll2 (LL_cons_plain _ (not_label_of_number _ _ _)
          (LL_counter [] "Or_ShortCircuit_" (w1.table.label_allotment + 1) rfl)) ?_))) ?_) ?_ ?_
    · intro k hk1 hk2
      have : w1.table.label_allotment + 1 = k := hk2
      omega
    · intro k hk1 hk2
      rcases hk2 with hk2 | hk2
      · omega
      · have : w1.table.label_allotment + 1 = k := hk2
        omega
    · simp only [List.append_nil]
      exact List.Subperm.refl _
    · intro k hk
      rcases hk with hk | hk | hk
      · exact ⟨hk.1, by omega⟩
      · exact ⟨by omega, hk.2⟩
      · have : w1.table.label_allotment + 1 = k := hk
        exact ⟨by omega, by omega⟩

theorem tracks_If_none (cond if_statement : ASTNode) (T1 T2 : List String)
    (ih1 : Tracks T1 cond.process) (ih2 : Tracks T2 if_statement.process) :
    Tracks (T1 ++ T2) (ASTNode.If cond if_statement none).process := by
  intro w w3 r hp
  simp only [ASTNode.process, bind_emit, bind_createEntry, bind_getNextLabel, bind_render_val,
    Compile.bind_eq_ok, render_eq_ok_iff, Compile.pure_run, Prod.mk.injEq, Except.ok.injEq] at hp
  obtain ⟨a1, w1, h1, tx1, wx, ⟨e1, rfl, hk1, rfl, rfl⟩, a2, w2, h2, -, rfl⟩ := hp
  obtain ⟨hmono1, lines1, hout1, hll1⟩ := ih1 _ _ _ h1
  obtain ⟨hmono2, lines2, hout2, hll2⟩ := ih2 _ _ _ h2
  simp only [createEntry_label, getNextLabel_label] at hmono2 hll2 hout2 ⊢
  simp only [] at hmono1 hll1 hout1
  refine ⟨by omega, "# Process If" :: (lines1 ++
    ("jump_if_0 " ++ ("s" ++ toString e1.location) ++ " " ++
        ("else_start_" ++ "_" ++ toString (w1.table.label_allotment + 1))) ::
    "#If True Statement" ::
    (lines2 ++
      ("jump " ++ ("else_end_" ++ "_" ++ toString (w2.table.label_allotment + 1))) ::
      ([("else_start_" ++ "_" ++ toString (w1.table.label_allotment + 1)) ++ ":"] ++
       ("#If False Statement" ::
        [("else_end_" ++ "_" ++ toString (w2.table.label_allotment + 1)) ++ ":"])))), ?_, ?_⟩
  · rw [hout2, hout1]
    simp
  · refine LL_cons_plain _ (by decide) ?_
    refine LL_weaken (LL_append hll1 (LL_cons_plain _ (not_label_of_number _ _ _)
      (LL_cons_plain _ (by decide)
        (LL_append hll2 (LL_cons_plain _ (not_label_of_number _ _ _)
          (LL_append (LL_counter [] "else_start_" (w1.table.label_allotment + 1) rfl)
            (LL_cons_plain _ (by decide)
              (LL_counter [] "else_end_" (w2.table.label_allotment + 1) rfl)) ?_)) ?_))) ?_)
      ?_ ?_
    · intro k hk1 hk2
      simp only [] at hk1 hk2
      omega
    · intro k hk1 hk2
      simp only [] at hk1 hk2
      omega
    · intro k hk1 hk2
      simp only [] at hk1 hk2
      omega
    · simp only [List.append_nil]
      exact List.Subperm.refl _
    · intro k hk
      simp only [] at hk
      omega

theorem tracks_If_some (cond if_statement other : ASTNode) (T1 T2 T3 : List String)
    (ih1 : Tracks T1 cond.process) (ih2 : Tracks T2 if_statement.process)
    (ih3 : Tracks T3 other.process) :
    Tracks (T1 ++ (T2 ++ T3)) (ASTNode.If cond if_statement (some other)).process := by
  intro w w4 r hp
  simp only [ASTNode.process, bind_emit, bind_createEntry, bind_getNextLabel, bind_render_val,
    Compile.bind_eq_ok, render_eq_ok_iff, Compile.pure_run, Prod.mk.injEq, Except.ok.injEq] at hp
  obtain ⟨a1, w1, h1, tx1, wx, ⟨e1, rfl, hk1, rfl, rfl⟩, a2, w2, h2, a3, w3, h3, -, rfl⟩ := hp
  obtain ⟨hmono1, lines1, hout1, hll1⟩ := ih1 _ _ _ h1
  obtain ⟨hmono2, lines2, hout2, hll2⟩ := ih2 _ _ _ h2
  obtain ⟨hmono3, lines3, hout3, hll3⟩ := ih3 _ _ _ h3
  simp only [createEntry_label, getNextLabel_label] at hmono2 hll2 hout2 hmono3 hll3 hout3 ⊢
  simp only [] at hmono1 hll1 hout1
  refine ⟨by omega, "# Process If" :: (lines1 ++
    ("jump_if_0 " ++ ("s" ++ toString e1.location) ++ " " ++
        ("else_start_" ++ "_" ++ toString (w1.table.label_allotment + 1))) ::
    "#If True Statement" ::
    (lines2 ++
      ("jump " ++ ("else_end_" ++ "_" ++ toString (w2.table.label_allotment + 1))) ::
      ([("else_start_" ++ "_" ++ toString (w1.table.label_allotment + 1)) ++ ":"] ++
       ("#If False Statement" ::
        (lines3 ++
          [("else_end_" ++ "_" ++ toString (w2.table.label_allotment + 1)) ++ ":"]))))), ?_, ?_⟩
  · rw [hout3, hout2, hout1]
    simp
  · refine LL_cons_plain _ (by decide) ?_
    refine LL_weaken (LL_append hll1 (LL_cons_plain _ (not_label_of_number _ _ _)
      (LL_cons_plain _ (by decide)
        (LL_append hll2 (LL_cons_plain _ (not_label_of_number _ _ _)
          (LL_append (LL_counter [] "else_start_" (w1.table.label_allotment + 1) rfl)
            (LL_cons_plain _ (by decide)
              (LL_append hll3
                (LL_counter [] "else_end_" (w2.table.label_allotment + 1) rfl) ?_)) ?_)) ?_)))
      ?_) ?_ ?_
    · intro k hk1 hk2
      simp only [] at hk1 hk2
      omega
    · intro k hk1 hk2
      simp only [] at hk1 hk2
      omega
    · intro k hk1 hk2
      simp only [] at hk1 hk2
      omega
    · intro k hk1 hk2
      simp only [] at hk1 hk2
      omega
    · simp only [List.append_nil, List.nil_append]
      exact List.Subperm.refl _
    · intro k hk
      simp only [] at hk
      omega

theorem tracks_item_getType (T : List String) (item : Option TableEntry) :
    Tracks T (item_getType item) := by
  cases item with
  | none => exact tracks_fail T _
  | some entry => exact tracks_pure T _

theorem tracks_out_instruction_for (T : List String) (item_type : Typenames) :
    Tracks T (out_instruction_for item_type) := by
  unfold out_instruction_for
  split
  · exact tracks_pure T _
  · split
    · exact tracks_pure T _
    · exact tracks_yyerror T _

theorem tracks_copy_instruction_for (T : List String) (type : Typenames) :
    Tracks T (copy_instruction_for type) := by
  unfold copy_instruction_for
  split
  · exact tracks_pure T _
  · exact tracks_yyerror T _

theorem not_label_loop_end (x W : String) : is_label_definition (x ++ (W ++ "_end")) = false :=
  not_label_of_last x _ 'd' (by rw [String.data_append]; exact getLast?_append_some _ _ 'd' rfl)
    (by decide)

theorem not_label_loop_start (x W : String) :
    is_label_definition (x ++ (W ++ "_start")) = false :=
  not_label_of_last x _ 't' (by rw [String.data_append]; exact getLast?_append_some _ _ 't' rfl)
    (by decide)

mutual
theorem process_tracks : ∀ (node : ASTNode),
    Tracks (loop_lines node.while_labels) node.process
  | .Temp _ _ => by
    simp only [ASTNode.process]
    exact tracks_pure _ _
  | .Root children => by
    simp only [ASTNode.process, ASTNode.while_labels]
    exact tracks_bind_nil _ _ (tracks_emit_plain [] _ (by decide)) (fun _ =>
      tracks_bind_last _ _ (process_children_tracks children) (fun _ => tracks_pure _ _))
  | .Variable _ _ => by
    simp only [ASTNode.process, ASTNode.while_labels, loop_lines]
    exact tracks_bind_nil _ _ (tracks_emit_plain [] _ (by decide)) (fun _ => tracks_pure _ _)
  | .Literal type lexeme => by
    simp only [ASTNode.process, ASTNode.while_labels, loop_lines]
    split
    · exact tracks_bind_nil _ _ (tracks_createEntry [] _) (fun _ =>
        tracks_bind_render _ _ (fun _ =>
          tracks_bind_nil _ _ (tracks_emit_plain [] _ (not_label_of_number _ _ _)) (fun _ =>
            tracks_pure _ _)))
    · exact tracks_yyerror _ _
  | .Assign type lhs rhs => by
    simp only [ASTNode.process, ASTNode.while_labels, loop_lines_append]
    exact tracks_bind_nil _ _ (tracks_emit_plain [] _ (by decide)) (fun _ =>
      tracks_bind _ _ (process_tracks lhs) (fun _ =>
        tracks_bind_last _ _ (process_tracks rhs) (fun _ =>
          tracks_bind_nil _ _ (tracks_copy_instruction_for [] _) (fun _ =>
            tracks_bind_render _ _ (fun _ =>
              tracks_bind_render _ _ (fun _ =>
                tracks_bind_nil _ _ (tracks_emit_plain [] _ (not_label_of_number _ _ _))
                  (fun _ => tracks_pure _ _)))))))
  | .Math1_Minus child => by
    simp only [ASTNode.process, ASTNode.while_labels]
    exact tracks_bind_last _ _ (process_tracks child) (fun _ =>
      tracks_bind_nil _ _ (tracks_createEntry [] _) (fun _ =>
        tracks_bind_nil _ _ (tracks_emit_plain [] _ (by decide)) (fun _ =>
          tracks_bind_render _ _ (fun _ =>
            tracks_bind_render _ _ (fun _ =>
              tracks_bind_nil _ _ (tracks_emit_plain [] _ (not_label_of_number _ _ _))
                (fun _ => tracks_pure _ _))))))
  | .Math2 math_instruction in1 in2 => by
    simp only [ASTNode.process, ASTNode.while_labels, loop_lines_append]
    exact tracks_bind _ _ (process_tracks in1) (fun _ =>
      tracks_bind_last _ _ (process_tracks in2) (fun _ =>
        tracks_bind_nil _ _ (tracks_createEntry [] _) (fun _ =>
          tracks_bind_nil _ _ (tracks_emit_plain [] _ (not_label_of_comment _ _ rfl)) (fun _ =>
            tracks_bind_render _ _ (fun _ =>
              tracks_bind_render _ _ (fun _ =>
                tracks_bind_render _ _ (fun _ =>
                  tracks_bind_nil _ _ (tracks_emit_plain [] _ (not_label_of_number _ _ _))
                    (fun _ => tracks_pure _ _))))))))
  | .BoolAnd in1 in2 => by
    simp only [ASTNode.while_labels, loop_lines_append]
    exact tracks_BoolAnd in1 in2 _ _ (process_tracks in1) (process_tracks in2)
  | .BoolOr in1 in2 => by
    simp only [ASTNode.while_labels, loop_lines_append]
    exact tracks_BoolOr in1 in2 _ _ (process_tracks in1) (process_tracks in2)
  | .Print children => by
    simp only [ASTNode.process, ASTNode.while_labels]
    exact tracks_bind_nil _ _ (tracks_emit_plain [] _ (by decide)) (fun _ =>
      tracks_bind_last _ _ (process_print_tracks children) (fun _ =>
        tracks_bind_nil _ _ (tracks_emit_plain [] _ (by decide)) (fun _ => tracks_pure _ _)))
  | .Random inp => by
    simp only [ASTNode.process, ASTNode.while_labels]
    exact tracks_bind_nil _ _ (tracks_emit_plain [] _ (by decide)) (fun _ =>
      tracks_bind_last _ _ (process_tracks inp) (fun _ =>
        tracks_bind_nil _ _ (tracks_createEntry [] _) (fun _ =>
          tracks_bind_render _ _ (fun _ =>
            tracks_bind_render _ _ (fun _ =>
              tracks_bind_nil _ _ (tracks_emit_plain [] _ (not_label_of_number _ _ _))
                (fun _ => tracks_pure _ _))))))
  | .Not inp => by
    simp only [ASTNode.process, ASTNode.while_labels]
    exact tracks_bind_nil _ _ (tracks_emit_plain [] _ (by decide)) (fun _ =>
      tracks_bind_last _ _ (process_tracks inp) (fun _ =>
        tracks_bind_nil _ _ (tracks_createEntry [] _) (fun _ =>
          tracks_bind_render _ _ (fun _ =>
            tracks_bind_render _ _ (fun _ =>
              tracks_bind_nil _ _ (tracks_emit_plain [] _ (not_label_of_number _ _ _))
                (fun _ => tracks_pure _ _))))))
  | .If cond if_statement none => by
    simp only [ASTNode.while_labels, loop_lines_append, loop_lines, List.append_nil]
    exact tracks_If_none cond if_statement _ _ (process_tracks cond)
      (process_tracks if_statement)
  | .If cond if_statement (some other) => by
    simp only [ASTNode.while_labels, loop_lines_append]
    exact tracks_If_some cond if_statement other _ _ _ (process_tracks cond)
      (process_tracks if_statement) (process_tracks other)
  | .While while_label cond statement => by
    simp only [ASTNode.process, ASTNode.while_labels, loop_lines, loop_lines_append]
    refine tracks_weaken
      (tracks_bind_nil _ _ (tracks_emit_plain [] _ (by decide)) (fun _ =>
        tracks_bind _ _ (tracks_emit_loop _) (fun _ =>
          tracks_bind _ _ (process_tracks cond) (fun _ =>
            tracks_bind_render _ _ (fun _ =>
              tracks_bind_nil _ _ (tracks_emit_plain [] _ (not_label_loop_end _ _)) (fun _ =>
                tracks_bind _ _ (process_tracks statement) (fun _ =>
                  tracks_bind_nil _ _ (tracks_emit_plain [] _ (not_label_loop_start _ _))
                    (fun _ =>
                      tracks_bind_last _ _ (tracks_emit_loop _) (fun _ =>
                        tracks_pure _ _)))))))))
      ?_
    refine List.Perm.subperm ?_
    simp only [List.singleton_append]
    refine List.Perm.cons _ ?_
    rw [← List.append_assoc]
    exact List.perm_append_singleton _ _
  | .Break _ => by
    simp only [ASTNode.process, ASTNode.while_labels, loop_lines]
    exact tracks_bind_nil _ _ (tracks_emit_plain [] _ (by decide)) (fun _ =>
      tracks_bind_nil _ _ (tracks_emit_plain [] _ (not_label_of_last _ _ 'd' rfl (by decide)))
        (fun _ => tracks_pure _ _))
  | .Continue _ => by
    simp only [ASTNode.process, ASTNode.while_labels, loop_lines]
    exact tracks_bind_nil _ _ (tracks_emit_plain [] _ (by decide)) (fun _ =>
      tracks_bind_nil _ _ (tracks_emit_plain [] _ (not_label_of_last _ _ 't' rfl (by decide)))
        (fun _ => tracks_pure _ _))
theorem process_children_tracks : ∀ (children : List ASTNode),
    Tracks (loop_lines (ASTNode.while_labels_list children)) (ASTNode.process_children children)
  | [] => by
    simp only [ASTNode.process_children]
    exact tracks_pure _ _
  | child :: rest => by
    simp only [ASTNode.process_children, ASTNode.while_labels_list, loop_lines_append]
    exact tracks_bind _ _ (process_tracks child) (fun _ => process_children_tracks rest)
theorem process_print_tracks : ∀ (children : List ASTNode),
    Tracks (loop_lines (ASTNode.while_labels_list children)) (ASTNode.process_print children)
  | [] => by
    simp only [ASTNode.process_print]
    exact tracks_pure _ _
  | child :: rest => by
    simp only [ASTNode.process_print, ASTNode.while_labels_list, loop_lines_append]
    exact tracks_bind _ _ (process_tracks child) (fun _ =>
      tracks_bind_nil _ _ (tracks_item_getType [] _) (fun _ =>
        tracks_bind_nil _ _ (tracks_out_instruction_for [] _) (fun _ =>
          tracks_bind_render _ _ (fun _ =>
            tracks_bind_nil _ _ (tracks_emit_plain [] _ (not_label_of_number _ _ _)) (fun _ =>
              process_print_tracks rest)))))
end

/-- C20: when `process` of a tree whose `While` nodes carry pairwise different loop labels
succeeds, the records it has appended contain no label definition twice; each label definition
among them is either `<p>_<k>:` for a label counter value `k` issued during this `process`
(the labels of `If`, `BoolAnd` and `BoolOr`) or `<W>_start:` or `<W>_end:` for the loop label
`W` of a `While` node of the tree, and a definition of the first form is never equal to one
of the second. -/
theorem C20_label_definitions_distinct (root : ASTNode) (w w1 : World)
    (r : Option TableEntry) (hW : root.while_labels.Nodup)
    (hp : root.process w = (.ok r, w1)) :
    ∃ lines : List String, w1.fout = w.fout ++ lines ∧
      (lines.filter is_label_definition).Nodup ∧
      (∀ l ∈ lines.filter is_label_definition,
        (∃ (p : String) (k : Int), l = (p ++ "_" ++ toString k) ++ ":" ∧
          w.table.label_allotment < k ∧ k ≤ w1.table.label_allotment) ∨
        (∃ W ∈ root.while_labels, l = (W ++ "_start") ++ ":" ∨ l = (W ++ "_end") ++ ":")) ∧
      (∀ (p W : String) (k : Int),
        (p ++ "_" ++ toString k) ++ ":" ≠ (W ++ "_start") ++ ":" ∧
        (p ++ "_" ++ toString k) ++ ":" ≠ (W ++ "_end") ++ ":") := by
  obtain ⟨-, lines, hout, hll⟩ := process_tracks root w w1 r hp
  refine ⟨lines, hout, LL_nodup _ hll hW, ?_, counter_ne_loop⟩
  obtain ⟨cs, ls, hperm, hsub, -, hform⟩ := hll
  intro l hl
  have hmem := hperm.subset hl
  rw [List.mem_append] at hmem
  rcases hmem with hmem | hmem
  · exact Or.inl (hform l hmem)
  · exact Or.inr (mem_loop_lines l _ (hsub.subset hmem))

/-- The loop `while (x) { if (x) break; }` with loop label `while_1`, processed on a table
whose label counter is 1. -/
theorem C20_label_definitions_distinct_witness :
    ∃ lines : List String,
      ["# Process While", "while_1_start:", "# Process Variable", "jump_if_0 s1 while_1_end",
       "# Process If", "# Process Variable", "jump_if_0 s1 else_start__2",
       "#If True Statement", "# Process Break", "jump while_1_end",
       "jump else_end__3", "else_start__2:", "#If False Statement", "else_end__3:",
       "jump while_1_start", "while_1_end:"] = [] ++ lines ∧
      (lines.filter is_label_definition).Nodup :=
  Exists.elim
    (C20_label_definitions_distinct
      (.While "while_1" (.Variable .VAL ⟨.VAL, "x", 1⟩)
        (.If (.Variable .VAL ⟨.VAL, "x", 1⟩) (.Break "while_1") none))
      ⟨⟨[[]], [], 1, 1, []⟩, []⟩
      ⟨⟨[[]], [], 1, 3, []⟩,
        ["# Process While", "while_1_start:", "# Process Variable", "jump_if_0 s1 while_1_end",
         "# Process If", "# Process Variable", "jump_if_0 s1 else_start__2",
         "#If True Statement", "# Process Break", "jump while_1_end",
         "jump else_end__3", "else_start__2:", "#If False Statement", "else_end__3:",
         "jump while_1_start", "while_1_end:"]⟩
      none (by decide) rfl)
    (fun lines h => ⟨lines, h.1, h.2.1⟩)

/-! ## Print -/

theorem process_print_run (children : List ASTNode) (w w2 : World)
    (h : PrintRun children w w2) : ASTNode.process_print children w = (.ok (), w2) := by
  induction h with
  | nil w => simp [ASTNode.process_print]
  | cons child rest w w1 w2 item out_instruction hp hkind _ ih =>
    simp only [ASTNode.process_print]
    rw [Compile.bind_ok _ _ _ _ _ hp]
    have hty : item_getType (some item) w1 = (.ok item.getType, w1) := rfl
    rw [Compile.bind_ok _ _ _ _ _ hty]
    have hout : out_instruction_for item.getType w1 = (.ok out_instruction, w1) := by
      rcases hkind with ⟨hk, rfl⟩ | ⟨hk, rfl⟩ <;> simp [out_instruction_for, hk]
    rw [Compile.bind_ok _ _ _ _ _ hout]
    have hk : item.type_id = Typenames.VAL ∨ item.type_id = Typenames.CHAR := by
      rcases hkind with ⟨hk, -⟩ | ⟨hk, -⟩
      · exact Or.inl hk
      · exact Or.inr hk
    rw [Compile.bind_ok _ _ _ _ _ (render_some_run item _ hk)]
    rw [Compile.bind_ok _ _ _ _ _ (Compile.emit_run _ _)]
    exact ih

/-- C16: when the items of a `Print` node process in order, each to a slot of kind `VAL` or
`CHAR`, `process` writes its comment, then for each item the code of the item and the record
`out_val <slot>` or `out_char <slot>` chosen by the kind of the slot, then the one record
`out_char '\n'`, and returns no slot; the table is only changed by the items; with no items
the comment and the newline record are written; `print 3 + 4;` on the initial table gives
`val_copy 3 s1`, `val_copy 4 s2`, `add s1 s2 s3`, `out_val s3`, `out_char '\n'` between the
comments. -/
theorem C16_Print_process :
    (∀ (children : List ASTNode) (w w2 : World),
      PrintRun children { w with fout := w.fout ++ ["# Process Print"] } w2 →
      (ASTNode.Print children).process w =
        (.ok none, { table := w2.table, fout := w2.fout ++ ["out_char '\\n'"] })) ∧
    (∀ w : World, (ASTNode.Print []).process w =
      (.ok none, { table := w.table,
                   fout := w.fout ++ ["# Process Print", "out_char '\\n'"] })) ∧
    ((ASTNode_Math2 (.Literal .VAL "3") (.Literal .VAL "4") "+" ⟨SymbolTable.init, []⟩).1
        = .ok (.Math2 "add" (.Literal .VAL "3") (.Literal .VAL "4")) ∧
      (ASTNode_Print ⟨SymbolTable.init, []⟩).1 = .ok (.Print []) ∧
      (ASTNode.Print []).addChild (.Math2 "add" (.Literal .VAL "3") (.Literal .VAL "4"))
        = .Print [.Math2 "add" (.Literal .VAL "3") (.Literal .VAL "4")] ∧
      ((ASTNode.Print [.Math2 "add" (.Literal .VAL "3") (.Literal .VAL "4")]).process
          ⟨SymbolTable.init, []⟩).2.fout
        = ["# Process Print", "val_copy 3 s1", "val_copy 4 s2", "# Math2 add", "add s1 s2 s3",
           "out_val s3", "out_char '\\n'"] ∧
      (((ASTNode.Print [.Math2 "add" (.Literal .VAL "3") (.Literal .VAL "4")]).process
          ⟨SymbolTable.init, []⟩).2.fout.filter fun line => !(is_comment line))
        = ["val_copy 3 s1", "val_copy 4 s2", "add s1 s2 s3", "out_val s3", "out_char '\\n'"] ∧
      ((ASTNode.Print [.Math2 "add" (.Literal .VAL "3") (.Literal .VAL "4")]).process
          ⟨SymbolTable.init, []⟩).1 = .ok none) := by
  refine ⟨?_, ?_, rfl, rfl, rfl, by decide, by decide, rfl⟩
  · intro children w w2 h
    simp only [ASTNode.process]
    rw [Compile.bind_ok _ _ _ _ _ (Compile.emit_run _ _)]
    rw [Compile.bind_ok _ _ _ _ _ (process_print_run _ _ _ h)]
    rw [Compile.bind_ok _ _ _ _ _ (Compile.emit_run _ _)]
    rfl
  · intro w
    simp only [ASTNode.process, ASTNode.process_print]
    rw [Compile.bind_ok _ _ _ _ _ (Compile.emit_run _ _)]
    rw [Compile.bind_ok _ _ _ _ _ (Compile.pure_run _ _)]
    rw [Compile.bind_ok _ _ _ _ _ (Compile.emit_run _ _)]
    simp

/-- The statement `print x, c;` with a `VAL` variable `x` and a `CHAR` variable `c`. -/
theorem C16_Print_process_witness :
    (ASTNode.Print [.Variable .VAL ⟨.VAL, "x", 1⟩, .Variable .CHAR ⟨.CHAR, "c", 2⟩]).process
        ⟨⟨[[]], [], 2, 0, []⟩, []⟩ =
      (.ok none,
       { table := ⟨[[]], [], 2, 0, []⟩,
         fout := ["# Process Print", "# Process Variable", "out_val s1", "# Process Variable",
           "out_char s2"] ++ ["out_char '\\n'"] }) :=
  C16_Print_process.1
    [.Variable .VAL ⟨.VAL, "x", 1⟩, .Variable .CHAR ⟨.CHAR, "c", 2⟩]
    ⟨⟨[[]], [], 2, 0, []⟩, []⟩
    ⟨⟨[[]], [], 2, 0, []⟩, ["# Process Print", "# Process Variable", "out_val s1",
      "# Process Variable", "out_char s2"]⟩
    (PrintRun.cons _ _ _
      ⟨⟨[[]], [], 2, 0, []⟩, ["# Process Print", "# Process Variable"]⟩ _ ⟨.VAL, "x", 1⟩
      "out_val" rfl (Or.inl ⟨rfl, rfl⟩)
      (PrintRun.cons _ _ _
        ⟨⟨[[]], [], 2, 0, []⟩, ["# Process Print", "# Process Variable", "out_val s1",
          "# Process Variable"]⟩ _ ⟨.CHAR, "c", 2⟩
        "out_char" rfl (Or.inr ⟨rfl, rfl⟩) (PrintRun.nil _)))

/-! ## The form of the labels -/

theorem counter_form_check (p s : String) (n : Int) (h : (p ++ toString n) ++ ":" = s) :
    (decide (s.data.take p.data.length = p.data) &&
      ((s.data.drop p.data.length).dropLast.all fun c => decide (c ∈ "-0123456789".data)))
      = true := by
  subst h
  simp only [String.data_append, List.append_assoc, List.take_left', List.drop_left',
    decide_True, Bool.true_and, List.all_eq_true, decide_eq_true_eq]
  intro c hc
  rw [List.dropLast_concat] at hc
  exact int_toString_mem n c hc

set_option maxRecDepth 100000 in
/-- C17, counterexample: an `If` processed while the label counter is 1 writes the label
definitions `else_start__2:` and `else_end__3:`, and a `BoolAnd` processed while it is 0
writes `And_ShortCircut__1:`, each with two underscores before the number; no record of the
output is `else_start_<n>:`, `else_end_<n>:` or `And_ShortCircut_<n>:` for any number `n`. -/
theorem C17_counterexample :
    (ASTNode.If (.Variable .VAL ⟨.VAL, "x", 1⟩) (.Break "while_1") none).process
        ⟨⟨[[]], [], 1, 1, ["while_1"]⟩, []⟩ =
      (.ok none,
       ⟨⟨[[]], [], 1, 3, ["while_1"]⟩,
        ["# Process If", "# Process Variable", "jump_if_0 s1 else_start__2",
         "#If True Statement", "# Process Break", "jump while_1_end", "jump else_end__3",
         "else_start__2:", "#If False Statement", "else_end__3:"]⟩) ∧
    (ASTNode.BoolAnd (.Variable .VAL ⟨.VAL, "x", 1⟩) (.Variable .VAL ⟨.VAL, "x", 1⟩)).process
        ⟨⟨[[]], [], 1, 0, []⟩, []⟩ =
      (.ok (some ⟨.VAL, "", 2⟩),
       ⟨⟨[[]], [⟨.VAL, "", 2⟩], 2, 1, []⟩,
        ["# Process And", "# Process Variable", "test_nequ s1 0 s2",
         "jump_if_0 s2 And_ShortCircut__1", "# Process Variable", "test_nequ s1 0 s2",
         "And_ShortCircut__1:"]⟩) ∧
    ∀ n : Int,
      ("else_start_" ++ toString n) ++ ":" ∉
        ((ASTNode.If (.Variable .VAL ⟨.VAL, "x", 1⟩) (.Break "while_1") none).process
          ⟨⟨[[]], [], 1, 1, ["while_1"]⟩, []⟩).2.fout ∧
      ("else_end_" ++ toString n) ++ ":" ∉
        ((ASTNode.If (.Variable .VAL ⟨.VAL, "x", 1⟩) (.Break "while_1") none).process
          ⟨⟨[[]], [], 1, 1, ["while_1"]⟩, []⟩).2.fout ∧
      ("And_ShortCircut_" ++ toString n) ++ ":" ∉
        ((ASTNode.BoolAnd (.Variable .VAL ⟨.VAL, "x", 1⟩)
            (.Variable .VAL ⟨.VAL, "x", 1⟩)).process ⟨⟨[[]], [], 1, 0, []⟩, []⟩).2.fout := by
  refine ⟨rfl, rfl, fun n => ⟨?_, ?_, ?_⟩⟩
  · intro hmem
    have hall : ∀ s ∈ ((ASTNode.If (.Variable .VAL ⟨.VAL, "x", 1⟩) (.Break "while_1") none).process
          ⟨⟨[[]], [], 1, 1, ["while_1"]⟩, []⟩).2.fout,
        (decide (s.data.take "else_start_".data.length = "else_start_".data) &&
          ((s.data.drop "else_start_".data.length).dropLast.all
            fun c => decide (c ∈ "-0123456789".data))) = false := by decide
    have := counter_form_check "else_start_" _ n rfl
    rw [hall _ hmem] at this
    exact Bool.noConfusion this
  · intro hmem
    have hall : ∀ s ∈ ((ASTNode.If (.Variable .VAL ⟨.VAL, "x", 1⟩) (.Break "while_1") none).process
          ⟨⟨[[]], [], 1, 1, ["while_1"]⟩, []⟩).2.fout,
        (decide (s.data.take "else_end_".data.length = "else_end_".data) &&
          ((s.data.drop "else_end_".data.length).dropLast.all
            fun c => decide (c ∈ "-0123456789".data))) = false := by decide
    have := counter_form_check "else_end_" _ n rfl
    rw [hall _ hmem] at this
    exact Bool.noConfusion this
  · intro hmem
    have hall : ∀ s ∈ ((ASTNode.BoolAnd (.Variable .VAL ⟨.VAL, "x", 1⟩)
            (.Variable .VAL ⟨.VAL, "x", 1⟩)).process ⟨⟨[[]], [], 1, 0, []⟩, []⟩).2.fout,
        (decide (s.data.take "And_ShortCircut_".data.length = "And_ShortCircut_".data) &&
          ((s.data.drop "And_ShortCircut_".data.length).dropLast.all
            fun c => decide (c ∈ "-0123456789".data))) = false := by decide
    have := counter_form_check "And_ShortCircut_" _ n rfl
    rw [hall _ hmem] at this
    exact Bool.noConfusion this

/-- C17, amended: a label is the text passed to `getNextLabel`, an underscore and the
pre-incremented label counter; `push_to_while_stack` passes `while` and pushes `while_<n>`;
`BoolAnd`, `BoolOr` and `If` pass texts that already end in an underscore, so whenever one of
them processes, the jump it writes names and the label definition it writes defines
`And_ShortCircut__<n>`, `Or_ShortCircuit__<n>`, `else_start__<n>` and `else_end__<m>`, with two
underscores before the number, where `n` and `m` are values the label counter takes during
the processing of the node. -/
theorem C17_label_forms :
    (∀ t : SymbolTable, t.push_to_while_stack.while_stack
      = t.while_stack ++ ["while_" ++ toString (t.label_allotment + 1)]) ∧
    (∀ (in1 in2 : ASTNode) (w w3 : World) (r : Option TableEntry),
      (ASTNode.BoolAnd in1 in2).process w = (.ok r, w3) →
      ∃ (n : Int) (slot : String) (code1 code2 : List String),
        w.table.label_allotment < n ∧ n ≤ w3.table.label_allotment ∧
        w3.fout = w.fout ++ code1 ++
          ["jump_if_0 " ++ slot ++ " " ++ ("And_ShortCircut__" ++ toString n)] ++ code2 ++
          [("And_ShortCircut__" ++ toString n) ++ ":"]) ∧
    (∀ (in1 in2 : ASTNode) (w w3 : World) (r : Option TableEntry),
      (ASTNode.BoolOr in1 in2).process w = (.ok r, w3) →
      ∃ (n : Int) (slot : String) (code1 code2 : List String),
        w.table.label_allotment < n ∧ n ≤ w3.table.label_allotment ∧
        w3.fout = w.fout ++ code1 ++
          ["jump_if_n0 " ++ slot ++ " " ++ ("Or_ShortCircuit__" ++ toString n)] ++ code2 ++
          [("Or_ShortCircuit__" ++ toString n) ++ ":"]) ∧
    (∀ (cond if_statement : ASTNode) (else_statement : Option ASTNode) (w w4 : World)
      (r : Option TableEntry),
      (ASTNode.If cond if_statement else_statement).process w = (.ok r, w4) →
      ∃ (n m : Int) (slot : String) (code1 code2 code3 : List String),
        w.table.label_allotment < n ∧ n < m ∧ m ≤ w4.table.label_allotment ∧
        w4.fout = w.fout ++ code1 ++
          ["jump_if_0 " ++ slot ++ " " ++ ("else_start__" ++ toString n)] ++ code2 ++
          ["jump " ++ ("else_end__" ++ toString m), ("else_start__" ++ toString n) ++ ":"] ++
          code3 ++ [("else_end__" ++ toString m) ++ ":"]) := by
  refine ⟨fun t => rfl, ?_, ?_, ?_⟩
  · intro in1 in2 w w3 r hp
    simp only [ASTNode.process, bind_emit, bind_createEntry, bind_getNextLabel, bind_render_val,
      Compile.bind_eq_ok, render_eq_ok_iff, Compile.pure_run, Prod.mk.injEq,
      Except.ok.injEq] at hp
    obtain ⟨a1, w1, h1, tx1, wx, ⟨e1, rfl, hk1, rfl, rfl⟩, a2, w2, h2, tx2, wy,
      ⟨e2, rfl, hk2, rfl, rfl⟩, -, rfl⟩ := hp
    obtain ⟨-, hm1, lines1, hout1⟩ := process_appends _ _ _ _ h1
    obtain ⟨-, hm2, lines2, hout2⟩ := process_appends _ _ _ _ h2
    simp only [createEntry_label, getNextLabel_label] at hm2 hout2 ⊢
    simp only [] at hm1 hout1
    refine ⟨w1.table.label_allotment + 1, "s" ++ toString (w1.table.location_allotment + 1),
      "# Process And" :: (lines1 ++ ["test_nequ " ++ ("s" ++ toString e1.location) ++ " 0 " ++
        ("s" ++ toString (w1.table.location_allotment + 1))]),
      lines2 ++ ["test_nequ " ++ ("s" ++ toString e2.location) ++ " 0 " ++
        ("s" ++ toString (w1.table.location_allotment + 1))], by omega, by omega, ?_⟩
    rw [hout2, hout1]
    simp only [List.append_assoc, List.cons_append, List.nil_append, List.singleton_append]
    rfl
  · intro in1 in2 w w3 r hp
    simp only [ASTNode.process, bind_emit, bind_createEntry, bind_getNextLabel, bind_render_val,
      Compile.bind_eq_ok, render_eq_ok_iff, Compile.pure_run, Prod.mk.injEq,
      Except.ok.injEq] at hp
    obtain ⟨a1, w1, h1, tx1, wx, ⟨e1, rfl, hk1, rfl, rfl⟩, a2, w2, h2, tx2, wy,
      ⟨e2, rfl, hk2, rfl, rfl⟩, -, rfl⟩ := hp
    obtain ⟨-, hm1, lines1, hout1⟩ := process_appends _ _ _ _ h1
    obtain ⟨-, hm2, lines2, hout2⟩ := process_appends _ _ _ _ h2
    simp only [createEntry_label, getNextLabel_label] at hm2 hout2 ⊢
    simp only [] at hm1 hout1
    refine ⟨w1.table.label_allotment + 1, "s" ++ toString (w1.table.location_allotment + 1),
      "# Process Or" :: (lines1 ++ ["test_nequ " ++ ("s" ++ toString e1.location) ++ " 0 " ++
        ("s" ++ toString (w1.table.location_allotment + 1))]),
      lines2 ++ ["test_nequ " ++ ("s" ++ toString e2.location) ++ " 0 " ++
        ("s" ++ toString (w1.table.location_allotment + 1))], by omega, by omega, ?_⟩
    rw [hout2, hout1]
    simp only [List.append_assoc, List.cons_append, List.nil_append, List.singleton_append]
    rfl
  · intro cond if_statement else_statement w w4 r hp
    cases else_statement with
    | none =>
      simp only [ASTNode.process, bind_emit, bind_createEntry, bind_getNextLabel,
        bind_render_val, Compile.bind_eq_ok, render_eq_ok_iff, Compile.pure_run, Prod.mk.injEq,
        Except.ok.injEq] at hp
      obtain ⟨a1, w1, h1, tx1, wx, ⟨e1, rfl, hk1, rfl, rfl⟩, a2, w2, h2, -, rfl⟩ := hp
      obtain ⟨-, hm1, lines1, hout1⟩ := process_appends _ _ _ _ h1
      obtain ⟨-, hm2, lines2, hout2⟩ := process_appends _ _ _ _ h2
      simp only [createEntry_label, getNextLabel_label] at hm2 hout2 ⊢
      simp only [] at hm1 hout1
      refine ⟨w1.table.label_allotment + 1, w2.table.label_allotment + 1,
        "s" ++ toString e1.location, "# Process If" :: lines1,
        "#If True Statement" :: lines2, ["#If False Statement"],
        by omega, by omega, by omega, ?_⟩
      rw [hout2, hout1]
      simp only [List.append_assoc, List.cons_append, List.nil_append, List.singleton_append]
      rfl
    | some other =>
      simp only [ASTNode.process, bind_emit, bind_createEntry, bind_getNextLabel,
        bind_render_val, Compile.bind_eq_ok, render_eq_ok_iff, Compile.pure_run, Prod.mk.injEq,
        Except.ok.injEq] at hp
      obtain ⟨a1, w1, h1, tx1, wx, ⟨e1, rfl, hk1, rfl, rfl⟩, a2, w2, h2, a3, w3, h3, -, rfl⟩ :=
        hp
      obtain ⟨-, hm1, lines1, hout1⟩ := process_appends _ _ _ _ h1
      obtain ⟨-, hm2, lines2, hout2⟩ := process_appends _ _ _ _ h2
      obtain ⟨-, hm3, lines3, hout3⟩ := process_appends _ _ _ _ h3
      simp only [createEntry_label, getNextLabel_label] at hm2 hout2 hm3 hout3 ⊢
      simp only [] at hm1 hout1
      refine ⟨w1.table.label_allotment + 1, w2.table.label_allotment + 1,
        "s" ++ toString e1.location, "# Process If" :: lines1,
        "#If True Statement" :: lines2, "#If False Statement" :: lines3,
        by omega, by omega, by omega, ?_⟩
      rw [hout3, hout2, hout1]
      simp only [List.append_assoc, List.cons_append, List.nil_append, List.singleton_append]
      rfl

/-- An `If` on a `VAL` variable whose branch is a `Break`, processed while the label counter
is 1. -/
theorem C17_label_forms_witness :
    ∃ (n m : Int) (slot : String) (code1 code2 code3 : List String),
      (1 : Int) < n ∧ n < m ∧ m ≤ 3 ∧
      ["# Process If", "# Process Variable", "jump_if_0 s1 else_start__2",
        "#If True Statement", "# Process Break", "jump while_1_end", "jump else_end__3",
        "else_start__2:", "#If False Statement", "else_end__3:"] = [] ++ code1 ++
        ["jump_if_0 " ++ slot ++ " " ++ ("else_start__" ++ toString n)] ++ code2 ++
        ["jump " ++ ("else_end__" ++ toString m), ("else_start__" ++ toString n) ++ ":"] ++
        code3 ++ [("else_end__" ++ toString m) ++ ":"] :=
  C17_label_forms.2.2.2 (.Variable .VAL ⟨.VAL, "x", 1⟩) (.Break "while_1") none
    ⟨⟨[[]], [], 1, 1, ["while_1"]⟩, []⟩
    ⟨⟨[[]], [], 1, 3, ["while_1"]⟩,
      ["# Process If", "# Process Variable", "jump_if_0 s1 else_start__2",
       "#If True Statement", "# Process Break", "jump while_1_end", "jump else_end__3",
       "else_start__2:", "#If False Statement", "else_end__3:"]⟩
    none rfl

/-! ## The loop stack without a loop -/

/-- C18: `while_stack_top` on a table whose loop stack is empty indexes the empty vector at
`size() - 1`, which is undefined behaviour, not a reported internal error: there is no check
of the size, and the same holds for `pop_from_while_stack` and for the constructor of `While`,
which call it; on a stack that is not empty it returns the last label pushed; after
`push_to_while_stack` it returns the label `getNextLabel("while")` gave, the depth is one
greater, and a pop gives back the stack from before the push. -/
theorem C18_while_stack_top_unchecked :
    (∀ t : SymbolTable, t.while_stack = [] →
      t.while_stack_size = 0 ∧
      t.while_stack_top = .error .undefined ∧
      (∀ msg : String, t.while_stack_top ≠ .error (.exit msg) ∧
        t.while_stack_top ≠ .error (.yyerror msg)) ∧
      t.pop_from_while_stack = .error .undefined ∧
      ∀ (cond statement : ASTNode) (fout : List String),
        ASTNode_While cond statement ⟨t, fout⟩ = (.error .undefined, ⟨t, fout⟩)) ∧
    SymbolTable.init.while_stack_top = .error .undefined ∧
    (∀ t : SymbolTable,
      t.push_to_while_stack.while_stack_top = .ok (t.getNextLabel "while").1 ∧
      t.push_to_while_stack.while_stack_size = t.while_stack_size + 1 ∧
      t.push_to_while_stack.label_allotment = t.label_allotment + 1 ∧
      ∃ t1, t.push_to_while_stack.pop_from_while_stack = .ok t1 ∧
        t1.while_stack = t.while_stack) := by
  refine ⟨?_, rfl, ?_⟩
  · intro t ht
    have htop : t.while_stack_top = .error .undefined := by
      simp [SymbolTable.while_stack_top, ht]
    refine ⟨by simp [SymbolTable.while_stack_size, ht], htop, ?_, ?_, ?_⟩
    · intro msg
      rw [htop]
      simp
    · simp [SymbolTable.pop_from_while_stack, htop]
    · intro cond statement fout
      simp [ASTNode_While, Compile.while_stack_top, htop, bind, Compile.andThen]
  · intro t
    refine ⟨?_, ?_, rfl, ?_⟩
    · simp [SymbolTable.push_to_while_stack, SymbolTable.while_stack_top,
        SymbolTable.getNextLabel]
    · simp [SymbolTable.push_to_while_stack, SymbolTable.while_stack_size,
        SymbolTable.getNextLabel]
    · exact ⟨_, pop_push t, rfl⟩

/-- The initial table: its loop stack is empty. -/
theorem C18_while_stack_top_unchecked_witness :
    SymbolTable.init.while_stack_size = 0 ∧
    SymbolTable.init.while_stack_top = .error .undefined ∧
    SymbolTable.init.pop_from_while_stack = .error .undefined :=
  ⟨(C18_while_stack_top_unchecked.1 SymbolTable.init rfl).1,
   (C18_while_stack_top_unchecked.1 SymbolTable.init rfl).2.1,
   (C18_while_stack_top_unchecked.1 SymbolTable.init rfl).2.2.2.1⟩

/-! ## Kind preservation -/

/-- C19: for a tree built by the constructors and every state of the globals, a slot that
`process` returns has the kind `getType` gives for the node: a `Variable` returns its bound
entry, whose kind is the kind of the node; a `Literal` a new slot of its kind; an `Assign` the
slot of its left side; unary minus, `Math2`, `BoolAnd`, `BoolOr`, `Not` and `Random` a new
`VAL` slot; so the kind `Print` reads from the slot of an item is the kind of the item. -/
theorem C19_kind_preservation (node : ASTNode) (hc : Constructed node) (w w1 : World)
    (entry : TableEntry) (hp : node.process w = (.ok (some entry), w1)) :
    entry.getType = node.getType ∧
    (∀ (rest : List ASTNode) (w2 : World),
      (∃ u, ASTNode.process_print (node :: rest) w = (.ok u, w2)) →
      node.getType = Typenames.VAL ∨ node.getType = Typenames.CHAR) := by
  have hkind := process_kind node hc w w1 entry hp
  refine ⟨hkind, ?_⟩
  rintro rest w2 ⟨u, hu⟩
  simp only [ASTNode.process_print] at hu
  rw [Compile.bind_ok _ _ _ _ _ hp] at hu
  have hty : item_getType (some entry) w1 = (.ok entry.getType, w1) := rfl
  rw [Compile.bind_ok _ _ _ _ _ hty, hkind] at hu
  by_cases h1 : node.getType = Typenames.VAL
  · exact Or.inl h1
  · by_cases h2 : node.getType = Typenames.CHAR
    · exact Or.inr h2
    · exfalso
      have : out_instruction_for node.getType w1
          = (.error (.yyerror "Internal Compiler Error: trying to print an type I can't handle yet"),
             w1) := by
        simp [out_instruction_for, h1, h2]
      rw [Compile.bind_error _ _ _ _ _ this] at hu
      simp at hu

/-- The assignment `c = 'a'` of a `CHAR` literal to a `CHAR` variable returns the slot of the
variable, of kind `CHAR`. -/
theorem C19_kind_preservation_witness :
    (⟨.CHAR, "c", 1⟩ : TableEntry).getType
      = (ASTNode.Assign .CHAR (.Variable .CHAR ⟨.CHAR, "c", 1⟩) (.Literal .CHAR "'a'")).getType :=
  (C19_kind_preservation
    (.Assign .CHAR (.Variable .CHAR ⟨.CHAR, "c", 1⟩) (.Literal .CHAR "'a'"))
    (Constructed.Assign (.Variable .CHAR ⟨.CHAR, "c", 1⟩) (.Literal .CHAR "'a'")
      ⟨SymbolTable.init, []⟩ _
      (Constructed.Variable ⟨.CHAR, "c", 1⟩ ⟨SymbolTable.init, []⟩ _ rfl)
      (Constructed.Literal .CHAR "'a'" ⟨SymbolTable.init, []⟩ _ rfl) rfl)
    ⟨⟨[[]], [], 1, 0, []⟩, []⟩
    ⟨⟨[[]], [⟨.CHAR, "", 2⟩], 2, 0, []⟩,
      ["# Process Assign", "# Process Variable", "val_copy 'a' s2", "val_copy s2 s1"]⟩
    ⟨.CHAR, "c", 1⟩ rfl).1

/-! ## Operators without a mnemonic -/

theorem lookup_of_not_mem (op : String) : ∀ (table : List (String × String)),
    op ∉ table.map Prod.fst → table.lookup op = none
  | [], _ => rfl
  | (key, value) :: rest, h => by
    simp only [List.map_cons, List.mem_cons, not_or] at h
    have hne : (op == key) = false := by simpa using h.1
    simp only [List.lookup, hne]
    exact lookup_of_not_mem op rest h.2

theorem op_to_instruction_at_of_not_mem (op : String)
    (hop : op ∉ op_to_instruction.map Prod.fst) :
    op_to_instruction_at op = "" ∧ op ∉ relational_ops := by
  refine ⟨?_, ?_⟩
  · simp only [op_to_instruction_at, lookup_of_not_mem op _ hop]
  · intro hrel
    apply hop
    revert hrel
    simp only [relational_ops, op_to_instruction, List.map_cons, List.map_nil, List.mem_cons,
      List.mem_singleton, List.not_mem_nil, or_false]
    tauto

/-- C21: an operator without entry in `op_to_instruction` gets the empty string as mnemonic
(`operator[]` of the map) and is not relational; `&&`, `||`, `!`, `+=`, `-=`, `*=` and `/=`
are in `math_ops` and have no entry, and no string outside `relational_ops` and `math_ops`
has one.  For such an operator the constructor of `Math2` succeeds on operands of kind `VAL`,
and on operands of any kinds when the operator is not in `math_ops` either, and builds the
node with the empty mnemonic.  When the operands of that node process to slots of kind `VAL`
or `CHAR`, as constructed operands of kind `VAL` do, `process` takes a new `VAL` slot,
appends the comment `# Math2 ` and the record made of the empty mnemonic, a blank, the first
operand slot, a blank, the second operand slot, a blank and the result slot, and returns the
result slot. -/
theorem C21_unmapped_operator (op : String) (hop : op ∉ op_to_instruction.map Prod.fst) :
    op_to_instruction_at op = "" ∧
    op ∉ relational_ops ∧
    (∀ o ∈ ["&&", "||", "!", "+=", "-=", "*=", "/="],
      o ∈ math_ops ∧ o ∉ op_to_instruction.map Prod.fst) ∧
    (∀ o : String, o ∉ relational_ops → o ∉ math_ops → o ∉ op_to_instruction.map Prod.fst) ∧
    (∀ (in1 in2 : ASTNode) (w0 : World),
      in1.getType = Typenames.VAL → in2.getType = Typenames.VAL →
      ASTNode_Math2 in1 in2 op w0 = (.ok (.Math2 "" in1 in2), w0)) ∧
    (op ∉ math_ops → ∀ (in1 in2 : ASTNode) (w0 : World),
      ASTNode_Math2 in1 in2 op w0 = (.ok (.Math2 "" in1 in2), w0)) ∧
    (∀ (in1 in2 node : ASTNode) (w0 w w1 w2 : World) (lhs rhs : TableEntry),
      (ASTNode_Math2 in1 in2 op w0).1 = .ok node →
      (lhs.getType = Typenames.VAL ∨ lhs.getType = Typenames.CHAR) →
      (rhs.getType = Typenames.VAL ∨ rhs.getType = Typenames.CHAR) →
      in1.process w = (.ok (some lhs), w1) →
      in2.process w1 = (.ok (some rhs), w2) →
      node.process w = (.ok (some ⟨.VAL, "", w2.table.location_allotment + 1⟩),
        { table := (w2.table.createEntry .VAL).2,
          fout := w2.fout ++ ["# Math2 " ++ "",
            "" ++ " " ++ ("s" ++ toString lhs.location) ++ " "
              ++ ("s" ++ toString rhs.location) ++ " "
              ++ ("s" ++ toString (w2.table.location_allotment + 1))] })) ∧
    (∀ (operand : ASTNode) (w w1 : World) (slot : TableEntry),
      Constructed operand → operand.getType = Typenames.VAL →
      operand.process w = (.ok (some slot), w1) → slot.getType = Typenames.VAL) := by
  obtain ⟨hat, hrel⟩ := op_to_instruction_at_of_not_mem op hop
  have hctor : ∀ (in1 in2 : ASTNode) (w0 : World),
      (op ∈ math_ops → in1.getType = Typenames.VAL ∧ in2.getType = Typenames.VAL) →
      ASTNode_Math2 in1 in2 op w0 = (.ok (.Math2 "" in1 in2), w0) := by
    intro in1 in2 w0 h
    rw [ASTNode_Math2_run, hat, if_neg (fun hc => hrel hc.1), if_neg]
    rintro ⟨hm, hne⟩
    obtain ⟨h1, h2⟩ := h hm
    rcases hne with hne | hne
    · exact hne h1
    · exact hne h2
  refine ⟨hat, hrel, by decide, ?_, ?_, ?_, ?_, ?_⟩
  · intro o hr hm hmem
    revert hr hm hmem
    simp only [relational_ops, math_ops, op_to_instruction, List.map_cons, List.map_nil,
      List.mem_cons, List.mem_singleton, List.not_mem_nil, or_false]
    tauto
  · intro in1 in2 w0 h1 h2
    exact hctor in1 in2 w0 (fun _ => ⟨h1, h2⟩)
  · intro hm in1 in2 w0
    exact hctor in1 in2 w0 (fun h => absurd h hm)
  · intro in1 in2 node w0 w w1 w2 lhs rhs hnode hlk hrk hlp hrp
    have hshape : node = .Math2 "" in1 in2 := by
      rw [ASTNode_Math2_run, hat, if_neg (fun hc => hrel hc.1)] at hnode
      split at hnode
      · simp at hnode
      · simp only [Except.ok.injEq] at hnode
        exact hnode.symm
    subst hshape
    simp only [ASTNode.process]
    rw [Compile.bind_ok _ _ _ _ _ hlp]
    rw [Compile.bind_ok _ _ _ _ _ hrp]
    rw [Compile.bind_ok _ _ _ _ _ (Compile.createEntry_run _ w2)]
    rw [Compile.bind_ok _ _ _ _ _ (Compile.emit_run _ _)]
    rw [Compile.bind_ok _ _ _ _ _ (render_some_run lhs _ hlk)]
    rw [Compile.bind_ok _ _ _ _ _ (render_some_run rhs _ hrk)]
    rw [Compile.bind_ok _ _ _ _ _ (render_some_run ⟨.VAL, "", _⟩ _ (Or.inl rfl))]
    rw [Compile.bind_ok _ _ _ _ _ (Compile.emit_run _ _)]
    simp
  · intro operand w w1 slot hc hk hp
    rw [process_kind operand hc w w1 slot hp, hk]

/-- The operator `&&` on the `VAL` literals `1` and `0`, from the initial table, and the
operator `%`, which is in neither set, on a `CHAR` and a `VAL` literal. -/
theorem C21_unmapped_operator_witness :
    ASTNode_Math2 (.Literal .VAL "1") (.Literal .VAL "0") "&&" ⟨SymbolTable.init, []⟩
      = (.ok (.Math2 "" (.Literal .VAL "1") (.Literal .VAL "0")), ⟨SymbolTable.init, []⟩) ∧
    (ASTNode.Math2 "" (.Literal .VAL "1") (.Literal .VAL "0")).process ⟨SymbolTable.init, []⟩
      = (.ok (some ⟨.VAL, "", 3⟩),
         ⟨⟨[[]], [⟨.VAL, "", 1⟩, ⟨.VAL, "", 2⟩, ⟨.VAL, "", 3⟩], 3, 0, []⟩,
          ["val_copy 1 s1", "val_copy 0 s2", "# Math2 ", " s1 s2 s3"]⟩) ∧
    ASTNode_Math2 (.Literal .CHAR "'a'") (.Literal .VAL "1") "%" ⟨SymbolTable.init, []⟩
      = (.ok (.Math2 "" (.Literal .CHAR "'a'") (.Literal .VAL "1")), ⟨SymbolTable.init, []⟩) :=
  ⟨(C21_unmapped_operator "&&" (by decide)).2.2.2.2.1
      (.Literal .VAL "1") (.Literal .VAL "0") ⟨SymbolTable.init, []⟩ rfl rfl,
   (C21_unmapped_operator "&&" (by decide)).2.2.2.2.2.2.1
      (.Literal .VAL "1") (.Literal .VAL "0")
      (.Math2 "" (.Literal .VAL "1") (.Literal .VAL "0"))
      ⟨SymbolTable.init, []⟩ ⟨SymbolTable.init, []⟩
      ⟨⟨[[]], [⟨.VAL, "", 1⟩], 1, 0, []⟩, ["val_copy 1 s1"]⟩
      ⟨⟨[[]], [⟨.VAL, "", 1⟩, ⟨.VAL, "", 2⟩], 2, 0, []⟩, ["val_copy 1 s1", "val_copy 0 s2"]⟩
      ⟨.VAL, "", 1⟩ ⟨.VAL, "", 2⟩ rfl (Or.inl rfl) (Or.inl rfl) rfl rfl,
   (C21_unmapped_operator "%" (by decide)).2.2.2.2.2.1 (by decide)
      (.Literal .CHAR "'a'") (.Literal .VAL "1") ⟨SymbolTable.init, []⟩⟩
